import Mathlib

set_option maxHeartbeats 1000000
set_option maxRecDepth 8000

/-!
Verification development for the AuroraCraft build pipeline runner
(server-side `BuildRunner`, its retry/continuation wrapper `callAI`,
the SSE stream endpoint, and the agentic quick-change loop).

The definitions below are a shallow embedding of the TypeScript source:
the runner is modelled as a deterministic state-passing interpreter that
records every externally visible primitive action (event emission, state
persistence, abort-signal check, upstream AI call, file-store write,
suspension, decision, delay) in an operation trace.  External
nondeterminism (upstream AI results, storage write failures, user
decisions on file errors, JSON-parse outcomes and the moment a
cancellation signal is raised) is supplied through oracle functions.
Time is measured as the number of recorded operations: the abort signal
reads true at a check exactly when the cancellation instant is at or
before the current trace length, which models a signal raised mid-run
and observed only at the source's explicit check sites.
-/

namespace AuroraCraft

-- ─── Data model (mirrors the interfaces in the runner module) ──────────

/-- `FileState.status` union from the source. -/
inductive FileStatus where
  | pending | generating | created | updating | updated
  | reading | read | deleting | deleted | error
  deriving DecidableEq, Repr

/-- `PhaseState.status` union from the source. -/
inductive PhaseStatus where
  | pending | active | reviewing | complete
  deriving DecidableEq, Repr

/-- `PlannedFile` of a `BuildPlan` phase. -/
structure PlannedFile where
  path : String
  name : String
  description : String
  deriving DecidableEq, Repr

/-- Plan-level `Phase`. -/
structure PlanPhase where
  name : String
  description : String
  files : List PlannedFile
  deriving DecidableEq, Repr

/-- `BuildPlan`. -/
structure BuildPlan where
  pluginName : String
  packageName : String
  description : String
  phases : List PlanPhase
  deriving DecidableEq, Repr

/-- Runtime `FileState`. -/
structure FileState where
  path : String
  name : String
  description : String
  status : FileStatus
  error : Option String := none
  deriving DecidableEq, Repr

/-- Runtime `PhaseState`. -/
structure PhaseState where
  name : String
  description : String
  status : PhaseStatus
  files : List FileState
  deriving DecidableEq, Repr

/-- The `BuildEvent` tagged union emitted on the event channel. -/
inductive BuildEvent where
  | planning
  | planReady (plan : BuildPlan)
  | planApproved
  | conversationResponse (content : String)
  | quickChangeStart (description : String) (files : List PlannedFile)
  | phaseStart (phaseIndex : Nat)
  | fileGenerating (phaseIndex fileIndex : Nat)
  | fileUpdating (phaseIndex fileIndex : Nat)
  | fileCreated (phaseIndex fileIndex : Nat) (path : String)
  | fileUpdated (phaseIndex fileIndex : Nat) (path : String)
  | fileError (phaseIndex fileIndex : Nat) (error : String)
  | fileReading (phaseIndex fileIndex : Nat)
  | fileRead (phaseIndex fileIndex : Nat) (path : String)
  | fileDeleting (phaseIndex fileIndex : Nat)
  | fileDeleted (phaseIndex fileIndex : Nat) (path : String)
  | dynamicFile (phaseIndex : Nat) (file : FileState)
  | phaseReviewing (phaseIndex : Nat)
  | phaseComplete (phaseIndex : Nat)
  | buildComplete (summary : String)
  | buildError (error : String)
  | thinking (message : String)
  deriving DecidableEq, Repr

/-- One externally visible primitive action of the runner.
`persist` records the fields of the `updateBuildState` call that matter
to the claims (the phases snapshot, the build status and the summary,
each present only when the source call includes that field). -/
inductive Op where
  | emit (e : BuildEvent)
  | persist (phases : Option (List PhaseState)) (status : Option String)
      (summary : Option String)
  | check (observed : Bool)
  | aiCall (tag : String)
  | aiCont (tail : String)
  | sleep (ms : Nat)
  | storeWrite (path : String) (content : String)
  | storeDelete (path : String)
  | suspendFE (path : String) (error : String) (timeoutMs : Nat)
  | decision (d : String)
  | message (content : String)
  deriving DecidableEq, Repr

/-- A review fix entry from a parsed review result. -/
structure Fix where
  path : String
  reason : String
  deriving DecidableEq, Repr

/-- Parsed phase-review outcome (the source parses JSON, with parse
failures collapsing to a passed review). -/
inductive ReviewParse where
  | passed
  | failed (fixes : List Fix)
  deriving DecidableEq, Repr

/-- Parsed agentic-step outcome; empty strings model absent JSON fields
(JavaScript falsy fallback). -/
structure AgenticStep where
  action : String
  path : String
  reason : String
  summary : String
  deriving DecidableEq, Repr

/-- Oracles for all external nondeterminism.  `ai n` is the outcome of
the n-th `callAIServer` invocation (an error message, or text plus
finish reason).  `writeRes n` is `none` when the n-th storage write
succeeds, and `some msg` when it throws.  `userDecision n` is the
resolution of the n-th file-error suspension; the 5-minute timeout path
is the oracle answering a value other than retry/cancel.  The parse
oracles abstract the source's JSON parse/repair helpers as pure
functions of the raw model text.  `cancelTime` is the instant (in trace
length) at which `cancel()` is issued, `none` when it never is. -/
structure Orcl where
  ai : Nat → Except String (String × String)
  writeRes : Nat → Option String
  userDecision : Nat → String
  parseList : String → List String
  parseReview : String → ReviewParse
  parseStep : String → Option AgenticStep
  readSummary : String → String
  cancelTime : Option Nat

/-- Mutable runner state threaded through the interpreter.  `memory` is
the Project Memory map, `store` the File Store contents, `fileIds` the
key set of `fileIdMap`, and `trace` the list of recorded operations.
`aiN`, `writeN`, `decN` count consumed oracle entries. -/
structure RunSt where
  phases : List PhaseState
  memory : List (String × String)
  store : List (String × String)
  fileIds : List String
  pendingFileError : Option (String × String)
  trace : List Op
  aiN : Nat
  writeN : Nat
  decN : Nat
  deriving Repr

-- ─── Small helpers ──────────────────────────────────────────────────────

/-- Association-list lookup (Map.get). -/
def alookup (m : List (String × String)) (k : String) : Option String :=
  match m with
  | [] => none
  | (k2, v) :: rest => if k2 = k then some v else alookup rest k

/-- Association-list upsert (Map.set). -/
def aupsert (m : List (String × String)) (k v : String) :
    List (String × String) :=
  match m with
  | [] => [(k, v)]
  | (k2, v2) :: rest =>
      if k2 = k then (k2, v) :: rest else (k2, v2) :: aupsert rest k v

/-- Association-list delete (Map.delete). -/
def adelete (m : List (String × String)) (k : String) :
    List (String × String) :=
  match m with
  | [] => []
  | (k2, v2) :: rest => if k2 = k then rest else (k2, v2) :: adelete rest k

/-- Append one operation to the trace. -/
def RunSt.push (s : RunSt) (op : Op) : RunSt :=
  { s with trace := s.trace ++ [op] }

/-- `abortController.signal.aborted` as read at the current instant:
true once the trace has reached the cancellation time. -/
def sigAborted (o : Orcl) (s : RunSt) : Bool :=
  match o.cancelTime with
  | none => false
  | some t => t ≤ s.trace.length

/-- Replace the element at one index, leaving everything else (and the
length, and out-of-range indices) unchanged. -/
def setIn {α : Type} (u : α → α) : List α → Nat → List α
  | [], _ => []
  | x :: rest, 0 => u x :: rest
  | x :: rest, n + 1 => x :: setIn u rest n

/-- Replace the status (and error) of file `fI` of phase `pI`
(`this.phases[pI].files[fI] = { ..., status, error }`). -/
def setFileStatus (phs : List PhaseState) (pI fI : Nat) (st : FileStatus)
    (err : Option String) : List PhaseState :=
  setIn
    (fun ph =>
      { ph with
          files :=
            setIn (fun f => { f with status := st, error := err }) ph.files fI })
    phs pI

/-- Replace the status of phase `pI`
(`this.phases[pI] = { ...this.phases[pI], status }`). -/
def setPhaseStatus (phs : List PhaseState) (pI : Nat) (st : PhaseStatus) :
    List PhaseState :=
  setIn (fun ph => { ph with status := st }) phs pI

/-- Append a dynamic file to phase `pI`'s files
(`this.phases[pI].files.push(f)`). -/
def pushFile (phs : List PhaseState) (pI : Nat) (f : FileState) :
    List PhaseState :=
  setIn (fun ph => { ph with files := ph.files ++ [f] }) phs pI

/-- Current status of file `fI` of phase `pI`, if present
(`this.phases[pI]?.files[fI]?.status`). -/
def fileStatusAt (phs : List PhaseState) (pI fI : Nat) : Option FileStatus :=
  (phs.get? pI).bind fun ph => (ph.files.get? fI).map (·.status)

/-- JavaScript `a || b` on strings (empty string is falsy). -/
def jsOr (a b : String) : String := if a = "" then b else a

-- ─── sanitizeError (source: BuildRunner.sanitizeError) ──────────────────

/-- Drop characters up to and including the first `>`, mirroring one
match of the `<[^>]*>` pattern after its opening `<`. -/
def dropTag : List Char → List Char
  | [] => []
  | c :: cs => if c = '>' then cs else dropTag cs

/-- Fuel-indexed worker for `stripTags`; the fuel is an upper bound on
the input length, so it never runs out on the initial call. -/
def stripTagsF : Nat → List Char → List Char
  | 0, l => l
  | _, [] => []
  | fuel + 1, c :: cs =>
      if c = '<' ∧ cs.contains '>' then stripTagsF fuel (dropTag cs)
      else c :: stripTagsF fuel cs

/-- `msg.replace(/<[^>]*>/g, "")`: remove every `<...>` block whose
closing `>` exists; a `<` with no later `>` is kept verbatim. -/
def stripTags (l : List Char) : List Char :=
  stripTagsF l.length l

/-- `BuildRunner.sanitizeError`: empty message fallback, markup strip,
length cap at 300 (297 characters plus an ellipsis). -/
def sanitizeError (msg : String) : String :=
  if msg = "" then "An unknown error occurred"
  else
    let clean := String.mk (stripTags msg.data)
    if clean.length > 300 then String.mk (clean.data.take 297 ++ "...".data)
    else clean

-- ─── Retry/continuation wrapper (source: BuildRunner.callAI) ────────────

/-- `MAX_RETRIES` constant. -/
def MAX_RETRIES : Nat := 2

/-- `RETRY_DELAYS` constant. -/
def RETRY_DELAYS : List Nat := [500, 2000]

/-- `MAX_CONTINUATIONS` constant. -/
def MAX_CONTINUATIONS : Nat := 3

/-- The fixed wait (`5 * 60 * 1000` ms) after which an unresolved
file-error suspension auto-resolves to skip. -/
def FILE_ERROR_TIMEOUT_MS : Nat := 5 * 60 * 1000

/-- The last `n` characters of a string (`fullText.slice(-2000)`). -/
def lastChars (n : Nat) (s : String) : String :=
  String.mk (s.data.drop (s.data.length - n))

/-- The auto-continuation loop inside `callAI`: while the finish reason
is `length`, up to `MAX_CONTINUATIONS` follow-up calls are issued, each
prompted with the last 2000 characters of the accumulated text, and the
results concatenated.  A cancellation observed at the loop head breaks
out (returning the text accumulated so far); an upstream error aborts
the attempt (it is caught by the retry loop's catch). -/
def contLoop (o : Orcl) (fuel : Nat) (fullText : String) (s : RunSt) :
    Except String String × RunSt :=
  match fuel with
  | 0 => (.ok fullText, s)
  | fuel + 1 =>
      let ab := sigAborted o s
      let s := s.push (.check ab)
      if ab then (.ok fullText, s)
      else
        let tail := lastChars 2000 fullText
        let s1 := { s.push (.aiCont tail) with aiN := s.aiN + 1 }
        match o.ai s.aiN with
        | .error msg => (.error msg, s1)
        | .ok (text, reason) =>
            let full := fullText ++ text
            if reason ≠ "length" then (.ok full, s1)
            else contLoop o fuel full s1

/-- One attempt plus the remaining retries of `callAI`'s for-loop.
`remaining` counts the attempts still allowed (the loop runs
`MAX_RETRIES + 1` attempts), `attemptIdx` is the current 0-based
attempt, `lastErr` the last caught error.  The signal is checked at the
top of every attempt; a caught error whose message is `Build cancelled`,
or one caught while the signal is aborted, is rethrown without retry;
otherwise the loop sleeps `RETRY_DELAYS[attempt]` and retries, and after
the final attempt the last error propagates. -/
def callAIGo (o : Orcl) (tag : String) :
    Nat → Nat → Option String → RunSt → Except String String × RunSt
  | 0, _, lastErr, s => (.error (lastErr.getD "AI call failed after retries"), s)
  | r + 1, attemptIdx, _, s =>
      let ab := sigAborted o s
      let s1 := s.push (.check ab)
      if ab then (.error "Build cancelled", s1)
      else
        let s2 := { s1.push (.aiCall tag) with aiN := s1.aiN + 1 }
        match o.ai s1.aiN with
        | .ok (text, reason) =>
            if reason = "length" ∧ text.length > 0 then
              match contLoop o MAX_CONTINUATIONS text s2 with
              | (.ok full, s3) => (.ok full, s3)
              | (.error msg, s3) =>
                  if msg = "Build cancelled" ∨ sigAborted o s3 then
                    (.error msg, s3)
                  else if r > 0 then
                    callAIGo o tag r (attemptIdx + 1) (some msg)
                      (s3.push (.sleep (RETRY_DELAYS.getD attemptIdx 0)))
                  else (.error msg, s3)
            else (.ok text, s2)
        | .error msg =>
            if msg = "Build cancelled" ∨ sigAborted o s2 then
              (.error msg, s2)
            else if r > 0 then
              callAIGo o tag r (attemptIdx + 1) (some msg)
                (s2.push (.sleep (RETRY_DELAYS.getD attemptIdx 0)))
            else (.error msg, s2)

/-- `BuildRunner.callAI`: bounded retry with backoff around one
`callAIServer` call plus auto-continuation.  `tag` names the prompt
kind of the call site (plan / generate / patch / review / ...). -/
def callAI (o : Orcl) (tag : String) (s : RunSt) :
    Except String String × RunSt :=
  callAIGo o tag (MAX_RETRIES + 1) 0 none s

-- ─── writeFile (source: BuildRunner.writeFile) ──────────────────────────

/-- `BuildRunner.writeFile`: update the existing file when its id is
known, else create it; on success Project Memory is updated; a storage
throw (oracle `writeRes`) leaves store and memory untouched. -/
def writeFile (o : Orcl) (filePath fileName content : String) (s : RunSt) :
    Except String Unit × RunSt :=
  match o.writeRes s.writeN with
  | some msg => (.error msg, { s with writeN := s.writeN + 1 })
  | none =>
      if s.fileIds.contains filePath then
        (.ok (),
          { s.push (.storeWrite filePath content) with
              writeN := s.writeN + 1
              store := aupsert s.store filePath content
              memory := aupsert s.memory filePath content })
      else
        (.ok (),
          { s.push (.storeWrite filePath content) with
              writeN := s.writeN + 1
              store := aupsert s.store filePath content
              memory := aupsert s.memory filePath content
              fileIds := s.fileIds ++ [filePath] })

-- ─── Plan access helpers ────────────────────────────────────────────────

/-- `this.plan.phases[pI]` with the out-of-range default of an empty
phase. -/
def planPhaseAt (plan : BuildPlan) (pI : Nat) : PlanPhase :=
  (plan.phases.get? pI).getD ⟨"", "", []⟩

/-- `phase.files[fI]` with an out-of-range default. -/
def planFileAt (plan : BuildPlan) (pI fI : Nat) : PlannedFile :=
  ((planPhaseAt plan pI).files.get? fI).getD ⟨"unknown", "unknown", ""⟩

/-- `this.phases[pI].files[fI] = { ...old, status }` (keeps the error
field, as the object spread does). -/
def setFStatus (phs : List PhaseState) (pI fI : Nat) (st : FileStatus) :
    List PhaseState :=
  setIn
    (fun ph =>
      { ph with
          files := setIn (fun f => { f with status := st }) ph.files fI })
    phs pI

/-- `path.split("/").pop() || path`. -/
def lastSegment (p : String) : String :=
  jsOr (((p.splitOn "/").getLast?).getD "") p

/-- JavaScript truthiness of a `Map.get` result: `undefined` and the
empty string are falsy. -/
def truthy (c : Option String) : Option String :=
  match c with
  | none => none
  | some s => if s = "" then none else some s

-- ─── File loop (source: BuildRunner.executePhases, file creation loop) ──

/-- Control outcome of one file-loop iteration: advance to the next
file, retry the same file, or throw out of the loop. -/
inductive FStep where
  | advance
  | stay
  | thrown (msg : String)
  deriving DecidableEq, Repr

/-- The catch branch of the file creation loop: sanitize the error, mark
the file `error`, emit `file-error`, persist, then suspend awaiting the
external retry/cancel decision (the 5-minute timeout resolves `skip`).
`cancel` throws `Build cancelled`, `retry` repeats the same file, any
other decision advances past the file. -/
def handleFileError (o : Orcl) (pI fI : Nat) (path rawMsg : String)
    (s : RunSt) : FStep × RunSt :=
  let em := sanitizeError rawMsg
  let s1 := { s with phases := setFileStatus s.phases pI fI .error (some em) }
  let s2 := ((s1.push (.emit (.fileError pI fI em))).push
      (.persist (some s1.phases) none none))
  let s3 := { s2.push (.suspendFE path em FILE_ERROR_TIMEOUT_MS) with
      pendingFileError := some (path, em) }
  let d := o.userDecision s3.decN
  let s4 := { s3.push (.decision d) with
      decN := s3.decN + 1, pendingFileError := none }
  if d = "cancel" then (.thrown "Build cancelled", s4)
  else if d = "retry" then (.stay, s4)
  else (.advance, s4)

/-- One iteration of the file creation loop: abort check, skip of files
already `created`/`updated` (re-emitting `file-created`), else mark
`generating`, call generation, write the result to the File Store, mark
`created`; a non-cancellation failure of the call or the write routes
through `handleFileError`. -/
def fileStep (o : Orcl) (plan : BuildPlan) (pI fI : Nat) (s : RunSt) :
    FStep × RunSt :=
  let ab := sigAborted o s
  let s0 := s.push (.check ab)
  if ab then (.thrown "Build cancelled", s0)
  else
    let cur := fileStatusAt s0.phases pI fI
    if cur = some .created ∨ cur = some .updated then
      (.advance, s0.push (.emit (.fileCreated pI fI (planFileAt plan pI fI).path)))
    else
      let file := planFileAt plan pI fI
      let s1 := { s0 with phases := setFStatus s0.phases pI fI .generating }
      let s2 := ((s1.push (.emit (.fileGenerating pI fI))).push
          (.persist (some s1.phases) none none))
      match callAI o "generate" s2 with
      | (.ok content, s3) =>
          match writeFile o file.path file.name content s3 with
          | (.ok _, s4) =>
              let s5 := { s4 with phases := setFStatus s4.phases pI fI .created }
              (.advance,
                ((s5.push (.emit (.fileCreated pI fI file.path))).push
                  (.persist (some s5.phases) none none)))
          | (.error m, s4) =>
              if m = "Build cancelled" then (.thrown m, s4)
              else handleFileError o pI fI (jsOr file.path "unknown file") m s4
      | (.error m, s3) =>
          if m = "Build cancelled" then (.thrown m, s3)
          else handleFileError o pI fI (jsOr file.path "unknown file") m s3

/-- The state reached inside a (non-skipped) file-loop iteration right
after the file is marked `generating` and the mark is emitted and
persisted: the generation call starts from here. -/
def genMarkSt (pI fI : Nat) (s : RunSt) : RunSt :=
  let s0 := s.push (.check false)
  let s1 := { s0 with phases := setFStatus s0.phases pI fI .generating }
  (s1.push (.emit (.fileGenerating pI fI))).push
    (.persist (some s1.phases) none none)

/-- The `while (fileIdx < phase.files.length)` loop; `fuel` bounds the
number of iterations (retries make the source loop unbounded), and an
exhausted fuel truncates the run. -/
def fileLoop (o : Orcl) (plan : BuildPlan) (pI : Nat) :
    Nat → Nat → RunSt → Except String Unit × RunSt
  | 0, _, s => (.ok (), s)
  | fuel + 1, fI, s =>
      if fI < (planPhaseAt plan pI).files.length then
        match fileStep o plan pI fI s with
        | (.advance, s1) => fileLoop o plan pI fuel (fI + 1) s1
        | (.stay, s1) => fileLoop o plan pI fuel fI s1
        | (.thrown m, s1) => (.error m, s1)
      else (.ok (), s)

-- ─── Dependency read pass (source: executePhases, file reading) ─────────

/-- The `for (const readPath of filesToRead)` body: abort check, skip of
paths without (truthy) Project Memory content, dynamic badge push,
summarizing read call (result discarded), status `read`. -/
def readEach (o : Orcl) (pI : Nat) :
    List String → Nat → RunSt → Except String Unit × RunSt
  | [], _, s => (.ok (), s)
  | readPath :: rest, dynIdx, s =>
      let ab := sigAborted o s
      let s0 := s.push (.check ab)
      if ab then (.error "Build cancelled", s0)
      else
        match truthy (alookup s0.memory readPath) with
        | none => readEach o pI rest dynIdx s0
        | some _ =>
            let readFileName := lastSegment readPath
            let df : FileState :=
              ⟨readPath, readFileName, "Reading for context", .reading, none⟩
            let s1 := { s0 with phases := pushFile s0.phases pI df }
            let s2 := (((s1.push (.emit (.dynamicFile pI df))).push
                (.emit (.fileReading pI dynIdx))).push
                (.persist (some s1.phases) none none))
            match callAI o "file-read" s2 with
            | (.error m, s3) => (.error m, s3)
            | (.ok _, s3) =>
                let s4 := { s3 with phases := setFStatus s3.phases pI dynIdx .read }
                let s5 := ((s4.push (.emit (.fileRead pI dynIdx readPath))).push
                    (.persist (some s4.phases) none none))
                readEach o pI rest (dynIdx + 1) s5
  termination_by l => l.length

/-- The dependency read pass: only when Project Memory is non-empty; a
read-check call selects existing files to read; any error other than
`Build cancelled` is swallowed (reading is non-fatal). -/
def readPass (o : Orcl) (plan : BuildPlan) (pI : Nat) (s : RunSt) :
    Except String Unit × RunSt :=
  if s.memory.length > 0 then
    let s0 := ((s.push (.emit (.thinking "Analyzing dependencies..."))).push
        (.persist none none none))
    match callAI o "read-check" s0 with
    | (.error m, s1) =>
        if m = "Build cancelled" then (.error m, s1) else (.ok (), s1)
    | (.ok text, s1) =>
        match readEach o pI (o.parseList text)
            (planPhaseAt plan pI).files.length s1 with
        | (.error m, s2) =>
            if m = "Build cancelled" then (.error m, s2) else (.ok (), s2)
        | (.ok _, s2) => (.ok (), s2)
  else (.ok (), s)

-- ─── Review / fix loop (source: executePhases, phase review) ────────────

/-- `files.findIndex(f => f.path === path)`, as an optional index. -/
def findIdxP (path : String) : List PlannedFile → Option Nat
  | [] => none
  | f :: rest =>
      if f.path = path then some 0 else (findIdxP path rest).map (· + 1)

/-- Scan all plan phases for the first one containing `path`. -/
def findPhaseWith (path : String) : List PlanPhase → Nat → Option (Nat × Nat)
  | [], _ => none
  | ph :: rest, k =>
      match findIdxP path ph.files with
      | some j => some (k, j)
      | none => findPhaseWith path rest (k + 1)

/-- Locating a fix target: first in the phase under review, else
anywhere in the plan (earlier, already-complete phases included). -/
def locateFix (plan : BuildPlan) (pI : Nat) (path : String) :
    Option (Nat × Nat) :=
  match findIdxP path (planPhaseAt plan pI).files with
  | some j => some (pI, j)
  | none => findPhaseWith path plan.phases 0

/-- Applying one review fix: abort check, locate the target anywhere in
the plan (skipping unknown paths), mark `updating`, patch when Project
Memory holds content for the path (else regenerate), write, mark
`updated` and emit `file-updated` with the located phase index; a
non-cancellation failure marks the file `error` with the raw message
and emits `file-error` (also with the located phase index), then the
fix loop continues. -/
def applyFix (o : Orcl) (plan : BuildPlan) (pI : Nat) (fix : Fix)
    (s : RunSt) : Except String Unit × RunSt :=
  let ab := sigAborted o s
  let s0 := s.push (.check ab)
  if ab then (.error "Build cancelled", s0)
  else
    match locateFix plan pI fix.path with
    | none => (.ok (), s0)
    | some (k, j) =>
        let fixFile := planFileAt plan k j
        let s1 := { s0 with phases := setFStatus s0.phases k j .updating }
        let s2 := ((s1.push (.emit (.fileUpdating k j))).push
            (.persist (some s1.phases) none none))
        let tag :=
          match truthy (alookup s2.memory fixFile.path) with
          | some _ => "patch"
          | none => "fix-generate"
        match callAI o tag s2 with
        | (.ok fixedContent, s3) =>
            match writeFile o fixFile.path fixFile.name fixedContent s3 with
            | (.ok _, s4) =>
                let s5 := { s4 with phases := setFStatus s4.phases k j .updated }
                (.ok (),
                  ((s5.push (.emit (.fileUpdated k j fixFile.path))).push
                    (.persist (some s5.phases) none none)))
            | (.error m, s4) =>
                if m = "Build cancelled" then (.error m, s4)
                else
                  let s5 := { s4 with
                      phases := setFileStatus s4.phases k j .error (some m) }
                  (.ok (),
                    ((s5.push (.emit (.fileError k j (jsOr m "Fix failed")))).push
                      (.persist (some s5.phases) none none)))
        | (.error m, s3) =>
            if m = "Build cancelled" then (.error m, s3)
            else
              let s4 := { s3 with
                  phases := setFileStatus s3.phases k j .error (some m) }
              (.ok (),
                ((s4.push (.emit (.fileError k j (jsOr m "Fix failed")))).push
                  (.persist (some s4.phases) none none)))

/-- The state reached inside a fix application right after the located
file is marked `updating` and the mark is emitted and persisted: the
patch/regeneration call starts from here. -/
def fixMarkSt (k j : Nat) (s : RunSt) : RunSt :=
  let s0 := s.push (.check false)
  let s1 := { s0 with phases := setFStatus s0.phases k j .updating }
  (s1.push (.emit (.fileUpdating k j))).push
    (.persist (some s1.phases) none none)

/-- `for (const fix of reviewResult.fixes)`. -/
def fixLoop (o : Orcl) (plan : BuildPlan) (pI : Nat) :
    List Fix → RunSt → Except String Unit × RunSt
  | [], s => (.ok (), s)
  | fix :: rest, s =>
      match applyFix o plan pI fix s with
      | (.error m, s1) => (.error m, s1)
      | (.ok _, s1) => fixLoop o plan pI rest s1

/-- The phase review block: abort check, mark `reviewing`, review call
over the phase's files that have Project Memory content; parse failures
and non-cancellation errors are swallowed (review is advisory); a
failed review runs the fix loop. -/
def reviewBlock (o : Orcl) (plan : BuildPlan) (pI : Nat) (s : RunSt) :
    Except String Unit × RunSt :=
  let ab := sigAborted o s
  let s0 := s.push (.check ab)
  if ab then (.error "Build cancelled", s0)
  else
    let s1 := { s0 with phases := setPhaseStatus s0.phases pI .reviewing }
    let s2 := ((s1.push (.emit (.phaseReviewing pI))).push
        (.persist (some s1.phases) (some "reviewing") none))
    let phaseFiles := (planPhaseAt plan pI).files.filter
        (fun f => (alookup s2.memory f.path).isSome)
    if phaseFiles.length > 0 then
      match callAI o "review" s2 with
      | (.error m, s3) =>
          if m = "Build cancelled" then (.error m, s3) else (.ok (), s3)
      | (.ok raw, s3) =>
          match o.parseReview raw with
          | .passed => (.ok (), s3)
          | .failed fixes =>
              match fixLoop o plan pI fixes s3 with
              | (.error m, s4) =>
                  if m = "Build cancelled" then (.error m, s4)
                  else (.ok (), s4)
              | (.ok _, s4) => (.ok (), s4)
    else (.ok (), s2)

-- ─── Phase loop and summary (source: executePhases, summaryPhase) ───────

/-- One iteration of the phase loop: abort check, skip of phases already
`complete`, else mark `active`, emit `phase-start`, persist, run the
read pass, the file loop and the review block, then mark `complete`. -/
def phaseIter (o : Orcl) (plan : BuildPlan) (fuel pI : Nat) (s : RunSt) :
    Except String Unit × RunSt :=
  let ab := sigAborted o s
  let s0 := s.push (.check ab)
  if ab then (.error "Build cancelled", s0)
  else if (s0.phases.get? pI).map (·.status) = some .complete then (.ok (), s0)
  else
    let s1 := { s0 with phases := setPhaseStatus s0.phases pI .active }
    let s2 := ((s1.push (.emit (.phaseStart pI))).push
        (.persist (some s1.phases) none none))
    match readPass o plan pI s2 with
    | (.error m, s3) => (.error m, s3)
    | (.ok _, s3) =>
        match fileLoop o plan pI fuel 0 s3 with
        | (.error m, s4) => (.error m, s4)
        | (.ok _, s4) =>
            match reviewBlock o plan pI s4 with
            | (.error m, s5) => (.error m, s5)
            | (.ok _, s5) =>
                let s6 := { s5 with
                    phases := setPhaseStatus s5.phases pI .complete }
                (.ok (),
                  ((s6.push (.emit (.phaseComplete pI))).push
                    (.persist (some s6.phases) (some "building") none)))

/-- `for (let phaseIdx = 0; ...)` driver. -/
def phaseLoopAux (o : Orcl) (plan : BuildPlan) (fuel : Nat) :
    Nat → Nat → RunSt → Except String Unit × RunSt
  | 0, _, s => (.ok (), s)
  | r + 1, pI, s =>
      match phaseIter o plan fuel pI s with
      | (.error m, s1) => (.error m, s1)
      | (.ok _, s1) => phaseLoopAux o plan fuel r (pI + 1) s1

/-- `BuildRunner.summaryPhase`. -/
def summaryPhase (o : Orcl) (s : RunSt) : Except String Unit × RunSt :=
  let ab := sigAborted o s
  let s0 := s.push (.check ab)
  if ab then (.error "Build cancelled", s0)
  else
    let s1 := ((s0.push (.emit (.thinking "Generating build summary..."))).push
        (.persist none none none))
    match callAI o "summary" s1 with
    | (.error m, s2) => (.error m, s2)
    | (.ok summary, s2) =>
        (.ok (),
          (((s2.push (.message summary)).push
            (.emit (.buildComplete summary))).push
            (.persist none (some "complete") (some summary))))

/-- `BuildRunner.executePhases` followed by the summary step. -/
def executePhases (o : Orcl) (plan : BuildPlan) (fuel : Nat) (s : RunSt) :
    Except String Unit × RunSt :=
  match phaseLoopAux o plan fuel plan.phases.length 0 s with
  | (.error m, s1) => (.error m, s1)
  | (.ok _, s1) => summaryPhase o s1

-- ─── Resume (source: BuildRunner.resume) ────────────────────────────────

/-- The persisted `Build` aggregate fields the runner reads. -/
structure BuildRec where
  status : String
  plan : Option BuildPlan
  phases : Option (List PhaseState)
  fileMemory : List (String × String)
  thinkingMessage : Option String := none
  summary : Option String := none
  error : Option String := none
  deriving Repr

/-- Project Memory after `resume`'s restoration: the serialized
`fileMemory` entries first, then `loadExistingFiles` overwriting from
the File Store (folders and files with falsy content are skipped). -/
def hydrateMemory (fileMemory storeFiles : List (String × String)) :
    List (String × String) :=
  (storeFiles.filter (fun f => f.2 ≠ "")).foldl
    (fun m f => aupsert m f.1 f.2)
    (fileMemory.foldl (fun m f => aupsert m f.1 f.2) [])

/-- The runner state a fresh `resume` starts from. -/
def initResumeSt (build : BuildRec) (storeFiles : List (String × String)) :
    RunSt :=
  { phases := build.phases.getD []
    memory := hydrateMemory build.fileMemory storeFiles
    store := storeFiles
    fileIds := (storeFiles.filter (fun f => f.2 ≠ "")).map (·.1)
    pendingFileError := none
    trace := []
    aiN := 0, writeN := 0, decN := 0 }

/-- The catch block shared by `start`/`resume`: a `Build cancelled`
error (or an aborted signal) emits a fixed cancellation message and
persists `cancelled`; anything else emits the sanitized message and
persists `error`. -/
def catchRun (o : Orcl) (m : String) (s : RunSt) : RunSt :=
  if m = "Build cancelled" ∨ sigAborted o s then
    ((s.push (.emit (.buildError "Build was cancelled"))).push
      (.persist none (some "cancelled") none))
  else
    ((s.push (.emit (.buildError (sanitizeError (jsOr m "Build failed"))))).push
      (.persist none (some "error") none))

/-- `BuildRunner.resume`: restore plan, phase states and Project Memory
from the build record, re-hydrate from the File Store, then emit
`plan-approved`, persist `building` and re-enter the phase loop —
planning and approval are not re-run. -/
def resume (o : Orcl) (build : BuildRec)
    (storeFiles : List (String × String)) (fuel : Nat) : RunSt :=
  let s := initResumeSt build storeFiles
  match build.plan with
  | none => catchRun o "No plan to resume from" s
  | some plan =>
      let s1 := ((s.push (.emit .planApproved)).push
          (.persist none (some "building") none))
      match executePhases o plan fuel s1 with
      | (.ok _, s2) => s2
      | (.error m, s2) => catchRun o m s2

/-- The build status the Build State Store holds after a trace (its
stored value starts at the build record's status and each persist
carrying a status overwrites it). -/
def dbStatus (build : BuildRec) (tr : List Op) : String :=
  tr.foldl
    (fun acc op =>
      match op with
      | .persist _ (some st) _ => st
      | _ => acc)
    build.status

/-- The phases snapshot the Build State Store holds after a trace. -/
def dbPhases (build : BuildRec) (tr : List Op) : Option (List PhaseState) :=
  tr.foldl
    (fun acc op =>
      match op with
      | .persist (some ps) _ _ => some ps
      | _ => acc)
    build.phases

-- ─── Agentic quick-change loop (source: planPhase, quick-change) ────────

/-- `MAX_AGENTIC_STEPS` constant. -/
def MAX_AGENTIC_STEPS : Nat := 20

/-- One entry of the agentic `actionsLog`. -/
structure ActionEntry where
  action : String
  path : String
  reason : String
  deriving DecidableEq, Repr

/-- The bullet list of non-read actions in a quick-change summary. -/
def mkChangeList (log : List ActionEntry) : String :=
  String.intercalate "\n"
    ((log.filter (fun a => a.action ≠ "read")).map
      (fun a => "- `" ++ a.path ++ "`: " ++ a.reason))

/-- The quick-change completion summary template. -/
def quickSummary (hd : String) (log : List ActionEntry) : String :=
  "**Quick Change Applied**" ++ "\n\n" ++ hd ++ "\n\n" ++ mkChangeList log

/-- The wrap-up after the step cap is reached (or a step parse fails):
persist a completed build whose summary is synthesized from the action
log. -/
def agenticWrapUp (desc : String) (log : List ActionEntry) (s : RunSt) :
    (Except String (String × List ActionEntry)) × RunSt :=
  let summaryContent := quickSummary (jsOr desc "Changes applied") log
  (.ok (summaryContent, log),
    (((s.push (.message summaryContent)).push
      (.emit (.buildComplete summaryContent))).push
      (.persist none (some "complete") (some summaryContent))))

/-- One agentic action body (`read` / `update` / `create` / `delete`;
any other action only logs).  Returns the updated file summaries and
file tree. -/
def agenticAction (o : Orcl) (step : AgenticStep) (fileName : String)
    (fileSummaries : List (String × String)) (fileTree : List String)
    (dynIdx : Nat) (s : RunSt) :
    (Except String (List (String × String) × List String)) × RunSt :=
  if step.action = "read" then
    let s0 := { s.push (.emit (.fileReading 0 dynIdx)) with
        phases := setFStatus s.phases 0 dynIdx .reading }
    let s1 := s0.push (.persist (some s0.phases) none none)
    match truthy (alookup s1.memory step.path) with
    | some _ =>
        match callAI o "file-read" s1 with
        | (.error m, s2) => (.error m, s2)
        | (.ok analysisRaw, s2) =>
            let s3 := { s2 with phases := setFStatus s2.phases 0 dynIdx .read }
            let s4 := ((s3.push (.emit (.fileRead 0 dynIdx step.path))).push
                (.persist (some s3.phases) none none))
            (.ok (fileSummaries ++ [(step.path, o.readSummary analysisRaw)],
              fileTree), s4)
    | none =>
        let s3 := { s1 with phases := setFStatus s1.phases 0 dynIdx .read }
        let s4 := ((s3.push (.emit (.fileRead 0 dynIdx step.path))).push
            (.persist (some s3.phases) none none))
        (.ok (fileSummaries, fileTree), s4)
  else if step.action = "update" then
    let s0 := { s.push (.emit (.fileUpdating 0 dynIdx)) with
        phases := setFStatus s.phases 0 dynIdx .updating }
    let s1 := s0.push (.persist (some s0.phases) none none)
    match truthy (alookup s1.memory step.path) with
    | some _ =>
        match callAI o "patch" s1 with
        | (.error m, s2) => (.error m, s2)
        | (.ok updatedContent, s2) =>
            match writeFile o step.path fileName updatedContent s2 with
            | (.error m, s3) => (.error m, s3)
            | (.ok _, s3) =>
                let s4 := { s3 with phases := setFStatus s3.phases 0 dynIdx .updated }
                let s5 := ((s4.push (.emit (.fileUpdated 0 dynIdx step.path))).push
                    (.persist (some s4.phases) none none))
                (.ok (fileSummaries, fileTree), s5)
    | none =>
        let s2 := { s1 with phases := setFStatus s1.phases 0 dynIdx .error }
        let s3 := ((s2.push
            (.emit (.fileError 0 dynIdx "File not found for update"))).push
            (.persist (some s2.phases) none none))
        (.ok (fileSummaries, fileTree), s3)
  else if step.action = "create" then
    let s0 := { s.push (.emit (.fileGenerating 0 dynIdx)) with
        phases := setFStatus s.phases 0 dynIdx .generating }
    let s1 := s0.push (.persist (some s0.phases) none none)
    match callAI o "generate" s1 with
    | (.error m, s2) => (.error m, s2)
    | (.ok content, s2) =>
        match writeFile o step.path fileName content s2 with
        | (.error m, s3) => (.error m, s3)
        | (.ok _, s3) =>
            let s4 := { s3 with phases := setFStatus s3.phases 0 dynIdx .created }
            let s5 := ((s4.push (.emit (.fileCreated 0 dynIdx step.path))).push
                (.persist (some s4.phases) none none))
            (.ok (fileSummaries, fileTree ++ [step.path]), s5)
  else if step.action = "delete" then
    let s0 := { s.push (.emit (.fileDeleting 0 dynIdx)) with
        phases := setFStatus s.phases 0 dynIdx .deleting }
    let s1 := s0.push (.persist (some s0.phases) none none)
    let s2 :=
      if s1.fileIds.contains step.path then
        { s1.push (.storeDelete step.path) with
            store := adelete s1.store step.path
            memory := adelete s1.memory step.path
            fileIds := s1.fileIds.filter (· ≠ step.path) }
      else s1
    let s3 := { s2 with phases := setFStatus s2.phases 0 dynIdx .deleted }
    let s4 := ((s3.push (.emit (.fileDeleted 0 dynIdx step.path))).push
        (.persist (some s3.phases) none none))
    (.ok (fileSummaries, fileTree.filter (· ≠ step.path)), s4)
  else (.ok (fileSummaries, fileTree), s)

/-- The agentic loop: bounded at `MAX_AGENTIC_STEPS` steps, each asking
the model for exactly one action; `done` completes the build with a
summary of the non-read actions, the cap (or a parse failure) falls
through to the synthesized wrap-up.  Returns the completion summary and
the full action log. -/
def agenticLoop (o : Orcl) (desc : String) :
    Nat → List (String × String) → List ActionEntry → List String → Nat →
    RunSt → (Except String (String × List ActionEntry)) × RunSt
  | 0, _, log, _, _, s => agenticWrapUp desc log s
  | n + 1, fileSummaries, log, fileTree, dynIdx, s =>
      let ab := sigAborted o s
      let s0 := s.push (.check ab)
      if ab then (.error "Build cancelled", s0)
      else
        let s1 := ((s0.push (.emit (.thinking "Deciding next action..."))).push
            (.persist none none none))
        match callAI o "agentic-step" s1 with
        | (.error m, s2) => (.error m, s2)
        | (.ok raw, s2) =>
            match o.parseStep raw with
            | none => agenticWrapUp desc log s2
            | some step =>
                if step.action = "done" then
                  let summaryContent :=
                    quickSummary (jsOr step.summary (jsOr desc "Changes applied")) log
                  (.ok (summaryContent, log),
                    (((s2.push (.message summaryContent)).push
                      (.emit (.buildComplete summaryContent))).push
                      (.persist none (some "complete") (some summaryContent))))
                else
                  let fileName := lastSegment step.path
                  let badgeStatus : FileStatus :=
                    if step.action = "read" then .reading
                    else if step.action = "update" then .updating
                    else if step.action = "create" then .generating
                    else if step.action = "delete" then .deleting
                    else .pending
                  let df : FileState :=
                    ⟨step.path, fileName, step.reason, badgeStatus, none⟩
                  let s3 := { s2 with phases := pushFile s2.phases 0 df }
                  let s4 := ((s3.push (.emit (.dynamicFile 0 df))).push
                      (.persist (some s3.phases) none none))
                  match agenticAction o step fileName fileSummaries fileTree dynIdx s4 with
                  | (.error m, s5) => (.error m, s5)
                  | (.ok (fs2, ft2), s5) =>
                      agenticLoop o desc n fs2
                        (log ++ [⟨step.action, step.path, step.reason⟩])
                        ft2 (dynIdx + 1) s5

/-- The quick-change branch of `planPhase`: empty dynamic phase, the
`quick-change-start` event, persisted `building`, then the agentic
loop from a file tree of the current Project Memory keys. -/
def quickChange (o : Orcl) (desc : String) (s : RunSt) :
    (Except String (String × List ActionEntry)) × RunSt :=
  let qphase : PhaseState := ⟨"Quick Change", desc, .active, []⟩
  let s0 := { s with phases := [qphase] }
  let s1 := ((s0.push
      (.emit (.quickChangeStart (jsOr desc "Applying changes") []))).push
      (.persist (some s0.phases) (some "building") none))
  agenticLoop o desc MAX_AGENTIC_STEPS [] [] (s1.memory.map (·.1)) 0 s1

-- ─── Cancellation entry point (source: BuildRunner.cancel) ──────────────

/-- The process-wide cancellation-relevant state: the abort flag of a
runner and the registry of active runner ids. -/
structure CancelState where
  aborted : Bool
  registry : List Nat
  deriving DecidableEq, Repr

/-- `BuildRunner.cancel`: abort the controller and drop the runner from
the active registry. -/
def cancelRunner (id : Nat) (c : CancelState) : CancelState :=
  { aborted := true, registry := c.registry.filter (· ≠ id) }

-- ─── SSE stream endpoint (source: routes.ts GET /api/builds/:id/stream) ─

/-- The fields of `BuildRunner.getSnapshot`'s result that the stream
endpoint reads. -/
structure Snapshot where
  plan : Option BuildPlan
  phases : List PhaseState
  status : String
  pendingFileError : Option (String × String)
  deriving Repr

/-- A live runner as seen by the route handler. -/
structure RunnerLive where
  plan : Option BuildPlan
  phases : List PhaseState
  pendingFileError : Option (String × String)
  deriving Repr

/-- `BuildRunner.getSnapshot` (status is the constant `building`). -/
def getSnapshot (r : RunnerLive) : Snapshot :=
  ⟨r.plan, r.phases, "building", r.pendingFileError⟩

/-- The state payload of the synthetic snapshot message. -/
structure SnapState where
  status : String
  plan : Option BuildPlan
  phases : Option (List PhaseState)
  thinkingMessage : Option String
  summary : Option String
  error : Option String
  pendingFileError : Option (String × String)
  deriving Repr

/-- JavaScript `a || b` where `a` is a possibly-absent object. -/
def jsOrOpt {α : Type} (a b : Option α) : Option α :=
  match a with
  | some x => some x
  | none => b

/-- The snapshot-state merge of the stream endpoint: live runner fields
win when the runner exists (its status string and phases array are
always truthy; a null plan falls back to the build record). -/
def mergeSnapshot (runner : Option RunnerLive) (b : BuildRec) : SnapState :=
  let rs := runner.map getSnapshot
  { status := jsOr ((rs.map (·.status)).getD "") b.status
    plan := jsOrOpt (rs.bind (·.plan)) b.plan
    phases := jsOrOpt (rs.map (·.phases)) b.phases
    thinkingMessage := b.thinkingMessage
    summary := b.summary
    error := b.error
    pendingFileError := rs.bind (·.pendingFileError) }

/-- A message written to one SSE subscriber. -/
inductive SseMsg where
  | snapshot (st : SnapState)
  | event (e : BuildEvent)
  | done
  deriving Repr

/-- The messages one subscriber receives: the synthetic snapshot first;
with a live runner, every event it emits while subscribed (in emission
order); without one, an immediate `done` terminator and nothing else. -/
def streamMsgs (runner : Option RunnerLive) (b : BuildRec)
    (live : List BuildEvent) : List SseMsg :=
  SseMsg.snapshot (mergeSnapshot runner b) ::
    (match runner with
     | some _ => live.map SseMsg.event
     | none => [SseMsg.done])

-- ─── Observation predicates over traces ─────────────────────────────────

/-- Status of phase `k` in a phases snapshot. -/
def phaseStatusIn (ps : List PhaseState) (k : Nat) : Option PhaseStatus :=
  (ps.get? k).map (·.status)

/-- Events named by the spec's persist-before-emit ordering guarantee. -/
def isTransitionEv : BuildEvent → Bool
  | .phaseStart _ => true
  | .fileGenerating _ _ => true
  | .fileCreated _ _ _ => true
  | .fileUpdated _ _ _ => true
  | .fileError _ _ _ => true
  | .phaseComplete _ => true
  | .buildComplete _ => true
  | _ => false

/-- A phase status at or past `active`. -/
def phaseReached : PhaseStatus → Bool
  | .pending => false
  | _ => true

/-- A file status past `pending`. -/
def fileStarted : FileStatus → Bool
  | .pending => false
  | _ => true

/-- A file status of `created` or `updated`. -/
def fileDone : FileStatus → Bool
  | .created => true
  | .updated => true
  | _ => false

/-- Whether a stored phases snapshot / status pair already records the
transition announced by an event (read generously: any status at or
past the announced one counts). -/
def recordsEv (psOpt : Option (List PhaseState)) (st : String)
    (e : BuildEvent) : Bool :=
  match e with
  | .phaseStart k =>
      ((psOpt.bind (fun l => phaseStatusIn l k)).map phaseReached).getD false
  | .fileGenerating k j =>
      ((psOpt.bind (fun l => fileStatusAt l k j)).map fileStarted).getD false
  | .fileCreated k j _ =>
      ((psOpt.bind (fun l => fileStatusAt l k j)).map fileDone).getD false
  | .fileUpdated k j _ =>
      decide (psOpt.bind (fun l => fileStatusAt l k j) = some .updated)
  | .fileError k j _ =>
      decide (psOpt.bind (fun l => fileStatusAt l k j) = some .error)
  | .phaseComplete k =>
      decide (psOpt.bind (fun l => phaseStatusIn l k) = some .complete)
  | .buildComplete _ => decide (st = "complete")
  | _ => true

/-- The claim's ordering guarantee as a decidable trace predicate: at
every emission of a transition event, the Build State Store (the build
record updated by all earlier persists) already records that
transition. -/
def persistedBeforeEmit (build : BuildRec) (tr : List Op) : Bool :=
  (List.range tr.length).all fun i =>
    match tr.get? i with
    | some (.emit e) =>
        !isTransitionEv e ||
          recordsEv (dbPhases build (tr.take i)) (dbStatus build (tr.take i)) e
    | _ => true

/-- Whether one persist operation's payload records an event. -/
def recordsPersist (ps : Option (List PhaseState)) (st sm : Option String)
    (e : BuildEvent) : Bool :=
  match e with
  | .phaseStart k =>
      ((ps.bind (fun l => phaseStatusIn l k)).map phaseReached).getD false
  | .fileGenerating k j =>
      ((ps.bind (fun l => fileStatusAt l k j)).map fileStarted).getD false
  | .fileCreated k j _ =>
      ((ps.bind (fun l => fileStatusAt l k j)).map fileDone).getD false
  | .fileUpdated k j _ =>
      decide (ps.bind (fun l => fileStatusAt l k j) = some .updated)
  | .fileError k j _ =>
      decide (ps.bind (fun l => fileStatusAt l k j) = some .error)
  | .phaseComplete k =>
      decide (ps.bind (fun l => phaseStatusIn l k) = some .complete)
  | .buildComplete _ => decide (st = some "complete")
  | _ => true

/-- Ops appended by a run segment are self-justifying when every
transition event emitted inside the segment is followed, still inside
the segment, by a persist whose payload records it. -/
def SegSelf (ext : List Op) : Prop :=
  ∀ i e, ext.get? i = some (.emit e) → isTransitionEv e = true →
    ∃ j ps st sm, i < j ∧ ext.get? j = some (.persist ps st sm) ∧
      recordsPersist ps st sm e = true

/-- The delays slept in a trace. -/
def sleepsOf (l : List Op) : List Nat :=
  l.filterMap fun op =>
    match op with
    | .sleep n => some n
    | _ => none

/-- Number of primary upstream calls in a trace. -/
def countAiCalls (l : List Op) : Nat :=
  (l.filter fun op =>
    match op with
    | .aiCall _ => true
    | _ => false).length

/-- Number of continuation calls in a trace. -/
def countAiConts (l : List Op) : Nat :=
  (l.filter fun op =>
    match op with
    | .aiCont _ => true
    | _ => false).length

/-- Number of agentic step decisions taken in a trace (each step begins
with its fixed thinking message). -/
def countThink (l : List Op) : Nat :=
  (l.filter fun op =>
    match op with
    | .emit (.thinking m) => m = "Deciding next action..."
    | _ => false).length

/-- The first `file-generating` event of a trace. -/
def firstGen : List Op → Option (Nat × Nat)
  | [] => none
  | .emit (.fileGenerating k j) :: _ => some (k, j)
  | _ :: rest => firstGen rest

/-- Index of the first file (from index `i`) whose status is neither
`created` nor `updated`. -/
def firstPendingAux : List FileState → Nat → Option Nat
  | [], _ => none
  | f :: rest, i =>
      if f.status = .created ∨ f.status = .updated then
        firstPendingAux rest (i + 1)
      else some i

/-- The operations a later state appended beyond an earlier one. -/
def traceExtOf (s s2 : RunSt) : List Op :=
  s2.trace.drop s.trace.length

/-- Two runner states with the same data fields (only the trace and the
AI-call counter may differ). -/
def sameCore (s s2 : RunSt) : Prop :=
  s2.phases = s.phases ∧ s2.memory = s.memory ∧ s2.store = s.store ∧
  s2.fileIds = s.fileIds ∧ s2.pendingFileError = s.pendingFileError ∧
  s2.decN = s.decN ∧ s2.writeN = s.writeN

/-- The operations `callAI` may append: signal checks, one kind of
primary call, continuation calls and backoff sleeps. -/
def CallOp (tag : String) (op : Op) : Prop :=
  (∃ b, op = .check b) ∨ op = .aiCall tag ∨ (∃ t, op = .aiCont t) ∨
    (∃ n, op = .sleep n)

-- ─── Concrete scenarios ─────────────────────────────────────────────────

/-- A neutral oracle every scenario specializes. -/
def pureO : Orcl :=
  { ai := fun _ => .ok ("", "stop")
    writeRes := fun _ => none
    userDecision := fun _ => "skip"
    parseList := fun _ => []
    parseReview := fun _ => .passed
    parseStep := fun _ => none
    readSummary := fun t => t
    cancelTime := none }

/-- A one-phase, one-file plan. -/
def planOne : BuildPlan :=
  ⟨"P", "com.x", "", [⟨"Phase1", "", [⟨"a.txt", "a.txt", "file a"⟩]⟩]⟩

/-- A fresh (all-pending) build record for `planOne`. -/
def buildFresh : BuildRec :=
  ⟨"building", some planOne,
   some [⟨"Phase1", "", .pending, [⟨"a.txt", "a.txt", "file a", .pending, none⟩]⟩],
   [], none, none, none⟩

/-- Upstream results of a fully successful run of `planOne`. -/
def exO2ai (n : Nat) : Except String (String × String) :=
  if n = 0 then .ok ("body0", "stop")
  else if n = 1 then .ok ("rev", "stop")
  else .ok ("sum", "stop")

/-- Oracle of a fully successful run of `planOne`. -/
def exO2 : Orcl := { pureO with ai := exO2ai }

/-- The successful run used against the persist-before-emit claim. -/
def runC2 : RunSt := resume exO2 buildFresh [] 10

/-- Oracle of a run whose only generation result is length-limited and
whose cancellation is raised while the generation is in flight (the
continuation-loop boundary observes it). -/
def exO5aai (n : Nat) : Except String (String × String) :=
  if n = 0 then .ok ("part1", "length") else .ok ("x", "stop")

def exO5a : Orcl := { pureO with ai := exO5aai, cancelTime := some 10 }

/-- A run where cancellation is observed at the continuation boundary
and the partial text is still committed afterwards. -/
def runC5a : RunSt := resume exO5a buildFresh [] 10

/-- The successful oracle with cancellation raised while the final
summary generation call is in flight. -/
def exO5b : Orcl := { exO2 with cancelTime := some 25 }

/-- A run where cancellation is raised during the summary call. -/
def runC5b : RunSt := resume exO5b buildFresh [] 10

/-- A long raw upstream error message with markup. -/
def rawC9 : String := String.mk ('<' :: 'b' :: '>' :: List.replicate 400 'a')

/-- Oracle whose phase review demands a fix whose patch call fails with
the raw message `rawC9` on all attempts. -/
def exO9ai (n : Nat) : Except String (String × String) :=
  if n = 0 then .ok ("body0", "stop")
  else if n = 1 then .ok ("revraw", "stop")
  else if n ≤ 4 then .error rawC9
  else .ok ("sum", "stop")

def exO9 : Orcl :=
  { pureO with
      ai := exO9ai
      parseReview := fun _ => .failed [⟨"a.txt", "missing import"⟩] }

/-- The run whose review-fix failure emits a file-error event. -/
def runC9 : RunSt := resume exO9 buildFresh [] 10

/-- A two-phase plan whose first phase holds the cross-phase fix
target. -/
def planTwo : BuildPlan :=
  ⟨"P2", "com.x", "",
   [⟨"Scaffolding", "", [⟨"PluginMain.java", "PluginMain.java", "main"⟩]⟩,
    ⟨"Features", "", [⟨"b.txt", "b.txt", "file b"⟩]⟩]⟩

/-- An empty initial runner state for component-level scenarios. -/
def st0 : RunSt :=
  { phases := [], memory := [], store := [], fileIds := []
    pendingFileError := none, trace := [], aiN := 0, writeN := 0, decN := 0 }

/-- Oracle whose attempt result is truncated three times in a row. -/
def exO6lenai (n : Nat) : Except String (String × String) :=
  if n = 0 then .ok ("A", "length")
  else if n = 1 then .ok ("B", "length")
  else if n = 2 then .ok ("C", "length")
  else .ok ("D", "length")

def exO6len : Orcl := { pureO with ai := exO6lenai }

/-- Oracle whose first continuation already completes. -/
def exO6stopai (n : Nat) : Except String (String × String) :=
  if n = 0 then .ok ("A", "length") else .ok ("B", "stop")

def exO6stop : Orcl := { pureO with ai := exO6stopai }

/-- Oracle failing every attempt with a distinct message. -/
def exO6errai (n : Nat) : Except String (String × String) :=
  .error (if n = 0 then "e0" else if n = 1 then "e1" else "e2")

def exO6err : Orcl := { pureO with ai := exO6errai }

/-- Oracle of an agentic run that creates one file and then reports
done. -/
def exOqc1ai (n : Nat) : Except String (String × String) :=
  if n = 0 then .ok ("s0", "stop")
  else if n = 1 then .ok ("gen1", "stop")
  else .ok ("s1", "stop")

def exOqc1step (raw : String) : Option AgenticStep :=
  if raw = "s0" then some ⟨"create", "f1", "add f1", ""⟩
  else if raw = "s1" then some ⟨"done", "", "", "All done"⟩
  else none

def exOqc1 : Orcl := { pureO with ai := exOqc1ai, parseStep := exOqc1step }

/-- The done-terminated quick change. -/
def runQC1 := quickChange exOqc1 "descX" st0

/-- Oracle of an agentic run that never reports done. -/
def exOqc2 : Orcl :=
  { pureO with
      ai := fun _ => .ok ("s", "stop")
      parseStep := fun _ => some ⟨"create", "f", "r", ""⟩ }

/-- The cap-terminated quick change. -/
def runQC2 := quickChange exOqc2 "descY" st0

/-- A runner state whose Project Memory holds the cross-phase fix
target. -/
def stMem : RunSt := { st0 with memory := [("PluginMain.java", "old")] }

-- ─── Emit/persist ordering and resume observations ──────────────────────

/-- Decidable check of `SegSelf` over a finite segment. -/
def segSelfB (ext : List Op) : Bool :=
  (List.range ext.length).all fun i =>
    match ext.get? i with
    | some (.emit e) =>
        !isTransitionEv e ||
          ((List.range ext.length).any fun j =>
            decide (i < j) &&
              (match ext.get? j with
               | some (.persist ps st sm) => recordsPersist ps st sm e
               | _ => false))
    | _ => true

/-- The `(phase, file)` coordinates of the `file-generating` events of a
trace, in emission order. -/
def gens (l : List Op) : List (Nat × Nat) :=
  l.filterMap fun op =>
    match op with
    | .emit (.fileGenerating k j) => some (k, j)
    | _ => none

/-- An operation that is not part of planning: neither the planning
upstream call nor a planning/plan-ready emission. -/
def NotPlanOp (op : Op) : Prop :=
  op ≠ .aiCall "plan" ∧ op ≠ .emit .planning ∧
    ∀ p, op ≠ .emit (.planReady p)

/-- The ops a phase-`pI` execution segment appends, together with its
effect on the phase states: nothing of planning, phase-start emitted
only for `pI`, `file-generating` emitted only for phase-`pI` files that
were not already `created`/`updated` at the segment's entry, other
phases untouched, and done files of phase `pI` keeping their status. -/
def PhaseSeg (pI : Nat) (s s' : RunSt) (ext : List Op) : Prop :=
  s'.trace = s.trace ++ ext ∧
  (∀ op ∈ ext, NotPlanOp op) ∧
  (∀ i, Op.emit (.phaseStart i) ∈ ext → i = pI) ∧
  (∀ kj ∈ gens ext, kj.1 = pI ∧
      fileStatusAt s.phases pI kj.2 ≠ some .created ∧
      fileStatusAt s.phases pI kj.2 ≠ some .updated) ∧
  (∀ q, q ≠ pI → s'.phases.get? q = s.phases.get? q) ∧
  (∀ r st, fileStatusAt s.phases pI r = some st →
      st = .created ∨ st = .updated → fileStatusAt s'.phases pI r = some st)

/-- The later state's trace extends the earlier one's (the interpreter
only appends operations). -/
def TrExt (s s' : RunSt) : Prop := ∃ ext, s'.trace = s.trace ++ ext

/-- A two-phase plan whose first phase is already done: the resume
scenario of the spec (phase 1 complete, phase 2 half-done). -/
def planP4 : BuildPlan :=
  ⟨"P4", "com.x", "",
   [⟨"PhaseA", "", [⟨"a.txt", "a.txt", "file a"⟩]⟩,
    ⟨"PhaseB", "", [⟨"b.txt", "b.txt", "file b"⟩,
      ⟨"c.txt", "c.txt", "file c"⟩]⟩]⟩

/-- Stored phase states for `planP4`: phase 0 complete with its file
created, phase 1 half-done (first file created, second pending). -/
def ps0P4 : List PhaseState :=
  [⟨"PhaseA", "", .complete,
    [⟨"a.txt", "a.txt", "file a", .created, none⟩]⟩,
   ⟨"PhaseB", "", .active,
    [⟨"b.txt", "b.txt", "file b", .created, none⟩,
     ⟨"c.txt", "c.txt", "file c", .pending, none⟩]⟩]

/-- The persisted build record of the half-done `planP4` run. -/
def buildP4 : BuildRec :=
  ⟨"error", some planP4, some ps0P4, [("a.txt", "content a")],
   none, none, none⟩

/-- File Store contents at resume time for `buildP4`. -/
def sfP4 : List (String × String) :=
  [("a.txt", "content a"), ("b.txt", "content b")]

/-- The state reached inside a read-pass iteration right after the
dynamic reading file is pushed and badge, reading event and persist are
recorded: the summarizing read call starts from here. -/
def readMarkSt (pI dynIdx : Nat) (readPath : String) (s : RunSt) : RunSt :=
  let df : FileState :=
    ⟨readPath, lastSegment readPath, "Reading for context", .reading, none⟩
  let s0 := s.push (.check false)
  let s1 := { s0 with phases := pushFile s0.phases pI df }
  ((s1.push (.emit (.dynamicFile pI df))).push
    (.emit (.fileReading pI dynIdx))).push
    (.persist (some s1.phases) none none)

/-- The state reached inside the review block right after the phase is
marked `reviewing` and the mark is emitted and persisted: the review
call starts from here. -/
def revMarkSt (pI : Nat) (s : RunSt) : RunSt :=
  let s0 := s.push (.check false)
  let s1 := { s0 with phases := setPhaseStatus s0.phases pI .reviewing }
  (s1.push (.emit (.phaseReviewing pI))).push
    (.persist (some s1.phases) (some "reviewing") none)

/-- The state reached inside a (non-skipped) phase-loop iteration right
after the phase is marked `active` and `phase-start` is emitted and
persisted: the read pass starts from here. -/
def phaseMarkSt (pI : Nat) (s : RunSt) : RunSt :=
  let s0 := s.push (.check false)
  let s1 := { s0 with phases := setPhaseStatus s0.phases pI .active }
  (s1.push (.emit (.phaseStart pI))).push
    (.persist (some s1.phases) none none)

-- ═══ Theorems ═══════════════════════════════════════════════════════════

-- ─── Generic list lemmas ────────────────────────────────────────────────

theorem getAppAt {α : Type} (A B : List α) (n : Nat) :
    (A ++ B).get? (A.length + n) = B.get? n := by
  induction A with
  | nil => simp
  | cons a as ih =>
      have h : (a :: as).length + n = (as.length + n) + 1 := by
        simp [List.length_cons]
        omega
      rw [h]
      simpa using ih

theorem getAppLt {α : Type} (A B : List α) (n : Nat) (h : n < A.length) :
    (A ++ B).get? n = A.get? n := by
  induction A generalizing n with
  | nil => simp at h
  | cons a as ih =>
      cases n with
      | zero => simp
      | succ m =>
          simp only [List.cons_append, List.get?_cons_succ]
          exact ih m (by simp [List.length_cons] at h; omega)

theorem setIn_getElem_self {α : Type} (u : α → α) (l : List α) (n : Nat) :
    (setIn u l n)[n]? = l[n]?.map u := by
  induction l generalizing n with
  | nil => simp [setIn]
  | cons x rest ih =>
      cases n with
      | zero => simp [setIn]
      | succ m => simpa [setIn] using ih m

theorem setIn_getElem_other {α : Type} (u : α → α) (l : List α) (n m : Nat)
    (h : m ≠ n) : (setIn u l n)[m]? = l[m]? := by
  induction l generalizing n m with
  | nil => simp [setIn]
  | cons x rest ih =>
      cases n with
      | zero =>
          cases m with
          | zero => exact absurd rfl h
          | succ k => simp [setIn]
      | succ n2 =>
          cases m with
          | zero => simp [setIn]
          | succ k => simpa [setIn] using ih n2 k (by omega)

theorem dropTag_length_le (l : List Char) : (dropTag l).length ≤ l.length := by
  induction l with
  | nil => simp [dropTag]
  | cons c cs ih =>
      by_cases h : c = '>'
      · simp [dropTag, h]
      · simp only [dropTag, if_neg h, List.length_cons]
        omega

-- ─── Status-access lemmas ───────────────────────────────────────────────

theorem fileStatusAt_eq (phs : List PhaseState) (pI fI : Nat) :
    fileStatusAt phs pI fI =
      (phs.get? pI).bind (fun ph => (ph.files.get? fI).map (·.status)) := rfl

theorem setFStatus_self (phs : List PhaseState) (pI fI : Nat)
    (st : FileStatus) :
    fileStatusAt (setFStatus phs pI fI st) pI fI =
      (fileStatusAt phs pI fI).map (fun _ => st) := by
  simp only [fileStatusAt, setFStatus, List.get?_eq_getElem?,
    setIn_getElem_self]
  cases phs[pI]? with
  | none => rfl
  | some ph =>
      simp only [Option.map_some', Option.some_bind, setIn_getElem_self]
      cases ph.files[fI]? with
      | none => rfl
      | some f => rfl

theorem setFStatus_other (phs : List PhaseState) (pI fI k j : Nat)
    (st : FileStatus) (h : ¬(k = pI ∧ j = fI)) :
    fileStatusAt (setFStatus phs pI fI st) k j = fileStatusAt phs k j := by
  by_cases hk : k = pI
  · subst hk
    have hj : j ≠ fI := fun hj => h ⟨rfl, hj⟩
    simp only [fileStatusAt, setFStatus, List.get?_eq_getElem?,
      setIn_getElem_self]
    cases phs[k]? with
    | none => rfl
    | some ph =>
        simp [setIn_getElem_other _ _ _ _ hj]
  · simp [fileStatusAt, setFStatus, List.get?_eq_getElem?,
      setIn_getElem_other _ _ _ _ hk]

theorem setFileStatus_self (phs : List PhaseState) (pI fI : Nat)
    (st : FileStatus) (err : Option String) :
    fileStatusAt (setFileStatus phs pI fI st err) pI fI =
      (fileStatusAt phs pI fI).map (fun _ => st) := by
  simp only [fileStatusAt, setFileStatus, List.get?_eq_getElem?,
    setIn_getElem_self]
  cases phs[pI]? with
  | none => rfl
  | some ph =>
      simp only [Option.map_some', Option.some_bind, setIn_getElem_self]
      cases ph.files[fI]? with
      | none => rfl
      | some f => rfl

theorem setFileStatus_other (phs : List PhaseState) (pI fI k j : Nat)
    (st : FileStatus) (err : Option String) (h : ¬(k = pI ∧ j = fI)) :
    fileStatusAt (setFileStatus phs pI fI st err) k j =
      fileStatusAt phs k j := by
  by_cases hk : k = pI
  · subst hk
    have hj : j ≠ fI := fun hj => h ⟨rfl, hj⟩
    simp only [fileStatusAt, setFileStatus, List.get?_eq_getElem?,
      setIn_getElem_self]
    cases phs[k]? with
    | none => rfl
    | some ph =>
        simp [setIn_getElem_other _ _ _ _ hj]
  · simp [fileStatusAt, setFileStatus, List.get?_eq_getElem?,
      setIn_getElem_other _ _ _ _ hk]

theorem setPhaseStatus_files (phs : List PhaseState) (p : Nat)
    (st : PhaseStatus) (k j : Nat) :
    fileStatusAt (setPhaseStatus phs p st) k j = fileStatusAt phs k j := by
  by_cases hk : k = p
  · subst hk
    simp only [fileStatusAt, setPhaseStatus, List.get?_eq_getElem?,
      setIn_getElem_self]
    cases phs[k]? with
    | none => rfl
    | some ph => rfl
  · simp [fileStatusAt, setPhaseStatus, List.get?_eq_getElem?,
      setIn_getElem_other _ _ _ _ hk]

-- ─── Persisted-status lemmas ────────────────────────────────────────────

theorem dbStatus_append (build : BuildRec) (a b : List Op) :
    dbStatus build (a ++ b) =
      b.foldl
        (fun acc op =>
          match op with
          | .persist _ (some st) _ => st
          | _ => acc)
        (dbStatus build a) := by
  simp [dbStatus, List.foldl_append]

-- ─── sanitizeError bound ────────────────────────────────────────────────

theorem sanitizeError_length_le (msg : String) :
    (sanitizeError msg).length ≤ 300 := by
  unfold sanitizeError
  by_cases h0 : msg = ""
  · simp only [if_pos h0]
    decide
  · simp only [if_neg h0]
    set clean := String.mk (stripTags msg.data) with hclean
    by_cases hlen : clean.length > 300
    · simp only [if_pos hlen]
      have h3 : (String.mk (clean.data.take 297 ++ "...".data)).length =
          (clean.data.take 297).length + 3 := by
        simp [String.length]
      rw [h3]
      have h4 := List.length_take 297 clean.data
      omega
    · simp only [if_neg hlen]
      omega

-- ─── C2 ─────────────────────────────────────────────────────────────────

/-- C2 (counterexample): on a fully successful fresh run of a
one-phase, one-file plan, the claimed ordering — every state-store
update recording a transition is committed before the corresponding
event is emitted — is false: the runner emits each event first and only
then persists (the very first `phase-start` emission happens while the
store still holds the phase as pending). -/
theorem c2_counterexample :
    persistedBeforeEmit buildFresh runC2.trace = false := by rfl

-- ─── C5 ─────────────────────────────────────────────────────────────────

/-- C5 (counterexample): (1) with a length-limited generation result
and a cancellation raised while the call is in flight, the continuation
loop observes the abort signal (a check reading true at trace index 10)
and then the runner still commits the partial text to the File Store
(the write at index 11) — a File Store write after the cancellation is
observed, because no check sits between a generation call's return and
the commit of its result; (2) a cancellation raised while the final
summary call is in flight (instant 25 of a 28-operation run) leaves the
terminal persisted status `complete`, not `cancelled`. -/
theorem c5_counterexample :
    (runC5a.trace.get? 10 = some (.check true) ∧
      runC5a.trace.get? 11 = some (.storeWrite "a.txt" "part1") ∧
      dbStatus buildFresh runC5a.trace = "cancelled") ∧
    (exO5b.cancelTime = some 25 ∧ runC5b.trace.length = 28 ∧
      dbStatus buildFresh runC5b.trace = "complete") := by
  exact ⟨⟨rfl, rfl, rfl⟩, rfl, rfl, rfl⟩

-- ─── C9 ─────────────────────────────────────────────────────────────────

/-- C9 (counterexample): the file-error event emitted by the
phase-review fix loop carries the raw upstream message unmodified — here
a 403-character string containing markup, distinct from its sanitized
form — so not every error-carrying event is sanitized and bounded. -/
theorem c9_counterexample :
    Op.emit (.fileError 0 0 rawC9) ∈ runC9.trace ∧
    sanitizeError rawC9 ≠ rawC9 ∧ 300 < rawC9.length := by
  refine ⟨?_, ?_, by decide⟩
  · have h : runC9.trace.get? 29 = some (.emit (.fileError 0 0 rawC9)) := by rfl
    exact List.get?_mem h
  · intro h
    have h2 : (sanitizeError rawC9).length = rawC9.length := by rw [h]
    have h3 : (sanitizeError rawC9).length ≤ 300 := sanitizeError_length_le rawC9
    have h4 : (300 : Nat) < rawC9.length := by decide
    omega

-- ─── C8 ─────────────────────────────────────────────────────────────────

/-- C8: every subscriber's first message is the synthetic snapshot; with
a live runner the snapshot state is reconstructed from the runner (its
status constant, its phases array, its plan falling back to the build
record when null, its pending file error), followed by the runner's
events; without a live runner the snapshot is built from the durable
build record and is immediately followed by a `done` terminator with no
further events. -/
theorem c8_snapshot_stream :
    (∀ (r : RunnerLive) (b : BuildRec) (live : List BuildEvent),
      (streamMsgs (some r) b live).head? =
          some (.snapshot (mergeSnapshot (some r) b)) ∧
      mergeSnapshot (some r) b =
        ⟨"building", jsOrOpt r.plan b.plan, some r.phases,
          b.thinkingMessage, b.summary, b.error, r.pendingFileError⟩ ∧
      streamMsgs (some r) b live =
        .snapshot (mergeSnapshot (some r) b) :: live.map .event) ∧
    (∀ (b : BuildRec) (live : List BuildEvent),
      streamMsgs none b live =
        [.snapshot ⟨b.status, b.plan, b.phases, b.thinkingMessage, b.summary,
          b.error, none⟩, .done]) := by
  constructor
  · intro r b live
    exact ⟨rfl, rfl, rfl⟩
  · intro b live
    rfl

-- ─── callAI extension lemmas ────────────────────────────────────────────

theorem sameCore_refl (s : RunSt) : sameCore s s :=
  ⟨rfl, rfl, rfl, rfl, rfl, rfl, rfl⟩

theorem sameCore_trans {s1 s2 s3 : RunSt} (h1 : sameCore s1 s2)
    (h2 : sameCore s2 s3) : sameCore s1 s3 := by
  obtain ⟨a1, a2, a3, a4, a5, a6, a7⟩ := h1
  obtain ⟨b1, b2, b3, b4, b5, b6, b7⟩ := h2
  exact ⟨b1.trans a1, b2.trans a2, b3.trans a3, b4.trans a4, b5.trans a5,
    b6.trans a6, b7.trans a7⟩

theorem countAiCalls_append (a b : List Op) :
    countAiCalls (a ++ b) = countAiCalls a + countAiCalls b := by
  simp [countAiCalls, List.filter_append]

theorem countAiConts_append (a b : List Op) :
    countAiConts (a ++ b) = countAiConts a + countAiConts b := by
  simp [countAiConts, List.filter_append]

theorem sleepsOf_append (a b : List Op) :
    sleepsOf (a ++ b) = sleepsOf a ++ sleepsOf b := by
  simp [sleepsOf, List.filterMap_append]

theorem countAiCalls_of_shape (ext : List Op)
    (h : ∀ op ∈ ext, (∃ b, op = Op.check b) ∨ (∃ t, op = Op.aiCont t)) :
    countAiCalls ext = 0 := by
  have : ext.filter (fun op =>
      match op with
      | .aiCall _ => true
      | _ => false) = [] := by
    rw [List.filter_eq_nil]
    intro a ha
    rcases h a ha with ⟨b, rfl⟩ | ⟨t, rfl⟩ <;> simp
  simp [countAiCalls, this]

theorem sleepsOf_of_shape (ext : List Op)
    (h : ∀ op ∈ ext, (∃ b, op = Op.check b) ∨ (∃ t, op = Op.aiCont t)) :
    sleepsOf ext = [] := by
  rw [sleepsOf, List.filterMap_eq_nil]
  intro a ha
  rcases h a ha with ⟨b, rfl⟩ | ⟨t, rfl⟩ <;> simp

theorem contLoop_ext (o : Orcl) (fuel : Nat) :
    ∀ (full : String) (s : RunSt),
      ∃ ext, (contLoop o fuel full s).2.trace = s.trace ++ ext ∧
        sameCore s (contLoop o fuel full s).2 ∧
        (∀ op ∈ ext, (∃ b, op = Op.check b) ∨ (∃ t, op = Op.aiCont t)) ∧
        countAiConts ext ≤ fuel := by
  induction fuel with
  | zero =>
      intro full s
      exact ⟨[], by simp [contLoop], sameCore_refl s, by simp,
        by simp [countAiConts]⟩
  | succ n ih =>
      intro full s
      cases hab : sigAborted o s with
      | true =>
          have hstep : contLoop o (n + 1) full s =
              (.ok full, s.push (.check true)) := by
            simp [contLoop, hab]
          rw [hstep]
          refine ⟨[.check true], by simp [RunSt.push],
            ⟨rfl, rfl, rfl, rfl, rfl, rfl, rfl⟩, ?_, by simp [countAiConts]⟩
          intro op hop
          simp at hop
          exact Or.inl ⟨true, hop⟩
      | false =>
          cases hai : o.ai s.aiN with
          | error msg =>
              have hstep : contLoop o (n + 1) full s =
                  (.error msg,
                    { (s.push (.check false)).push
                        (.aiCont (lastChars 2000 full)) with
                        aiN := s.aiN + 1 }) := by
                simp [contLoop, hab, RunSt.push, hai]
              rw [hstep]
              refine ⟨[.check false, .aiCont (lastChars 2000 full)],
                by simp [RunSt.push],
                ⟨rfl, rfl, rfl, rfl, rfl, rfl, rfl⟩, ?_,
                by simp [countAiConts, List.filter]⟩
              intro op hop
              simp only [List.mem_cons, List.mem_singleton,
                List.not_mem_nil, or_false] at hop
              rcases hop with h | h
              · exact Or.inl ⟨false, by simp [h]⟩
              · exact Or.inr ⟨lastChars 2000 full, h⟩
          | ok tr =>
              obtain ⟨text, reason⟩ := tr
              by_cases hlen : reason = "length"
              · have hstep : contLoop o (n + 1) full s =
                    contLoop o n (full ++ text)
                      { (s.push (.check false)).push
                          (.aiCont (lastChars 2000 full)) with
                          aiN := s.aiN + 1 } := by
                  simp [contLoop, hab, RunSt.push, hai, hlen]
                rw [hstep]
                obtain ⟨ext2, htr2, hsc2, hshape2, hcnt2⟩ :=
                  ih (full ++ text)
                    { (s.push (.check false)).push
                        (.aiCont (lastChars 2000 full)) with aiN := s.aiN + 1 }
                refine ⟨[.check false, .aiCont (lastChars 2000 full)] ++ ext2,
                  ?_, ?_, ?_, ?_⟩
                · rw [htr2]
                  simp [RunSt.push]
                · exact sameCore_trans ⟨rfl, rfl, rfl, rfl, rfl, rfl, rfl⟩ hsc2
                · intro op hop
                  rcases List.mem_append.mp hop with h | h
                  · simp only [List.mem_cons, List.mem_singleton,
                      List.not_mem_nil, or_false] at h
                    rcases h with h | h
                    · exact Or.inl ⟨false, by simp [h]⟩
                    · exact Or.inr ⟨lastChars 2000 full, h⟩
                  · exact hshape2 op h
                · rw [countAiConts_append]
                  have h1 : countAiConts [Op.check false,
                      Op.aiCont (lastChars 2000 full)] = 1 := by
                    simp [countAiConts, List.filter]
                  omega
              · have hstep : contLoop o (n + 1) full s =
                    (.ok (full ++ text),
                      { (s.push (.check false)).push
                          (.aiCont (lastChars 2000 full)) with
                          aiN := s.aiN + 1 }) := by
                  simp [contLoop, hab, RunSt.push, hai, hlen]
                rw [hstep]
                refine ⟨[.check false, .aiCont (lastChars 2000 full)],
                  by simp [RunSt.push],
                  ⟨rfl, rfl, rfl, rfl, rfl, rfl, rfl⟩, ?_,
                  by simp [countAiConts, List.filter]⟩
                intro op hop
                simp only [List.mem_cons, List.mem_singleton,
                  List.not_mem_nil, or_false] at hop
                rcases hop with h | h
                · exact Or.inl ⟨false, by simp [h]⟩
                · exact Or.inr ⟨lastChars 2000 full, h⟩

theorem rangeMap_succ (f : Nat → Nat) (m : Nat) :
    (List.range (m + 1)).map f = f 0 :: (List.range m).map (fun i => f (i + 1)) := by
  rw [List.range_succ_eq_map, List.map_cons, List.map_map]
  rfl

/-- The expected backoff delays when `m` retries happen starting at
attempt `aIdx`. -/
theorem expectedSleeps_shift (aIdx m : Nat) :
    (RETRY_DELAYS.getD aIdx 0) ::
        (List.range m).map (fun i => RETRY_DELAYS.getD (aIdx + 1 + i) 0) =
      (List.range (m + 1)).map (fun i => RETRY_DELAYS.getD (aIdx + i) 0) := by
  rw [rangeMap_succ (fun i => RETRY_DELAYS.getD (aIdx + i) 0) m]
  simp only [Nat.add_zero]
  congr 1
  apply List.map_congr_left
  intro a _
  congr 1
  omega

theorem callAIGo_ext (o : Orcl) (tag : String) :
    ∀ (r aIdx : Nat) (le : Option String) (s : RunSt),
      ∃ ext, (callAIGo o tag r aIdx le s).2.trace = s.trace ++ ext ∧
        sameCore s (callAIGo o tag r aIdx le s).2 ∧
        (∀ op ∈ ext, CallOp tag op) ∧
        countAiCalls ext ≤ r ∧
        ∃ m, sleepsOf ext =
            (List.range m).map (fun i => RETRY_DELAYS.getD (aIdx + i) 0) ∧
          (m + 1 ≤ r ∨ m = 0) := by
  intro r
  induction r with
  | zero =>
      intro aIdx le s
      exact ⟨[], by simp [callAIGo], sameCore_refl s, by simp,
        by simp [countAiCalls], 0, by simp [sleepsOf], Or.inr rfl⟩
  | succ r ih =>
      intro aIdx le s
      cases hab : sigAborted o s with
      | true =>
          have hstep : callAIGo o tag (r + 1) aIdx le s =
              (.error "Build cancelled", s.push (.check true)) := by
            simp [callAIGo, hab]
          rw [hstep]
          refine ⟨[.check true], by simp [RunSt.push],
            ⟨rfl, rfl, rfl, rfl, rfl, rfl, rfl⟩, ?_,
            by simp [countAiCalls, List.filter], 0, by simp [sleepsOf],
            Or.inr rfl⟩
          intro op hop
          simp only [List.mem_singleton] at hop
          exact Or.inl ⟨true, hop⟩
      | false =>
          cases hai : o.ai s.aiN with
          | error msg =>
              by_cases hcm : msg = "Build cancelled" ∨
                  sigAborted o
                    ({ (s.push (.check false)).push (.aiCall tag) with
                        aiN := s.aiN + 1 }) = true
              · have hstep : callAIGo o tag (r + 1) aIdx le s =
                    (.error msg,
                      { (s.push (.check false)).push (.aiCall tag) with
                          aiN := s.aiN + 1 }) := by
                  rcases hcm with h | h
                  · simp [callAIGo, hab, RunSt.push, hai, h]
                  · simp [callAIGo, hab, RunSt.push, hai] at h ⊢
                    simp [h]
                rw [hstep]
                refine ⟨[.check false, .aiCall tag], by simp [RunSt.push],
                  ⟨rfl, rfl, rfl, rfl, rfl, rfl, rfl⟩, ?_,
                  by simp [countAiCalls, List.filter], 0, by simp [sleepsOf],
                  Or.inr rfl⟩
                intro op hop
                simp only [List.mem_cons, List.mem_singleton,
                  List.not_mem_nil, or_false] at hop
                rcases hop with h | h
                · exact Or.inl ⟨false, h⟩
                · exact Or.inr (Or.inl h)
              · by_cases hr : r > 0
                · obtain ⟨ext2, htr2, hsc2, hshape2, hcnt2, m2, hsl2, hm2⟩ :=
                    ih (aIdx + 1) (some msg)
                      (({ (s.push (.check false)).push (.aiCall tag) with
                          aiN := s.aiN + 1 }).push
                        (.sleep (RETRY_DELAYS.getD aIdx 0)))
                  have hcm1 : ¬ msg = "Build cancelled" :=
                    fun h => hcm (Or.inl h)
                  have hcm2 : sigAborted o
                      ({ (s.push (.check false)).push (.aiCall tag) with
                          aiN := s.aiN + 1 }) = false := by
                    cases h2 : sigAborted o
                        ({ (s.push (.check false)).push (.aiCall tag) with
                            aiN := s.aiN + 1 }) with
                    | true => exact absurd (Or.inr h2) hcm
                    | false => rfl
                  simp [RunSt.push] at hcm2
                  have hstep : callAIGo o tag (r + 1) aIdx le s =
                      callAIGo o tag r (aIdx + 1) (some msg)
                        (({ (s.push (.check false)).push (.aiCall tag) with
                            aiN := s.aiN + 1 }).push
                          (.sleep (RETRY_DELAYS.getD aIdx 0))) := by
                    simp [callAIGo, hab, RunSt.push, hai, hcm1, hcm2, hr]
                  rw [hstep]
                  refine ⟨[.check false, .aiCall tag,
                      .sleep (RETRY_DELAYS.getD aIdx 0)] ++ ext2, ?_, ?_, ?_,
                      ?_, ?_⟩
                  · rw [htr2]
                    simp [RunSt.push]
                  · exact sameCore_trans
                      ⟨rfl, rfl, rfl, rfl, rfl, rfl, rfl⟩ hsc2
                  · intro op hop
                    rcases List.mem_append.mp hop with h | h
                    · simp only [List.mem_cons, List.mem_singleton,
                        List.not_mem_nil, or_false] at h
                      rcases h with h | h | h
                      · exact Or.inl ⟨false, h⟩
                      · exact Or.inr (Or.inl h)
                      · exact Or.inr (Or.inr (Or.inr
                          ⟨RETRY_DELAYS.getD aIdx 0, h⟩))
                    · exact hshape2 op h
                  · rw [countAiCalls_append]
                    have h1 : countAiCalls [Op.check false, Op.aiCall tag,
                        Op.sleep (RETRY_DELAYS.getD aIdx 0)] = 1 := by
                      simp [countAiCalls, List.filter]
                    omega
                  · refine ⟨m2 + 1, ?_, ?_⟩
                    · rw [sleepsOf_append]
                      have h1 : sleepsOf [Op.check false, Op.aiCall tag,
                          Op.sleep (RETRY_DELAYS.getD aIdx 0)] =
                          [RETRY_DELAYS.getD aIdx 0] := by
                        simp [sleepsOf]
                      rw [h1, hsl2]
                      exact expectedSleeps_shift aIdx m2
                    · omega
                · have hr0 : r = 0 := by omega
                  subst hr0
                  have hcm1 : ¬ msg = "Build cancelled" :=
                    fun h => hcm (Or.inl h)
                  have hcm2 : sigAborted o
                      ({ (s.push (.check false)).push (.aiCall tag) with
                          aiN := s.aiN + 1 }) = false := by
                    cases h2 : sigAborted o
                        ({ (s.push (.check false)).push (.aiCall tag) with
                            aiN := s.aiN + 1 }) with
                    | true => exact absurd (Or.inr h2) hcm
                    | false => rfl
                  simp [RunSt.push] at hcm2
                  have hstep : callAIGo o tag 1 aIdx le s =
                      (.error msg,
                        { (s.push (.check false)).push (.aiCall tag) with
                            aiN := s.aiN + 1 }) := by
                    simp [callAIGo, hab, RunSt.push, hai, hcm1, hcm2]
                  rw [hstep]
                  refine ⟨[.check false, .aiCall tag], by simp [RunSt.push],
                    ⟨rfl, rfl, rfl, rfl, rfl, rfl, rfl⟩, ?_,
                    by simp [countAiCalls, List.filter], 0,
                    by simp [sleepsOf], Or.inr rfl⟩
                  intro op hop
                  simp only [List.mem_cons, List.mem_singleton,
                    List.not_mem_nil, or_false] at hop
                  rcases hop with h | h
                  · exact Or.inl ⟨false, h⟩
                  · exact Or.inr (Or.inl h)
          | ok tr =>
              obtain ⟨text, reason⟩ := tr
              by_cases hlr : reason = "length" ∧ text.length > 0
              · obtain ⟨hlen1, hlen2⟩ := hlr
                rcases hcl : contLoop o MAX_CONTINUATIONS text
                    { (s.push (.check false)).push (.aiCall tag) with
                        aiN := s.aiN + 1 }
                  with ⟨res, s3⟩
                obtain ⟨ext3, htr3, hsc3, hshape3, hcnt3⟩ :=
                  contLoop_ext o MAX_CONTINUATIONS text
                    { (s.push (.check false)).push (.aiCall tag) with
                        aiN := s.aiN + 1 }
                rw [hcl] at htr3 hsc3
                have hcl2 := hcl
                simp [RunSt.push] at hcl2
                have hsc03 : sameCore s s3 :=
                  sameCore_trans ⟨rfl, rfl, rfl, rfl, rfl, rfl, rfl⟩ hsc3
                have htr03 : s3.trace =
                    s.trace ++ ([Op.check false, Op.aiCall tag] ++ ext3) := by
                  rw [htr3]
                  simp [RunSt.push]
                have hshape03 : ∀ op ∈ [Op.check false, Op.aiCall tag] ++ ext3,
                    CallOp tag op := by
                  intro op hop
                  rcases List.mem_append.mp hop with h | h
                  · simp only [List.mem_cons, List.mem_singleton,
                      List.not_mem_nil, or_false] at h
                    rcases h with h | h
                    · exact Or.inl ⟨false, h⟩
                    · exact Or.inr (Or.inl h)
                  · rcases hshape3 op h with ⟨b, hb⟩ | ⟨t, ht⟩
                    · exact Or.inl ⟨b, hb⟩
                    · exact Or.inr (Or.inr (Or.inl ⟨t, ht⟩))
                have hcnt03 : countAiCalls ([Op.check false, Op.aiCall tag]
                    ++ ext3) = 1 := by
                  rw [countAiCalls_append, countAiCalls_of_shape ext3 hshape3]
                  simp [countAiCalls, List.filter]
                have hsl03 : sleepsOf ([Op.check false, Op.aiCall tag]
                    ++ ext3) = [] := by
                  rw [sleepsOf_append, sleepsOf_of_shape ext3 hshape3]
                  simp [sleepsOf]
                cases res with
                | ok full =>
                    have hstep : callAIGo o tag (r + 1) aIdx le s =
                        (.ok full, s3) := by
                      simp [callAIGo, hab, RunSt.push, hai, hlen1, hlen2, hcl2]
                    rw [hstep]
                    exact ⟨[Op.check false, Op.aiCall tag] ++ ext3, htr03,
                      hsc03, hshape03, by omega, 0, by simpa using hsl03,
                      Or.inr rfl⟩
                | error msg =>
                    by_cases hcm : msg = "Build cancelled" ∨
                        sigAborted o s3 = true
                    · have hstep : callAIGo o tag (r + 1) aIdx le s =
                          (.error msg, s3) := by
                        rcases hcm with h | h
                        · simp [callAIGo, hab, RunSt.push, hai, hlen1, hlen2,
                            hcl2, h]
                        · simp [callAIGo, hab, RunSt.push, hai, hlen1, hlen2,
                            hcl2, h]
                      rw [hstep]
                      exact ⟨[Op.check false, Op.aiCall tag] ++ ext3, htr03,
                        hsc03, hshape03, by omega, 0, by simpa using hsl03,
                        Or.inr rfl⟩
                    · have hcm1 : ¬ msg = "Build cancelled" :=
                        fun h => hcm (Or.inl h)
                      have hcm2 : sigAborted o s3 = false := by
                        cases h2 : sigAborted o s3 with
                        | true => exact absurd (Or.inr h2) hcm
                        | false => rfl
                      by_cases hr : r > 0
                      · obtain ⟨ext4, htr4, hsc4, hshape4, hcnt4, m4, hsl4,
                            hm4⟩ :=
                          ih (aIdx + 1) (some msg)
                            (s3.push (.sleep (RETRY_DELAYS.getD aIdx 0)))
                        have hstep : callAIGo o tag (r + 1) aIdx le s =
                            callAIGo o tag r (aIdx + 1) (some msg)
                              (s3.push (.sleep (RETRY_DELAYS.getD aIdx 0))) := by
                          simp [callAIGo, hab, RunSt.push, hai, hlen1, hlen2,
                            hcl2, hcm1, hcm2, hr]
                        rw [hstep]
                        refine ⟨([Op.check false, Op.aiCall tag] ++ ext3 ++
                            [Op.sleep (RETRY_DELAYS.getD aIdx 0)]) ++ ext4,
                            ?_, ?_, ?_, ?_, ?_⟩
                        · rw [htr4]
                          simp only [RunSt.push, htr03]
                          simp [List.append_assoc]
                        · exact sameCore_trans hsc03 (sameCore_trans
                            ⟨rfl, rfl, rfl, rfl, rfl, rfl, rfl⟩ hsc4)
                        · intro op hop
                          rcases List.mem_append.mp hop with h | h
                          · rcases List.mem_append.mp h with h | h
                            · exact hshape03 op h
                            · simp only [List.mem_singleton] at h
                              exact Or.inr (Or.inr (Or.inr
                                ⟨RETRY_DELAYS.getD aIdx 0, h⟩))
                          · exact hshape4 op h
                        · rw [countAiCalls_append, countAiCalls_append]
                          have hz : countAiCalls
                              [Op.sleep (RETRY_DELAYS.getD aIdx 0)] = 0 := by
                            simp [countAiCalls, List.filter]
                          omega
                        · refine ⟨m4 + 1, ?_, by omega⟩
                          rw [sleepsOf_append, sleepsOf_append, hsl03, hsl4]
                          have hone : sleepsOf
                              [Op.sleep (RETRY_DELAYS.getD aIdx 0)] =
                              [RETRY_DELAYS.getD aIdx 0] := by
                            simp [sleepsOf]
                          rw [hone]
                          simpa using expectedSleeps_shift aIdx m4
                      · have hr0 : r = 0 := by omega
                        subst hr0
                        have hstep : callAIGo o tag 1 aIdx le s =
                            (.error msg, s3) := by
                          simp [callAIGo, hab, RunSt.push, hai, hlen1, hlen2,
                            hcl2, hcm1, hcm2]
                        rw [hstep]
                        exact ⟨[Op.check false, Op.aiCall tag] ++ ext3, htr03,
                          hsc03, hshape03, by omega, 0, by simpa using hsl03,
                          Or.inr rfl⟩
              · have hstep : callAIGo o tag (r + 1) aIdx le s =
                    (.ok text,
                      { (s.push (.check false)).push (.aiCall tag) with
                          aiN := s.aiN + 1 }) := by
                  simp [callAIGo, hab, RunSt.push, hai, hlr]
                rw [hstep]
                refine ⟨[.check false, .aiCall tag], by simp [RunSt.push],
                  ⟨rfl, rfl, rfl, rfl, rfl, rfl, rfl⟩, ?_,
                  by simp [countAiCalls, List.filter], 0, by simp [sleepsOf],
                  Or.inr rfl⟩
                intro op hop
                simp only [List.mem_cons, List.mem_singleton,
                  List.not_mem_nil, or_false] at hop
                rcases hop with h | h
                · exact Or.inl ⟨false, h⟩
                · exact Or.inr (Or.inl h)

theorem traceExtOf_eq {s s2 : RunSt} {ext : List Op}
    (h : s2.trace = s.trace ++ ext) : traceExtOf s s2 = ext := by
  simp [traceExtOf, h]

-- ─── C6 ─────────────────────────────────────────────────────────────────

/-- C6: every `callAI` invocation performs at most 3 primary attempts;
the delays slept between attempts are an increasing prefix of
[500, 2000]; a cancellation observed at an attempt boundary aborts
immediately (error `Build cancelled`, no call made); the continuation
loop issues at most 3 follow-up calls; concretely, three length-limited
results produce exactly 3 continuations whose prompts carry the tail of
the text accumulated so far and whose texts are concatenated, a
non-length continuation stops the loop early, and when every attempt
fails the last error (`e2`) propagates after sleeping 500 then 2000 ms
across exactly 3 attempts. -/
theorem c6_retry_continuation :
    (∀ (o : Orcl) (tag : String) (s : RunSt),
        countAiCalls (traceExtOf s (callAI o tag s).2) ≤ 3) ∧
    (∀ (o : Orcl) (tag : String) (s : RunSt),
        sleepsOf (traceExtOf s (callAI o tag s).2) = [] ∨
        sleepsOf (traceExtOf s (callAI o tag s).2) = [500] ∨
        sleepsOf (traceExtOf s (callAI o tag s).2) = [500, 2000]) ∧
    (∀ (o : Orcl) (tag : String) (s : RunSt), sigAborted o s = true →
        callAI o tag s = (.error "Build cancelled", s.push (.check true))) ∧
    (∀ (o : Orcl) (full : String) (s : RunSt),
        countAiConts
          (traceExtOf s (contLoop o MAX_CONTINUATIONS full s).2) ≤ 3) ∧
    ((callAI exO6len "file" st0).1 = .ok "ABCD" ∧
      (callAI exO6len "file" st0).2.trace =
        [.check false, .aiCall "file", .check false, .aiCont "A",
         .check false, .aiCont "AB", .check false, .aiCont "ABC"]) ∧
    ((callAI exO6stop "file" st0).1 = .ok "AB" ∧
      countAiConts (callAI exO6stop "file" st0).2.trace = 1) ∧
    ((callAI exO6err "file" st0).1 = .error "e2" ∧
      sleepsOf (callAI exO6err "file" st0).2.trace = [500, 2000] ∧
      countAiCalls (callAI exO6err "file" st0).2.trace = 3) := by
  refine ⟨?_, ?_, ?_, ?_, ⟨rfl, rfl⟩, ⟨rfl, rfl⟩, rfl, rfl, rfl⟩
  · intro o tag s
    obtain ⟨ext, htr, _, _, hcnt, _⟩ := callAIGo_ext o tag 3 0 none s
    rw [show (callAI o tag s) = callAIGo o tag 3 0 none s from rfl,
      traceExtOf_eq htr]
    exact hcnt
  · intro o tag s
    obtain ⟨ext, htr, _, _, _, m, hsl, hm⟩ := callAIGo_ext o tag 3 0 none s
    rw [show (callAI o tag s) = callAIGo o tag 3 0 none s from rfl,
      traceExtOf_eq htr]
    have hm3 : m = 0 ∨ m = 1 ∨ m = 2 := by omega
    rcases hm3 with h | h | h <;> subst h
    · left
      simpa using hsl
    · right
      left
      rw [hsl]
      rfl
    · right
      right
      rw [hsl]
      rfl
  · intro o tag s h
    simp [callAI, callAIGo, h]
  · intro o full s
    obtain ⟨ext, htr, _, _, hcnt⟩ := contLoop_ext o MAX_CONTINUATIONS full s
    rw [traceExtOf_eq htr]
    exact hcnt

/-- C6 (witness): the cancellation-abort conjunct instantiated at a
concrete oracle whose cancel instant is 0. -/
theorem c6_retry_continuation_witness :
    sigAborted { pureO with cancelTime := some 0 } st0 = true ∧
    callAI { pureO with cancelTime := some 0 } "generate" st0 =
      (.error "Build cancelled", st0.push (.check true)) :=
  ⟨by decide, c6_retry_continuation.2.2.1
    { pureO with cancelTime := some 0 } "generate" st0 (by decide)⟩

-- ─── writeFile / handleFileError / fileStep lemmas ──────────────────────

theorem alookup_aupsert (m : List (String × String)) (k v : String) :
    alookup (aupsert m k v) k = some v := by
  induction m with
  | nil => simp [aupsert, alookup]
  | cons kv rest ih =>
      obtain ⟨k2, v2⟩ := kv
      by_cases h : k2 = k
      · simp [aupsert, alookup, h]
      · simp [aupsert, alookup, h, ih]

theorem writeFile_err (o : Orcl) (p n c mm : String) (s : RunSt)
    (h : o.writeRes s.writeN = some mm) :
    writeFile o p n c s = (.error mm, { s with writeN := s.writeN + 1 }) := by
  simp [writeFile, h]

theorem writeFile_ok (o : Orcl) (p n c : String) (s : RunSt)
    (h : o.writeRes s.writeN = none) :
    (writeFile o p n c s).1 = .ok () ∧
    (writeFile o p n c s).2.phases = s.phases ∧
    (writeFile o p n c s).2.store = aupsert s.store p c ∧
    (writeFile o p n c s).2.memory = aupsert s.memory p c ∧
    (writeFile o p n c s).2.trace = s.trace ++ [.storeWrite p c] ∧
    (writeFile o p n c s).2.decN = s.decN ∧
    (writeFile o p n c s).2.pendingFileError = s.pendingFileError := by
  by_cases hc : p ∈ s.fileIds
  · simp [writeFile, h, hc, RunSt.push]
  · simp [writeFile, h, hc, RunSt.push]

theorem handleFileError_spec (o : Orcl) (pI fI : Nat) (path m : String)
    (s : RunSt) :
    (handleFileError o pI fI path m s).2 =
      { s with
          phases := setFileStatus s.phases pI fI .error
            (some (sanitizeError m))
          trace := s.trace ++
            [.emit (.fileError pI fI (sanitizeError m)),
             .persist (some (setFileStatus s.phases pI fI .error
               (some (sanitizeError m)))) none none,
             .suspendFE path (sanitizeError m) FILE_ERROR_TIMEOUT_MS,
             .decision (o.userDecision s.decN)]
          decN := s.decN + 1
          pendingFileError := none } ∧
    (handleFileError o pI fI path m s).1 =
      (if o.userDecision s.decN = "cancel" then .thrown "Build cancelled"
       else if o.userDecision s.decN = "retry" then .stay
       else .advance) := by
  constructor
  · simp only [handleFileError]
    split
    · simp [RunSt.push]
    · split <;> simp [RunSt.push]
  · simp only [handleFileError]
    split
    · simp_all [RunSt.push]
    · split <;> simp_all [RunSt.push]

theorem fileStep_run (o : Orcl) (plan : BuildPlan) (pI fI : Nat) (s : RunSt)
    (hab : sigAborted o s = false)
    (h1 : fileStatusAt s.phases pI fI ≠ some .created)
    (h2 : fileStatusAt s.phases pI fI ≠ some .updated) :
    fileStep o plan pI fI s =
      (match callAI o "generate" (genMarkSt pI fI s) with
       | (.ok content, s3) =>
           (match writeFile o (planFileAt plan pI fI).path
               (planFileAt plan pI fI).name content s3 with
            | (.ok _, s4) =>
                (.advance,
                  ((({ s4 with
                      phases := setFStatus s4.phases pI fI .created }).push
                    (.emit (.fileCreated pI fI (planFileAt plan pI fI).path))).push
                    (.persist (some (setFStatus s4.phases pI fI .created))
                      none none)))
            | (.error m, s4) =>
                if m = "Build cancelled" then (.thrown m, s4)
                else handleFileError o pI fI
                  (jsOr (planFileAt plan pI fI).path "unknown file") m s4)
       | (.error m, s3) =>
           if m = "Build cancelled" then (.thrown m, s3)
           else handleFileError o pI fI
             (jsOr (planFileAt plan pI fI).path "unknown file") m s3) := by
  have hskip : ¬(fileStatusAt s.phases pI fI = some .created ∨
      fileStatusAt s.phases pI fI = some .updated) := by
    rintro (h | h)
    exacts [h1 h, h2 h]
  simp only [fileStep, hab, Bool.false_eq_true, if_false, genMarkSt,
    RunSt.push]
  rw [if_neg hskip]

-- ─── C1 ─────────────────────────────────────────────────────────────────

/-- C1: in a file-loop iteration on a file not already created/updated,
the file's status becomes `created` only when a File Store write of the
generated content completed: whenever the resulting state (and hence
every state the runner subsequently persists) shows the file `created`,
the store holds content for the planned path, the trace contains the
store write strictly before the persist recording `created`; and if no
store write of that path happened in the iteration the status is never
`created` (a throwing write routes to the error handler, which marks the
file `error`). -/
theorem c1_write_before_created :
    ∀ (o : Orcl) (plan : BuildPlan) (pI fI : Nat) (s : RunSt),
      fileStatusAt s.phases pI fI ≠ some .created →
      fileStatusAt s.phases pI fI ≠ some .updated →
      (fileStatusAt (fileStep o plan pI fI s).2.phases pI fI =
            some .created →
          ∃ c, alookup (fileStep o plan pI fI s).2.store
              (planFileAt plan pI fI).path = some c ∧
            ∃ i j ps, i < j ∧
              (fileStep o plan pI fI s).2.trace.get? i =
                some (.storeWrite (planFileAt plan pI fI).path c) ∧
              (fileStep o plan pI fI s).2.trace.get? j =
                some (.persist (some ps) none none) ∧
              fileStatusAt ps pI fI = some .created) ∧
      ((∀ i c, s.trace.length ≤ i →
            (fileStep o plan pI fI s).2.trace.get? i ≠
              some (.storeWrite (planFileAt plan pI fI).path c)) →
          fileStatusAt (fileStep o plan pI fI s).2.phases pI fI ≠
            some .created) := by
  intro o plan pI fI s h1 h2
  cases hab : sigAborted o s with
  | true =>
      have hstep : fileStep o plan pI fI s =
          (.thrown "Build cancelled", s.push (.check true)) := by
        simp [fileStep, hab]
      rw [hstep]
      exact ⟨fun hc => absurd hc h1, fun _ => h1⟩
  | false =>
      rcases hai : callAI o "generate" (genMarkSt pI fI s) with ⟨res, sA⟩
      obtain ⟨ext, htr, hsc, hshape, _⟩ :=
        callAIGo_ext o "generate" 3 0 none (genMarkSt pI fI s)
      rw [show callAIGo o "generate" 3 0 none (genMarkSt pI fI s) =
          callAI o "generate" (genMarkSt pI fI s) from rfl, hai]
        at htr hsc
      have hphA : sA.phases = setFStatus s.phases pI fI .generating := by
        have h := hsc.1
        simp only [genMarkSt, RunSt.push] at h
        exact h
      have hgenA : fileStatusAt sA.phases pI fI ≠ some .created := by
        rw [hphA, setFStatus_self]
        cases fileStatusAt s.phases pI fI <;> simp
      have hlensA : s.trace.length + 3 ≤ sA.trace.length := by
        rw [htr]
        simp [genMarkSt, RunSt.push]
      cases res with
      | error m =>
          have hmidE : fileStep o plan pI fI s =
              (if m = "Build cancelled" then (FStep.thrown m, sA)
               else handleFileError o pI fI
                 (jsOr (planFileAt plan pI fI).path "unknown file") m sA) := by
            rw [fileStep_run o plan pI fI s hab h1 h2, hai]
          rw [hmidE]
          by_cases hm : m = "Build cancelled"
          · rw [if_pos hm]
            exact ⟨fun hc => absurd hc hgenA, fun _ => hgenA⟩
          · rw [if_neg hm]
            have hHE := (handleFileError_spec o pI fI
              (jsOr (planFileAt plan pI fI).path "unknown file") m sA).1
            have hph : fileStatusAt
                (handleFileError o pI fI
                  (jsOr (planFileAt plan pI fI).path "unknown file") m
                  sA).2.phases pI fI ≠ some .created := by
              rw [hHE]
              show fileStatusAt (setFileStatus sA.phases pI fI .error
                (some (sanitizeError m))) pI fI ≠ some .created
              rw [setFileStatus_self]
              cases fileStatusAt sA.phases pI fI <;> simp
            exact ⟨fun hc => absurd hc hph, fun _ => hph⟩
      | ok content =>
          have hmid : fileStep o plan pI fI s =
              (match writeFile o (planFileAt plan pI fI).path
                  (planFileAt plan pI fI).name content sA with
               | (.ok _, s4) =>
                   (.advance,
                     ((({ s4 with
                         phases := setFStatus s4.phases pI fI .created }).push
                       (.emit (.fileCreated pI fI
                         (planFileAt plan pI fI).path))).push
                       (.persist (some (setFStatus s4.phases pI fI .created))
                         none none)))
               | (.error m, s4) =>
                   if m = "Build cancelled" then (.thrown m, s4)
                   else handleFileError o pI fI
                     (jsOr (planFileAt plan pI fI).path "unknown file")
                     m s4) := by
            rw [fileStep_run o plan pI fI s hab h1 h2, hai]
          cases hwr : o.writeRes sA.writeN with
          | some mm =>
              have hmid2 : fileStep o plan pI fI s =
                  (if mm = "Build cancelled" then
                    (FStep.thrown mm, { sA with writeN := sA.writeN + 1 })
                   else handleFileError o pI fI
                     (jsOr (planFileAt plan pI fI).path "unknown file") mm
                     { sA with writeN := sA.writeN + 1 }) := by
                rw [hmid, writeFile_err o (planFileAt plan pI fI).path
                  (planFileAt plan pI fI).name content mm sA hwr]
              rw [hmid2]
              by_cases hm : mm = "Build cancelled"
              · rw [if_pos hm]
                have hun : fileStatusAt
                    ({ sA with writeN := sA.writeN + 1 }).phases pI fI ≠
                      some .created := hgenA
                exact ⟨fun hc => absurd hc hun, fun _ => hun⟩
              · rw [if_neg hm]
                have hHE := (handleFileError_spec o pI fI
                  (jsOr (planFileAt plan pI fI).path "unknown file") mm
                  { sA with writeN := sA.writeN + 1 }).1
                have hph : fileStatusAt
                    (handleFileError o pI fI
                      (jsOr (planFileAt plan pI fI).path "unknown file") mm
                      { sA with writeN := sA.writeN + 1 }).2.phases pI fI ≠
                      some .created := by
                  rw [hHE]
                  show fileStatusAt (setFileStatus sA.phases pI fI .error
                    (some (sanitizeError mm))) pI fI ≠ some .created
                  rw [setFileStatus_self]
                  cases fileStatusAt sA.phases pI fI <;> simp
                exact ⟨fun hc => absurd hc hph, fun _ => hph⟩
          | none =>
              obtain ⟨hres, hphW, hstW, _, htrW, _, _⟩ :=
                writeFile_ok o (planFileAt plan pI fI).path
                  (planFileAt plan pI fI).name content sA hwr
              rcases hwf : writeFile o (planFileAt plan pI fI).path
                  (planFileAt plan pI fI).name content sA with ⟨wres, s4⟩
              rw [hwf] at hres hphW hstW htrW
              simp only at hres hphW hstW htrW
              subst hres
              have hmid3 : fileStep o plan pI fI s =
                  (.advance,
                    ((({ s4 with
                        phases := setFStatus s4.phases pI fI .created }).push
                      (.emit (.fileCreated pI fI
                        (planFileAt plan pI fI).path))).push
                      (.persist (some (setFStatus s4.phases pI fI .created))
                        none none))) := by
                rw [hmid, hwf]
              rw [hmid3]
              have hTRF : (((({ s4 with
                  phases := setFStatus s4.phases pI fI .created }).push
                  (.emit (.fileCreated pI fI (planFileAt plan pI fI).path))).push
                  (.persist (some (setFStatus s4.phases pI fI .created))
                    none none))).trace =
                  sA.trace ++
                    [Op.storeWrite (planFileAt plan pI fI).path content,
                     Op.emit (.fileCreated pI fI (planFileAt plan pI fI).path),
                     Op.persist (some (setFStatus s4.phases pI fI .created))
                       none none] := by
                simp [RunSt.push, htrW]
              have hget0 : (((({ s4 with
                  phases := setFStatus s4.phases pI fI .created }).push
                  (.emit (.fileCreated pI fI (planFileAt plan pI fI).path))).push
                  (.persist (some (setFStatus s4.phases pI fI .created))
                    none none))).trace.get? sA.trace.length =
                  some (Op.storeWrite (planFileAt plan pI fI).path content) := by
                rw [hTRF]
                have h := getAppAt sA.trace
                  [Op.storeWrite (planFileAt plan pI fI).path content,
                   Op.emit (.fileCreated pI fI (planFileAt plan pI fI).path),
                   Op.persist (some (setFStatus s4.phases pI fI .created))
                     none none] 0
                simpa using h
              have hget2 : (((({ s4 with
                  phases := setFStatus s4.phases pI fI .created }).push
                  (.emit (.fileCreated pI fI (planFileAt plan pI fI).path))).push
                  (.persist (some (setFStatus s4.phases pI fI .created))
                    none none))).trace.get? (sA.trace.length + 2) =
                  some (Op.persist (some (setFStatus s4.phases pI fI .created))
                    none none) := by
                rw [hTRF]
                have h := getAppAt sA.trace
                  [Op.storeWrite (planFileAt plan pI fI).path content,
                   Op.emit (.fileCreated pI fI (planFileAt plan pI fI).path),
                   Op.persist (some (setFStatus s4.phases pI fI .created))
                     none none] 2
                simpa using h
              constructor
              · intro hc
                have hcs : fileStatusAt (setFStatus s4.phases pI fI .created)
                    pI fI = some .created := by
                  have hc2 : fileStatusAt (setFStatus s4.phases pI fI
                      .created) pI fI = some .created := hc
                  exact hc2
                refine ⟨content, ?_, sA.trace.length, sA.trace.length + 2,
                  setFStatus s4.phases pI fI .created, by omega, hget0, hget2,
                  hcs⟩
                show alookup s4.store (planFileAt plan pI fI).path =
                  some content
                rw [hstW]
                exact alookup_aupsert _ _ _
              · intro hno
                exfalso
                exact hno sA.trace.length content (by omega) hget0

/-- C1 (witness): the theorem applied to the concrete fresh one-file
build whose generation succeeds. -/
theorem c1_write_before_created_witness :
    fileStatusAt (initResumeSt buildFresh []).phases 0 0 ≠
        some FileStatus.created ∧
    fileStatusAt (initResumeSt buildFresh []).phases 0 0 ≠
        some FileStatus.updated ∧
    (∃ c, alookup
        (fileStep exO2 planOne 0 0 (initResumeSt buildFresh [])).2.store
        (planFileAt planOne 0 0).path = some c ∧
      ∃ i j ps, i < j ∧
        (fileStep exO2 planOne 0 0
          (initResumeSt buildFresh [])).2.trace.get? i =
            some (.storeWrite (planFileAt planOne 0 0).path c) ∧
        (fileStep exO2 planOne 0 0
          (initResumeSt buildFresh [])).2.trace.get? j =
            some (.persist (some ps) none none) ∧
        fileStatusAt ps 0 0 = some .created) :=
  ⟨by decide, by decide,
    (c1_write_before_created exO2 planOne 0 0 (initResumeSt buildFresh [])
      (by decide) (by decide)).1 (by decide)⟩

-- ─── C4 ─────────────────────────────────────────────────────────────────

/-- C4: when generation of a file fails past the internal retry budget,
the handler marks the file `error` with the sanitized message, emits
`file-error`, persists, then suspends with the bounded 5-minute
auto-skip timeout and consumes exactly one external decision; the whole
build is aborted (`Build cancelled` thrown) exactly when the decision is
`cancel`, the same file is re-run exactly when it is `retry`, and any
other decision (the timeout included) leaves the file `error` and
advances: the file loop recurses on the same index for `stay`, on the
next index for `advance`, and rethrows for `thrown`; a thrown
`Build cancelled` makes the run's final persisted status `cancelled`. -/
theorem c4_file_error_protocol :
    (∀ (o : Orcl) (pI fI : Nat) (path m : String) (s : RunSt),
      (handleFileError o pI fI path m s).2.phases =
          setFileStatus s.phases pI fI .error (some (sanitizeError m)) ∧
      (handleFileError o pI fI path m s).2.trace =
          s.trace ++
            [.emit (.fileError pI fI (sanitizeError m)),
             .persist (some (setFileStatus s.phases pI fI .error
               (some (sanitizeError m)))) none none,
             .suspendFE path (sanitizeError m) FILE_ERROR_TIMEOUT_MS,
             .decision (o.userDecision s.decN)] ∧
      ((handleFileError o pI fI path m s).1 = .thrown "Build cancelled" ↔
          o.userDecision s.decN = "cancel") ∧
      ((handleFileError o pI fI path m s).1 = .stay ↔
          o.userDecision s.decN = "retry")) ∧
    FILE_ERROR_TIMEOUT_MS = 5 * 60 * 1000 ∧
    (∀ (o : Orcl) (plan : BuildPlan) (pI fuel fI : Nat) (s s1 : RunSt),
      fI < (planPhaseAt plan pI).files.length →
      ((fileStep o plan pI fI s = (.stay, s1) →
          fileLoop o plan pI (fuel + 1) fI s = fileLoop o plan pI fuel fI s1) ∧
       (fileStep o plan pI fI s = (.advance, s1) →
          fileLoop o plan pI (fuel + 1) fI s =
            fileLoop o plan pI fuel (fI + 1) s1) ∧
       (∀ m2, fileStep o plan pI fI s = (.thrown m2, s1) →
          fileLoop o plan pI (fuel + 1) fI s = (.error m2, s1)))) ∧
    (∀ (build : BuildRec) (o : Orcl) (s : RunSt),
        dbStatus build (catchRun o "Build cancelled" s).trace =
          "cancelled") := by
  refine ⟨?_, rfl, ?_, ?_⟩
  · intro o pI fI path m s
    obtain ⟨hst, hres⟩ := handleFileError_spec o pI fI path m s
    refine ⟨by rw [hst], by rw [hst], ?_, ?_⟩
    · rw [hres]
      by_cases hd : o.userDecision s.decN = "cancel"
      · simp [hd]
      · simp only [if_neg hd]
        constructor
        · intro h
          by_cases hr : o.userDecision s.decN = "retry"
          · simp [hr] at h
          · simp [hr] at h
        · intro h
          exact absurd h hd
    · rw [hres]
      by_cases hd : o.userDecision s.decN = "cancel"
      · constructor
        · intro h
          simp [hd] at h
        · intro h
          rw [h] at hd
          simp at hd
      · simp only [if_neg hd]
        by_cases hr : o.userDecision s.decN = "retry"
        · simp [hr]
        · simp [hr]
  · intro o plan pI fuel fI s s1 hlt
    refine ⟨?_, ?_, ?_⟩
    · intro h
      simp [fileLoop, hlt, h]
    · intro h
      simp [fileLoop, hlt, h]
    · intro m2 h
      simp [fileLoop, hlt, h]
  · intro build o s
    have hstep : catchRun o "Build cancelled" s =
        ((s.push (.emit (.buildError "Build was cancelled"))).push
          (.persist none (some "cancelled") none)) := by
      simp [catchRun]
    rw [hstep]
    simp only [RunSt.push]
    rw [show s.trace ++ [Op.emit (.buildError "Build was cancelled")] ++
        [Op.persist none (some "cancelled") none] =
        s.trace ++ [Op.emit (.buildError "Build was cancelled"),
          Op.persist none (some "cancelled") none] by simp]
    rw [dbStatus_append]
    rfl

/-- C4 (witness): the file-loop conjunct applied at a concrete failing
generation (three failed attempts) whose decision oracle answers skip,
advancing past the file left in error. -/
theorem c4_file_error_protocol_witness :
    (0 < (planPhaseAt planOne 0).files.length) ∧
    (fileStep exO6err planOne 0 0 (initResumeSt buildFresh []) =
        (.advance, (fileStep exO6err planOne 0 0
          (initResumeSt buildFresh [])).2) →
      fileLoop exO6err planOne 0 (0 + 1) 0 (initResumeSt buildFresh []) =
        fileLoop exO6err planOne 0 0 (0 + 1)
          (fileStep exO6err planOne 0 0 (initResumeSt buildFresh [])).2) :=
  ⟨by decide,
    ((c4_file_error_protocol.2.2.1 exO6err planOne 0 0 0
      (initResumeSt buildFresh [])
      (fileStep exO6err planOne 0 0 (initResumeSt buildFresh [])).2
      (by decide)).2.1)⟩

-- ─── locateFix lemmas ───────────────────────────────────────────────────

theorem findIdxP_some (path : String) :
    ∀ (l : List PlannedFile) (j : Nat), findIdxP path l = some j →
      ∃ f, l.get? j = some f ∧ f.path = path := by
  intro l
  induction l with
  | nil => intro j h; simp [findIdxP] at h
  | cons f rest ih =>
      intro j h
      by_cases hp : f.path = path
      · simp [findIdxP, hp] at h
        subst h
        exact ⟨f, rfl, hp⟩
      · simp only [findIdxP, if_neg hp] at h
        rcases Option.map_eq_some'.mp h with ⟨j2, hj2, rfl⟩
        obtain ⟨f2, hget, hfp⟩ := ih j2 hj2
        exact ⟨f2, by simpa using hget, hfp⟩

theorem findIdxP_none (path : String) :
    ∀ (l : List PlannedFile), findIdxP path l = none →
      ∀ f ∈ l, f.path ≠ path := by
  intro l
  induction l with
  | nil => intro _ f hf; simp at hf
  | cons f rest ih =>
      intro h g hg
      by_cases hp : f.path = path
      · simp [findIdxP, hp] at h
      · simp only [findIdxP, if_neg hp, Option.map_eq_none'] at h
        rcases List.mem_cons.mp hg with rfl | hg2
        · exact hp
        · exact ih h g hg2

theorem findPhaseWith_some (path : String) :
    ∀ (phs : List PlanPhase) (k0 k j : Nat),
      findPhaseWith path phs k0 = some (k, j) →
      k0 ≤ k ∧ ∃ ph f, phs.get? (k - k0) = some ph ∧
        ph.files.get? j = some f ∧ f.path = path := by
  intro phs
  induction phs with
  | nil => intro k0 k j h; simp [findPhaseWith] at h
  | cons ph rest ih =>
      intro k0 k j h
      cases hf : findIdxP path ph.files with
      | some j2 =>
          simp [findPhaseWith, hf] at h
          obtain ⟨rfl, rfl⟩ := h
          obtain ⟨f, hget, hfp⟩ := findIdxP_some path ph.files j2 hf
          exact ⟨le_refl _, ph, f, by simp, hget, hfp⟩
      | none =>
          simp only [findPhaseWith, hf] at h
          obtain ⟨hle, ph2, f2, hget, hgf, hfp⟩ := ih (k0 + 1) k j h
          refine ⟨by omega, ph2, f2, ?_, hgf, hfp⟩
          have hk : k - k0 = (k - (k0 + 1)) + 1 := by omega
          rw [hk]
          simpa using hget

theorem findPhaseWith_isSome (path : String) :
    ∀ (phs : List PlanPhase) (k0 : Nat),
      (∃ ph ∈ phs, ∃ f ∈ ph.files, f.path = path) →
      (findPhaseWith path phs k0).isSome := by
  intro phs
  induction phs with
  | nil =>
      intro k0 h
      obtain ⟨ph, hm, _⟩ := h
      simp at hm
  | cons ph rest ih =>
      intro k0 h
      cases hf : findIdxP path ph.files with
      | some j2 => simp [findPhaseWith, hf]
      | none =>
          simp only [findPhaseWith, hf]
          obtain ⟨ph2, hm, f, hfm, hfp⟩ := h
          rcases List.mem_cons.mp hm with rfl | hm2
          · exact absurd hfp (findIdxP_none path ph2.files hf f hfm)
          · exact ih (k0 + 1) ⟨ph2, hm2, f, hfm, hfp⟩

theorem locateFix_path (plan : BuildPlan) (pI : Nat) (path : String)
    (k j : Nat) (h : locateFix plan pI path = some (k, j)) :
    (planFileAt plan k j).path = path := by
  unfold locateFix at h
  cases hf : findIdxP path (planPhaseAt plan pI).files with
  | some j2 =>
      rw [hf] at h
      simp at h
      obtain ⟨rfl, rfl⟩ := h
      obtain ⟨f, hget, hfp⟩ := findIdxP_some path _ _ hf
      have hget2 : (planPhaseAt plan pI).files[j2]? = some f := by
        rw [← List.get?_eq_getElem?]
        exact hget
      simp [planFileAt, hget2]
      exact hfp
  | none =>
      rw [hf] at h
      obtain ⟨_, ph, f, hget, hgf, hfp⟩ := findPhaseWith_some path _ 0 k j h
      simp only [Nat.sub_zero] at hget
      have hget2 : plan.phases[k]? = some ph := by
        rw [← List.get?_eq_getElem?]
        exact hget
      have hgf2 : ph.files[j]? = some f := by
        rw [← List.get?_eq_getElem?]
        exact hgf
      simp [planFileAt, planPhaseAt, hget2, hgf2]
      exact hfp

theorem locateFix_isSome (plan : BuildPlan) (pI : Nat) (path : String)
    (h : ∃ ph ∈ plan.phases, ∃ f ∈ ph.files, f.path = path) :
    (locateFix plan pI path).isSome := by
  unfold locateFix
  cases hf : findIdxP path (planPhaseAt plan pI).files with
  | some j2 => simp
  | none => exact findPhaseWith_isSome path plan.phases 0 h

theorem locateFix_current (plan : BuildPlan) (pI : Nat) (path : String)
    (j : Nat) (h : findIdxP path (planPhaseAt plan pI).files = some j) :
    locateFix plan pI path = some (pI, j) := by
  simp [locateFix, h]

theorem applyFix_run (o : Orcl) (plan : BuildPlan) (pI : Nat) (fix : Fix)
    (s : RunSt) (hab : sigAborted o s = false) (k j : Nat)
    (hloc : locateFix plan pI fix.path = some (k, j)) :
    applyFix o plan pI fix s =
      (match callAI o
          (match truthy (alookup s.memory (planFileAt plan k j).path) with
           | some _ => "patch"
           | none => "fix-generate") (fixMarkSt k j s) with
       | (.ok c, s3) =>
           (match writeFile o (planFileAt plan k j).path
               (planFileAt plan k j).name c s3 with
            | (.ok _, s4) =>
                (.ok (),
                  ((({ s4 with
                      phases := setFStatus s4.phases k j .updated }).push
                    (.emit (.fileUpdated k j (planFileAt plan k j).path))).push
                    (.persist (some (setFStatus s4.phases k j .updated))
                      none none)))
            | (.error m, s4) =>
                if m = "Build cancelled" then (.error m, s4)
                else
                  (.ok (),
                    ((({ s4 with
                        phases :=
                          setFileStatus s4.phases k j .error (some m) }).push
                      (.emit (.fileError k j (jsOr m "Fix failed")))).push
                      (.persist (some (setFileStatus s4.phases k j .error
                        (some m))) none none))))
       | (.error m, s3) =>
           if m = "Build cancelled" then (.error m, s3)
           else
             (.ok (),
               ((({ s3 with
                   phases :=
                     setFileStatus s3.phases k j .error (some m) }).push
                 (.emit (.fileError k j (jsOr m "Fix failed")))).push
                 (.persist (some (setFileStatus s3.phases k j .error
                   (some m))) none none)))) := by
  simp only [applyFix, hab, Bool.false_eq_true, if_false, hloc, fixMarkSt,
    RunSt.push]

-- ─── C7 ─────────────────────────────────────────────────────────────────

/-- C7: a review fix's target path is located anywhere in the plan —
when present in the phase under review it resolves there, otherwise the
whole plan is scanned (earlier, complete phases included) and any
located pair indexes a plan file with that exact path; applying a fix
emits `file-updating` and then `file-updated` (or `file-error`) carrying
the located file's phase index only — never the reviewing phase's
index — uses the patch prompt whenever Project Memory holds content for
the path, and reaches status `updated` only with the patched content in
both the File Store and Project Memory after a store write. -/
theorem c7_cross_phase_fix :
    (∀ (plan : BuildPlan) (pI : Nat) (path : String) (k j : Nat),
        locateFix plan pI path = some (k, j) →
          (planFileAt plan k j).path = path) ∧
    (∀ (plan : BuildPlan) (pI : Nat) (path : String),
        (∃ ph ∈ plan.phases, ∃ f ∈ ph.files, f.path = path) →
          (locateFix plan pI path).isSome) ∧
    (∀ (plan : BuildPlan) (pI : Nat) (path : String) (j : Nat),
        findIdxP path (planPhaseAt plan pI).files = some j →
          locateFix plan pI path = some (pI, j)) ∧
    (∀ (o : Orcl) (plan : BuildPlan) (pI : Nat) (fix : Fix) (s : RunSt)
        (k j : Nat), sigAborted o s = false →
        locateFix plan pI fix.path = some (k, j) →
        ∃ ext, (applyFix o plan pI fix s).2.trace = s.trace ++ ext ∧
          Op.emit (.fileUpdating k j) ∈ ext ∧
          (∀ e, Op.emit e ∈ ext → e = .fileUpdating k j ∨
            (∃ p2, e = .fileUpdated k j p2) ∨
            (∃ m2, e = .fileError k j m2)) ∧
          ((∃ c0, truthy (alookup s.memory (planFileAt plan k j).path) =
              some c0) →
            ∀ t, Op.aiCall t ∈ ext → t = "patch") ∧
          (fileStatusAt (applyFix o plan pI fix s).2.phases k j =
              some .updated →
            ∃ c, alookup (applyFix o plan pI fix s).2.store
                (planFileAt plan k j).path = some c ∧
              alookup (applyFix o plan pI fix s).2.memory
                (planFileAt plan k j).path = some c ∧
              Op.storeWrite (planFileAt plan k j).path c ∈ ext ∧
              Op.emit (.fileUpdated k j (planFileAt plan k j).path) ∈ ext)) := by
  refine ⟨locateFix_path, locateFix_isSome, locateFix_current, ?_⟩
  intro o plan pI fix s k j hab hloc
  rcases hai : callAI o
      (match truthy (alookup s.memory (planFileAt plan k j).path) with
       | some _ => "patch"
       | none => "fix-generate") (fixMarkSt k j s) with ⟨res, sA⟩
  obtain ⟨extAI, htr, hsc, hshape, _⟩ :=
    callAIGo_ext o
      (match truthy (alookup s.memory (planFileAt plan k j).path) with
       | some _ => "patch"
       | none => "fix-generate") 3 0 none (fixMarkSt k j s)
  rw [show callAIGo o
      (match truthy (alookup s.memory (planFileAt plan k j).path) with
       | some _ => "patch"
       | none => "fix-generate") 3 0 none (fixMarkSt k j s) =
      callAI o
      (match truthy (alookup s.memory (planFileAt plan k j).path) with
       | some _ => "patch"
       | none => "fix-generate") (fixMarkSt k j s) from rfl, hai]
    at htr hsc
  have hphA : sA.phases = setFStatus s.phases k j .updating := by
    have h := hsc.1
    simp only [fixMarkSt, RunSt.push] at h
    exact h
  have hupA : fileStatusAt sA.phases k j ≠ some .updated := by
    rw [hphA, setFStatus_self]
    cases fileStatusAt s.phases k j <;> simp
  have htrA : sA.trace = s.trace ++
      ([Op.check false, Op.emit (.fileUpdating k j),
        Op.persist (some (setFStatus s.phases k j .updating)) none none] ++
       extAI) := by
    rw [htr]
    simp [fixMarkSt, RunSt.push]
  have hAIshape : ∀ op ∈ extAI, ∀ e, op ≠ Op.emit e := by
    intro op hop e
    rcases hshape op hop with ⟨b, rfl⟩ | rfl | ⟨t, rfl⟩ | ⟨n, rfl⟩ <;> simp
  have hAIwrite : ∀ op ∈ extAI, ∀ p c, op ≠ Op.storeWrite p c := by
    intro op hop p c
    rcases hshape op hop with ⟨b, rfl⟩ | rfl | ⟨t, rfl⟩ | ⟨n, rfl⟩ <;> simp
  have hAIcall : ∀ t2, Op.aiCall t2 ∈ extAI → t2 =
      (match truthy (alookup s.memory (planFileAt plan k j).path) with
       | some _ => "patch"
       | none => "fix-generate") := by
    intro t2 hm
    rcases hshape _ hm with ⟨b, hb⟩ | hb | ⟨t, ht⟩ | ⟨n, hn⟩ <;>
      simp_all
  have hpatchOf : (∃ c0, truthy (alookup s.memory
      (planFileAt plan k j).path) = some c0) →
      ∀ t2, Op.aiCall t2 ∈ extAI → t2 = "patch" := by
    rintro ⟨c0, hc0⟩ t2 hm
    have := hAIcall t2 hm
    rw [hc0] at this
    exact this
  cases res with
  | error m =>
      have hmidE : applyFix o plan pI fix s =
          (if m = "Build cancelled" then
            ((.error m : Except String Unit), sA)
           else
             (.ok (),
               ((({ sA with
                   phases :=
                     setFileStatus sA.phases k j .error (some m) }).push
                 (.emit (.fileError k j (jsOr m "Fix failed")))).push
                 (.persist (some (setFileStatus sA.phases k j .error
                   (some m))) none none)))) := by
        rw [applyFix_run o plan pI fix s hab k j hloc, hai]
      rw [hmidE]
      by_cases hm : m = "Build cancelled"
      · rw [if_pos hm]
        refine ⟨[Op.check false, Op.emit (.fileUpdating k j),
            Op.persist (some (setFStatus s.phases k j .updating)) none none]
            ++ extAI, htrA, ?_, ?_, ?_, fun hc => absurd hc hupA⟩
        · exact List.mem_append.mpr (Or.inl (by simp))
        · intro e he
          rcases List.mem_append.mp he with h | h
          · simp only [List.mem_cons, List.mem_singleton,
              List.not_mem_nil, or_false] at h
            rcases h with h | h | h
            · exact absurd h.symm (by simp)
            · exact Or.inl (by injection h)
            · exact absurd h.symm (by simp)
          · exact absurd rfl (hAIshape _ h e)
        · intro hc t2 ht2
          rcases List.mem_append.mp ht2 with h | h
          · simp only [List.mem_cons, List.mem_singleton,
              List.not_mem_nil, or_false] at h
            rcases h with h | h | h <;> exact absurd h (by simp)
          · exact hpatchOf hc t2 h
      · rw [if_neg hm]
        refine ⟨([Op.check false, Op.emit (.fileUpdating k j),
            Op.persist (some (setFStatus s.phases k j .updating)) none none]
            ++ extAI) ++
            [Op.emit (.fileError k j (jsOr m "Fix failed")),
             Op.persist (some (setFileStatus sA.phases k j .error (some m)))
               none none], ?_, ?_, ?_, ?_, ?_⟩
        · simp [RunSt.push, htrA]
        · exact List.mem_append.mpr (Or.inl
            (List.mem_append.mpr (Or.inl (by simp))))
        · intro e he
          rcases List.mem_append.mp he with h | h
          · rcases List.mem_append.mp h with h | h
            · simp only [List.mem_cons, List.mem_singleton,
                List.not_mem_nil, or_false] at h
              rcases h with h | h | h
              · exact absurd h.symm (by simp)
              · exact Or.inl (by injection h)
              · exact absurd h.symm (by simp)
            · exact absurd rfl (hAIshape _ h e)
          · simp only [List.mem_cons, List.mem_singleton,
              List.not_mem_nil, or_false] at h
            rcases h with h | h
            · exact Or.inr (Or.inr ⟨jsOr m "Fix failed",
                by injection h⟩)
            · exact absurd h.symm (by simp)
        · intro hc t2 ht2
          rcases List.mem_append.mp ht2 with h | h
          · rcases List.mem_append.mp h with h | h
            · simp only [List.mem_cons, List.mem_singleton,
                List.not_mem_nil, or_false] at h
              rcases h with h | h | h <;> exact absurd h (by simp)
            · exact hpatchOf hc t2 h
          · simp only [List.mem_cons, List.mem_singleton,
              List.not_mem_nil, or_false] at h
            rcases h with h | h <;> exact absurd h (by simp)
        · intro hc
          exfalso
          have : fileStatusAt (setFileStatus sA.phases k j .error (some m))
              k j = some .updated := hc
          rw [setFileStatus_self] at this
          cases hfs : fileStatusAt sA.phases k j <;> rw [hfs] at this <;>
            simp at this
  | ok content =>
      have hmidO : applyFix o plan pI fix s =
          (match writeFile o (planFileAt plan k j).path
              (planFileAt plan k j).name content sA with
           | (.ok _, s4) =>
               (.ok (),
                 ((({ s4 with
                     phases := setFStatus s4.phases k j .updated }).push
                   (.emit (.fileUpdated k j (planFileAt plan k j).path))).push
                   (.persist (some (setFStatus s4.phases k j .updated))
                     none none)))
           | (.error m, s4) =>
               if m = "Build cancelled" then (.error m, s4)
               else
                 (.ok (),
                   ((({ s4 with
                       phases :=
                         setFileStatus s4.phases k j .error (some m) }).push
                     (.emit (.fileError k j (jsOr m "Fix failed")))).push
                     (.persist (some (setFileStatus s4.phases k j .error
                       (some m))) none none)))) := by
        rw [applyFix_run o plan pI fix s hab k j hloc, hai]
      cases hwr : o.writeRes sA.writeN with
      | some mm =>
          have hmid2 : applyFix o plan pI fix s =
              (if mm = "Build cancelled" then
                ((.error mm : Except String Unit),
                  { sA with writeN := sA.writeN + 1 })
               else
                 (.ok (),
                   ((({ sA with
                       writeN := sA.writeN + 1
                       phases :=
                         setFileStatus sA.phases k j .error
                           (some mm) }).push
                     (.emit (.fileError k j (jsOr mm "Fix failed")))).push
                     (.persist (some (setFileStatus sA.phases k j .error
                       (some mm))) none none)))) := by
            rw [hmidO, writeFile_err o (planFileAt plan k j).path
              (planFileAt plan k j).name content mm sA hwr]
          rw [hmid2]
          by_cases hm : mm = "Build cancelled"
          · rw [if_pos hm]
            refine ⟨[Op.check false, Op.emit (.fileUpdating k j),
                Op.persist (some (setFStatus s.phases k j .updating)) none
                  none] ++ extAI, htrA, ?_, ?_, ?_,
                fun hc => absurd hc hupA⟩
            · exact List.mem_append.mpr (Or.inl (by simp))
            · intro e he
              rcases List.mem_append.mp he with h | h
              · simp only [List.mem_cons, List.mem_singleton,
                  List.not_mem_nil, or_false] at h
                rcases h with h | h | h
                · exact absurd h.symm (by simp)
                · exact Or.inl (by injection h)
                · exact absurd h.symm (by simp)
              · exact absurd rfl (hAIshape _ h e)
            · intro hc t2 ht2
              rcases List.mem_append.mp ht2 with h | h
              · simp only [List.mem_cons, List.mem_singleton,
                  List.not_mem_nil, or_false] at h
                rcases h with h | h | h <;> exact absurd h (by simp)
              · exact hpatchOf hc t2 h
          · rw [if_neg hm]
            refine ⟨([Op.check false, Op.emit (.fileUpdating k j),
                Op.persist (some (setFStatus s.phases k j .updating)) none
                  none] ++ extAI) ++
                [Op.emit (.fileError k j (jsOr mm "Fix failed")),
                 Op.persist (some (setFileStatus sA.phases k j .error
                   (some mm))) none none], ?_, ?_, ?_, ?_, ?_⟩
            · simp [RunSt.push, htrA]
            · exact List.mem_append.mpr (Or.inl
                (List.mem_append.mpr (Or.inl (by simp))))
            · intro e he
              rcases List.mem_append.mp he with h | h
              · rcases List.mem_append.mp h with h | h
                · simp only [List.mem_cons, List.mem_singleton,
                    List.not_mem_nil, or_false] at h
                  rcases h with h | h | h
                  · exact absurd h.symm (by simp)
                  · exact Or.inl (by injection h)
                  · exact absurd h.symm (by simp)
                · exact absurd rfl (hAIshape _ h e)
              · simp only [List.mem_cons, List.mem_singleton,
                  List.not_mem_nil, or_false] at h
                rcases h with h | h
                · exact Or.inr (Or.inr ⟨jsOr mm "Fix failed",
                    by injection h⟩)
                · exact absurd h.symm (by simp)
            · intro hc t2 ht2
              rcases List.mem_append.mp ht2 with h | h
              · rcases List.mem_append.mp h with h | h
                · simp only [List.mem_cons, List.mem_singleton,
                    List.not_mem_nil, or_false] at h
                  rcases h with h | h | h <;> exact absurd h (by simp)
                · exact hpatchOf hc t2 h
              · simp only [List.mem_cons, List.mem_singleton,
                  List.not_mem_nil, or_false] at h
                rcases h with h | h <;> exact absurd h (by simp)
            · intro hc
              exfalso
              have : fileStatusAt (setFileStatus sA.phases k j .error
                  (some mm)) k j = some .updated := hc
              rw [setFileStatus_self] at this
              cases hfs : fileStatusAt sA.phases k j <;> rw [hfs] at this <;>
                simp at this
      | none =>
          obtain ⟨hres, hphW, hstW, hmemW, htrW, _, _⟩ :=
            writeFile_ok o (planFileAt plan k j).path
              (planFileAt plan k j).name content sA hwr
          rcases hwf : writeFile o (planFileAt plan k j).path
              (planFileAt plan k j).name content sA with ⟨wres, s4⟩
          rw [hwf] at hres hphW hstW hmemW htrW
          simp only at hres hphW hstW hmemW htrW
          subst hres
          have hmid3 : applyFix o plan pI fix s =
              (.ok (),
                ((({ s4 with
                    phases := setFStatus s4.phases k j .updated }).push
                  (.emit (.fileUpdated k j (planFileAt plan k j).path))).push
                  (.persist (some (setFStatus s4.phases k j .updated))
                    none none))) := by
            rw [hmidO, hwf]
          rw [hmid3]
          refine ⟨([Op.check false, Op.emit (.fileUpdating k j),
              Op.persist (some (setFStatus s.phases k j .updating)) none
                none] ++ extAI) ++
              [Op.storeWrite (planFileAt plan k j).path content,
               Op.emit (.fileUpdated k j (planFileAt plan k j).path),
               Op.persist (some (setFStatus s4.phases k j .updated)) none
                 none], ?_, ?_, ?_, ?_, ?_⟩
          · simp [RunSt.push, htrW, htrA]
          · exact List.mem_append.mpr (Or.inl
              (List.mem_append.mpr (Or.inl (by simp))))
          · intro e he
            rcases List.mem_append.mp he with h | h
            · rcases List.mem_append.mp h with h | h
              · simp only [List.mem_cons, List.mem_singleton,
                  List.not_mem_nil, or_false] at h
                rcases h with h | h | h
                · exact absurd h.symm (by simp)
                · exact Or.inl (by injection h)
                · exact absurd h.symm (by simp)
              · exact absurd rfl (hAIshape _ h e)
            · simp only [List.mem_cons, List.mem_singleton,
                List.not_mem_nil, or_false] at h
              rcases h with h | h | h
              · exact absurd h.symm (by simp)
              · exact Or.inr (Or.inl ⟨(planFileAt plan k j).path,
                  by injection h⟩)
              · exact absurd h.symm (by simp)
          · intro hc t2 ht2
            rcases List.mem_append.mp ht2 with h | h
            · rcases List.mem_append.mp h with h | h
              · simp only [List.mem_cons, List.mem_singleton,
                  List.not_mem_nil, or_false] at h
                rcases h with h | h | h <;> exact absurd h (by simp)
              · exact hpatchOf hc t2 h
            · simp only [List.mem_cons, List.mem_singleton,
                List.not_mem_nil, or_false] at h
              rcases h with h | h | h <;> exact absurd h (by simp)
          · intro _
            refine ⟨content, ?_, ?_, ?_, ?_⟩
            · show alookup s4.store (planFileAt plan k j).path = some content
              rw [hstW]
              exact alookup_aupsert _ _ _
            · show alookup s4.memory (planFileAt plan k j).path = some content
              rw [hmemW]
              exact alookup_aupsert _ _ _
            · exact List.mem_append.mpr (Or.inr (by simp))
            · exact List.mem_append.mpr (Or.inr (by simp))

/-- C7 (witness): the fix application applied while reviewing phase 1
of a two-phase plan, with a target belonging to phase 0. -/
theorem c7_cross_phase_fix_witness :
    sigAborted pureO stMem = false ∧
    locateFix planTwo 1 "PluginMain.java" = some (0, 0) ∧
    (∃ ext, (applyFix pureO planTwo 1 ⟨"PluginMain.java", "missing import"⟩
          stMem).2.trace = stMem.trace ++ ext ∧
      Op.emit (.fileUpdating 0 0) ∈ ext ∧
      (∀ e, Op.emit e ∈ ext → e = .fileUpdating 0 0 ∨
        (∃ p2, e = .fileUpdated 0 0 p2) ∨ (∃ m2, e = .fileError 0 0 m2)) ∧
      ((∃ c0, truthy (alookup stMem.memory (planFileAt planTwo 0 0).path) =
          some c0) →
        ∀ t, Op.aiCall t ∈ ext → t = "patch") ∧
      (fileStatusAt (applyFix pureO planTwo 1
            ⟨"PluginMain.java", "missing import"⟩ stMem).2.phases 0 0 =
          some .updated →
        ∃ c, alookup (applyFix pureO planTwo 1
            ⟨"PluginMain.java", "missing import"⟩ stMem).2.store
            (planFileAt planTwo 0 0).path = some c ∧
          alookup (applyFix pureO planTwo 1
            ⟨"PluginMain.java", "missing import"⟩ stMem).2.memory
            (planFileAt planTwo 0 0).path = some c ∧
          Op.storeWrite (planFileAt planTwo 0 0).path c ∈ ext ∧
          Op.emit (.fileUpdated 0 0 (planFileAt planTwo 0 0).path) ∈ ext)) :=
  ⟨by decide, by decide,
    c7_cross_phase_fix.2.2.2 pureO planTwo 1
      ⟨"PluginMain.java", "missing import"⟩ stMem 0 0 (by decide)
      (by decide)⟩

-- ─── C10 lemmas ─────────────────────────────────────────────────────────

theorem countThink_append (a b : List Op) :
    countThink (a ++ b) = countThink a + countThink b := by
  simp [countThink, List.filter_append]

theorem agenticLoop_log_bound (o : Orcl) (desc : String) :
    ∀ (n : Nat) (fs : List (String × String)) (log : List ActionEntry)
      (ft : List String) (dynIdx : Nat) (s : RunSt)
      (sum : String) (log2 : List ActionEntry),
      (agenticLoop o desc n fs log ft dynIdx s).1 = .ok (sum, log2) →
      log2.length ≤ log.length + n := by
  intro n
  induction n with
  | zero =>
      intro fs log ft dynIdx s sum log2 h
      simp only [agenticLoop, agenticWrapUp] at h
      injection h with h2
      injection h2 with h3 h4
      subst h4
      omega
  | succ n ih =>
      intro fs log ft dynIdx s sum log2 h
      simp only [agenticLoop] at h
      split at h
      · simp at h
      · split at h
        · simp at h
        · split at h
          · simp only [agenticWrapUp] at h
            injection h with h2
            injection h2 with h3 h4
            subst h4
            omega
          · split at h
            · simp only at h
              injection h with h2
              injection h2 with h3 h4
              subst h4
              omega
            · split at h
              · simp at h
              · have := ih _ _ _ _ _ sum log2 h
                simp at this
                omega

-- ─── C10 ────────────────────────────────────────────────────────────────

/-- C10: the agentic quick-change loop takes at most its step budget of
actions (the action log grows by exactly one entry per non-done step,
so a completed loop's log has at most 20 entries and `quickChange`
completes with at most 20 actions); an action outside
read/update/create/delete is a no-op on the runner state; concretely, a
`done` at the second step completes the build with a summary listing
only the non-read actions taken so far, and an oracle that never says
done is force-terminated as complete after exactly 20 steps with a
summary synthesized from the full action log. -/
theorem c10_agentic_bounded :
    (∀ (o : Orcl) (desc : String) (n : Nat) (fs : List (String × String))
        (log : List ActionEntry) (ft : List String) (dynIdx : Nat)
        (s : RunSt) (sum : String) (log2 : List ActionEntry),
        (agenticLoop o desc n fs log ft dynIdx s).1 = .ok (sum, log2) →
        log2.length ≤ log.length + n) ∧
    (∀ (o : Orcl) (desc : String) (s : RunSt) (sum : String)
        (log2 : List ActionEntry),
        (quickChange o desc s).1 = .ok (sum, log2) → log2.length ≤ 20) ∧
    (∀ (o : Orcl) (step : AgenticStep) (fName : String)
        (fs : List (String × String)) (ft : List String) (dynIdx : Nat)
        (s : RunSt),
        step.action ≠ "read" → step.action ≠ "update" →
        step.action ≠ "create" → step.action ≠ "delete" →
        agenticAction o step fName fs ft dynIdx s = (.ok (fs, ft), s)) ∧
    (runQC1.1 = .ok
        ("**Quick Change Applied**" ++ "\n\n" ++ "All done" ++ "\n\n" ++
          "- `f1`: add f1", [⟨"create", "f1", "add f1"⟩]) ∧
      countThink runQC1.2.trace = 2 ∧
      runQC1.2.trace.getLast? = some (.persist none (some "complete")
        (some ("**Quick Change Applied**" ++ "\n\n" ++ "All done" ++
          "\n\n" ++ "- `f1`: add f1")))) ∧
    (runQC2.1 = .ok (quickSummary "descY"
          (List.replicate 20 ⟨"create", "f", "r"⟩),
        List.replicate 20 ⟨"create", "f", "r"⟩) ∧
      countThink runQC2.2.trace = 20 ∧
      runQC2.2.trace.getLast? = some (.persist none (some "complete")
        (some (quickSummary "descY"
          (List.replicate 20 ⟨"create", "f", "r"⟩))))) := by
  refine ⟨agenticLoop_log_bound, ?_, ?_, ⟨by rfl, by rfl, by rfl⟩,
    ⟨by rfl, by rfl, by rfl⟩⟩
  · intro o desc s sum log2 h
    simp only [quickChange] at h
    have := agenticLoop_log_bound o desc MAX_AGENTIC_STEPS [] [] _ 0 _
      sum log2 h
    simpa [MAX_AGENTIC_STEPS] using this
  · intro o step fName fs ft dynIdx s h1 h2 h3 h4
    simp [agenticAction, h1, h2, h3, h4]

/-- C10 (witness): the quick-change bound applied to the concrete
cap-terminated run. -/
theorem c10_agentic_bounded_witness :
    (List.replicate 20 (ActionEntry.mk "create" "f" "r")).length ≤ 20 :=
  c10_agentic_bounded.2.1 exOqc2 "descY" st0
    (quickSummary "descY" (List.replicate 20 ⟨"create", "f", "r"⟩))
    (List.replicate 20 ⟨"create", "f", "r"⟩) (by rfl)

-- ─── C5 (amended) ───────────────────────────────────────────────────────

/-- C5 (amended): cancellation is cooperative — the signal is observed
at the head of every phase-loop iteration and every file-loop iteration,
and an observing check makes the loop throw `Build cancelled`
immediately, appending nothing beyond the check; a throwing phase
iteration stops the phase loop at once; the catch then records the
fixed cancellation event and persists status `cancelled`; and issuing
cancel twice is the same as issuing it once.  (As the counterexample
shows, the signal is not re-checked between a generation call's return
and the commit of its result, so the in-flight file's write may still
land, and a cancel during the summary call can end `complete`.) -/
theorem c5_cancellation_observed :
    (∀ (id : Nat) (c : CancelState),
        cancelRunner id (cancelRunner id c) = cancelRunner id c) ∧
    (∀ (o : Orcl) (plan : BuildPlan) (pI fI : Nat) (s : RunSt),
        sigAborted o s = true →
        fileStep o plan pI fI s =
          (.thrown "Build cancelled", s.push (.check true))) ∧
    (∀ (o : Orcl) (plan : BuildPlan) (fuel pI : Nat) (s : RunSt),
        sigAborted o s = true →
        phaseIter o plan fuel pI s =
          (.error "Build cancelled", s.push (.check true))) ∧
    (∀ (o : Orcl) (plan : BuildPlan) (fuel r pI : Nat) (s s1 : RunSt)
        (m : String),
        phaseIter o plan fuel pI s = (.error m, s1) →
        phaseLoopAux o plan fuel (r + 1) pI s = (.error m, s1)) ∧
    (∀ (o : Orcl) (s : RunSt),
        (catchRun o "Build cancelled" s).trace =
          s.trace ++ [.emit (.buildError "Build was cancelled"),
            .persist none (some "cancelled") none]) := by
  refine ⟨?_, ?_, ?_, ?_, ?_⟩
  · intro id c
    simp [cancelRunner, List.filter_filter]
  · intro o plan pI fI s h
    simp [fileStep, h]
  · intro o plan fuel pI s h
    simp [phaseIter, h]
  · intro o plan fuel r pI s s1 m h
    simp [phaseLoopAux, h]
  · intro o s
    simp [catchRun, RunSt.push]

/-- C5 (amended, witness): the file-loop boundary observation at a
concrete aborted oracle. -/
theorem c5_cancellation_observed_witness :
    sigAborted { pureO with cancelTime := some 0 } st0 = true ∧
    fileStep { pureO with cancelTime := some 0 } planOne 0 0 st0 =
      (.thrown "Build cancelled", st0.push (.check true)) :=
  ⟨by decide, c5_cancellation_observed.2.1
    { pureO with cancelTime := some 0 } planOne 0 0 st0 (by decide)⟩

-- ─── C9 (amended) ───────────────────────────────────────────────────────

/-- C9 (amended): every sanitized message is capped at 300 characters;
the build-error emitted by the start/resume catch on a non-cancellation
failure, and the file-error emitted by the main generation loop's
handler, carry `sanitizeError` of the raw message; the file-error
emitted by the phase-review fix loop instead carries the raw upstream
message unmodified (concretely, the 403-character marked-up message). -/
theorem c9_sanitized_errors :
    (∀ m : String, (sanitizeError m).length ≤ 300) ∧
    (∀ (o : Orcl) (pI fI : Nat) (path m : String) (s : RunSt),
        ∃ rest, (handleFileError o pI fI path m s).2.trace =
          s.trace ++ (.emit (.fileError pI fI (sanitizeError m))) :: rest) ∧
    (∀ (o : Orcl) (m : String) (s : RunSt),
        m ≠ "Build cancelled" → sigAborted o s = false →
        (catchRun o m s).trace =
          s.trace ++
            [.emit (.buildError (sanitizeError (jsOr m "Build failed"))),
             .persist none (some "error") none]) ∧
    (Op.emit (.fileError 0 0 rawC9) ∈ runC9.trace ∧
      rawC9 ≠ sanitizeError rawC9) := by
  refine ⟨sanitizeError_length_le, ?_, ?_, ?_, ?_⟩
  · intro o pI fI path m s
    obtain ⟨hst, _⟩ := handleFileError_spec o pI fI path m s
    exact ⟨[.persist (some (setFileStatus s.phases pI fI .error
        (some (sanitizeError m)))) none none,
      .suspendFE path (sanitizeError m) FILE_ERROR_TIMEOUT_MS,
      .decision (o.userDecision s.decN)], by rw [hst]⟩
  · intro o m s h1 h2
    simp [catchRun, h1, h2, RunSt.push]
  · have h : runC9.trace.get? 29 = some (.emit (.fileError 0 0 rawC9)) := by
      rfl
    exact List.get?_mem h
  · intro h
    have h2 : rawC9.length = (sanitizeError rawC9).length := by rw [← h]
    have h3 := sanitizeError_length_le rawC9
    have h4 : (300 : Nat) < rawC9.length := by decide
    omega

/-- C9 (amended, witness): the catch conjunct at a concrete long raw
message. -/
theorem c9_sanitized_errors_witness :
    rawC9 ≠ "Build cancelled" ∧ sigAborted pureO st0 = false ∧
    (catchRun pureO rawC9 st0).trace =
      st0.trace ++
        [.emit (.buildError (sanitizeError (jsOr rawC9 "Build failed"))),
         .persist none (some "error") none] :=
  ⟨by decide, by decide,
    c9_sanitized_errors.2.2.1 pureO rawC9 st0 (by decide) (by decide)⟩

-- ─── Segment utility lemmas ─────────────────────────────────────────────

theorem sigAborted_none (o : Orcl) (s : RunSt) (h : o.cancelTime = none) :
    sigAborted o s = false := by
  simp [sigAborted, h]

theorem setIn_get_other {α : Type} (u : α → α) (l : List α) (n m : Nat)
    (h : m ≠ n) : (setIn u l n).get? m = l.get? m := by
  simp [List.get?_eq_getElem?, setIn_getElem_other _ _ _ _ h]

theorem setPhaseStatus_self (phs : List PhaseState) (pI : Nat)
    (st : PhaseStatus) :
    phaseStatusIn (setPhaseStatus phs pI st) pI =
      (phaseStatusIn phs pI).map (fun _ => st) := by
  simp only [phaseStatusIn, setPhaseStatus, List.get?_eq_getElem?,
    setIn_getElem_self]
  cases phs[pI]? with
  | none => rfl
  | some ph => rfl

theorem gens_append (a b : List Op) : gens (a ++ b) = gens a ++ gens b := by
  simp [gens, List.filterMap_append]

theorem gens_nil_of_call (ext : List Op) (tag : String)
    (h : ∀ op ∈ ext, CallOp tag op) : gens ext = [] := by
  apply List.filterMap_eq_nil.mpr
  intro op hop
  rcases h op hop with ⟨b, rfl⟩ | rfl | ⟨t, rfl⟩ | ⟨n, rfl⟩ <;> rfl

theorem segSelfB_sound (ext : List Op) (h : segSelfB ext = true) :
    SegSelf ext := by
  intro i e hi hev
  have hilen : i < ext.length := by
    by_contra hl
    rw [List.get?_eq_none.mpr (Nat.le_of_not_lt hl)] at hi
    cases hi
  have hall := List.all_eq_true.mp h i (List.mem_range.mpr hilen)
  rw [hi] at hall
  simp only [hev, Bool.not_true, Bool.false_or] at hall
  obtain ⟨j, hjmem, hj⟩ := List.any_eq_true.mp hall
  rw [Bool.and_eq_true] at hj
  obtain ⟨hij, hmatch⟩ := hj
  cases hget : ext.get? j with
  | none =>
      rw [hget] at hmatch
      simp at hmatch
  | some op =>
      cases op
      case persist ps st sm =>
        rw [hget] at hmatch
        exact ⟨j, ps, st, sm, of_decide_eq_true hij, hget, hmatch⟩
      all_goals (rw [hget] at hmatch; simp at hmatch)

theorem alookup_aupsert_ne (m : List (String × String)) (k v p : String)
    (h : k ≠ p) : alookup (aupsert m k v) p = alookup m p := by
  induction m with
  | nil => simp [aupsert, alookup, h]
  | cons kv rest ih =>
      obtain ⟨k2, v2⟩ := kv
      by_cases h2 : k2 = k
      · subst h2
        simp [aupsert, alookup, h]
      · simp [aupsert, alookup, h2, ih]

theorem alookup_foldl_skip (L : List (String × String))
    (m0 : List (String × String)) (p : String)
    (h : ∀ f ∈ L, f.1 ≠ p) :
    alookup (L.foldl (fun m f => aupsert m f.1 f.2) m0) p = alookup m0 p := by
  induction L generalizing m0 with
  | nil => rfl
  | cons f rest ih =>
      rw [List.foldl_cons]
      rw [ih _ (fun g hg => h g (List.mem_cons_of_mem f hg))]
      exact alookup_aupsert_ne m0 f.1 f.2 p (h f (List.mem_cons_self f rest))

theorem alookup_foldl_last (L2 : List (String × String))
    (m0 : List (String × String)) (p c : String)
    (h : ∀ f ∈ L2, f.1 ≠ p) :
    alookup (((p, c) :: L2).foldl (fun m f => aupsert m f.1 f.2) m0) p =
      some c := by
  rw [List.foldl_cons, alookup_foldl_skip L2 _ p h]
  exact alookup_aupsert m0 p c

theorem hydrateMemory_store_wins (fm sf1 sf2 : List (String × String))
    (p c : String) (hc : c ≠ "")
    (h : ∀ f ∈ sf2, f.2 ≠ "" → f.1 ≠ p) :
    alookup (hydrateMemory fm (sf1 ++ (p, c) :: sf2)) p = some c := by
  unfold hydrateMemory
  rw [List.filter_append, List.filter_cons]
  simp only [hc, decide_not, decide_True, Bool.not_false, if_true]
  rw [List.foldl_append]
  apply alookup_foldl_last
  intro f hf
  have h2 := List.mem_filter.mp hf
  exact h f h2.1 (by simpa using h2.2)

theorem firstPendingAux_spec (fs : List FileState) :
    ∀ (i j : Nat), firstPendingAux fs i = some j →
      ∃ r, j = i + r ∧ r < fs.length ∧
        (∀ q, q < r → ∃ f, fs.get? q = some f ∧
          (f.status = .created ∨ f.status = .updated)) ∧
        ∃ f, fs.get? r = some f ∧ f.status ≠ .created ∧
          f.status ≠ .updated := by
  induction fs with
  | nil => intro i j h; cases h
  | cons f rest ih =>
      intro i j h
      by_cases hd : f.status = .created ∨ f.status = .updated
      · rw [firstPendingAux, if_pos hd] at h
        obtain ⟨r, hr1, hr2, hr3, hr4⟩ := ih (i + 1) j h
        refine ⟨r + 1, by omega, by simp only [List.length_cons]; omega,
          ?_, ?_⟩
        · intro q hq
          cases q with
          | zero => exact ⟨f, rfl, hd⟩
          | succ q2 =>
              obtain ⟨g, hg, hgd⟩ := hr3 q2 (by omega)
              exact ⟨g, by simpa using hg, hgd⟩
        · obtain ⟨g, hg, h1, h2⟩ := hr4
          exact ⟨g, by simpa using hg, h1, h2⟩
      · rw [firstPendingAux, if_neg hd] at h
        injection h with h
        subst h
        push_neg at hd
        exact ⟨0, by omega, by simp, by omega, f, rfl, hd.1, hd.2⟩

theorem callAI_ext (o : Orcl) (tag : String) (s : RunSt) :
    ∃ ext, (callAI o tag s).2.trace = s.trace ++ ext ∧
      sameCore s (callAI o tag s).2 ∧
      ∀ op ∈ ext, CallOp tag op := by
  obtain ⟨ext, h1, h2, h3, _⟩ := callAIGo_ext o tag (MAX_RETRIES + 1) 0 none s
  exact ⟨ext, h1, h2, h3⟩

theorem callAI_seg (o : Orcl) (tag : String) (ht : tag ≠ "plan") (pI : Nat)
    (s : RunSt) : ∃ ext, PhaseSeg pI s (callAI o tag s).2 ext := by
  obtain ⟨ext, htr, hsc, hops⟩ := callAI_ext o tag s
  refine ⟨ext, htr, ?_, ?_, ?_, ?_, ?_⟩
  · intro op hop
    rcases hops op hop with ⟨b, rfl⟩ | rfl | ⟨t, rfl⟩ | ⟨n, rfl⟩
    · exact ⟨by simp, by simp, fun p => by simp⟩
    · exact ⟨by simp [ht], by simp, fun p => by simp⟩
    · exact ⟨by simp, by simp, fun p => by simp⟩
    · exact ⟨by simp, by simp, fun p => by simp⟩
  · intro i hi
    rcases hops _ hi with ⟨b, hb⟩ | hb | ⟨t, hb⟩ | ⟨n, hb⟩ <;> simp at hb
  · intro kj hkj
    rw [gens_nil_of_call ext tag hops] at hkj
    cases hkj
  · intro q _
    rw [hsc.1]
  · intro r st hst _
    rw [hsc.1]
    exact hst

theorem contLoop_err (o : Orcl) (fuel : Nat) :
    ∀ (full : String) (s : RunSt) (m : String),
      (contLoop o fuel full s).1 = .error m → ∃ n, o.ai n = .error m := by
  induction fuel with
  | zero =>
      intro full s m h
      simp [contLoop] at h
  | succ n ih =>
      intro full s m h
      cases hab : sigAborted o s with
      | true => simp [contLoop, hab] at h
      | false =>
          cases hai : o.ai s.aiN with
          | error msg =>
              simp [contLoop, hab, RunSt.push, hai] at h
              exact ⟨s.aiN, by rw [hai, h]⟩
          | ok tr =>
              obtain ⟨text, reason⟩ := tr
              by_cases hlen : reason = "length"
              · simp [contLoop, hab, RunSt.push, hai, hlen] at h
                exact ih _ _ _ h
              · simp [contLoop, hab, RunSt.push, hai, hlen] at h

theorem callAIGo_not_cancelled (o : Orcl) (tag : String)
    (hct : o.cancelTime = none)
    (hai : ∀ n m, o.ai n = .error m → m ≠ "Build cancelled") :
    ∀ (r aIdx : Nat) (le : Option String) (s : RunSt) (m : String),
      (∀ m2, le = some m2 → m2 ≠ "Build cancelled") →
      (callAIGo o tag r aIdx le s).1 = .error m →
      m ≠ "Build cancelled" := by
  intro r
  induction r with
  | zero =>
      intro aIdx le s m hle h
      simp only [callAIGo] at h
      injection h with h
      cases le with
      | none =>
          rw [← h]
          simp [Option.getD]
      | some m2 =>
          rw [← h]
          exact hle m2 rfl
  | succ r ih =>
      intro aIdx le s m hle h
      have hab : sigAborted o s = false := sigAborted_none o s hct
      cases hai0 : o.ai s.aiN with
      | error msg =>
          have hm : msg ≠ "Build cancelled" := hai s.aiN msg hai0
          have hab2 : sigAborted o
              ({ (s.push (.check false)).push (.aiCall tag) with
                  aiN := s.aiN + 1 }) = false := sigAborted_none o _ hct
          by_cases hr : r > 0
          · have hstep : callAIGo o tag (r + 1) aIdx le s =
                callAIGo o tag r (aIdx + 1) (some msg)
                  (({ (s.push (.check false)).push (.aiCall tag) with
                      aiN := s.aiN + 1 }).push
                    (.sleep (RETRY_DELAYS.getD aIdx 0))) := by
              simp [RunSt.push] at hab2
              simp [callAIGo, hab, RunSt.push, hai0, hm, hab2, hr]
            rw [hstep] at h
            exact ih (aIdx + 1) (some msg) _ m
              (fun m2 hm2 => by injection hm2 with hm2; rw [← hm2]; exact hm)
              h
          · have hr0 : r = 0 := by omega
            subst hr0
            have hstep : callAIGo o tag 1 aIdx le s =
                (.error msg,
                  { (s.push (.check false)).push (.aiCall tag) with
                      aiN := s.aiN + 1 }) := by
              simp [RunSt.push] at hab2
              simp [callAIGo, hab, RunSt.push, hai0, hm, hab2]
            rw [hstep] at h
            injection h with h
            rw [← h]
            exact hm
      | ok tr =>
          obtain ⟨text, reason⟩ := tr
          by_cases hlr : reason = "length" ∧ text.length > 0
          · obtain ⟨hlen1, hlen2⟩ := hlr
            rcases hcl : contLoop o MAX_CONTINUATIONS text
                { (s.push (.check false)).push (.aiCall tag) with
                    aiN := s.aiN + 1 }
              with ⟨res, s3⟩
            simp [RunSt.push] at hcl
            cases res with
            | ok full =>
                have hstep : callAIGo o tag (r + 1) aIdx le s =
                    (.ok full, s3) := by
                  simp [callAIGo, hab, RunSt.push, hai0, hlen1, hlen2, hcl]
                rw [hstep] at h
                cases h
            | error msg =>
                have hm : msg ≠ "Build cancelled" := by
                  have := contLoop_err o MAX_CONTINUATIONS text _ msg
                    (by rw [hcl])
                  obtain ⟨n, hn⟩ := this
                  exact hai n msg hn
                have hab3 : sigAborted o s3 = false :=
                  sigAborted_none o s3 hct
                by_cases hr : r > 0
                · have hstep : callAIGo o tag (r + 1) aIdx le s =
                      callAIGo o tag r (aIdx + 1) (some msg)
                        (s3.push (.sleep (RETRY_DELAYS.getD aIdx 0))) := by
                    simp [callAIGo, hab, RunSt.push, hai0, hlen1, hlen2,
                      hcl, hm, hab3, hr]
                  rw [hstep] at h
                  exact ih (aIdx + 1) (some msg) _ m
                    (fun m2 hm2 => by
                      injection hm2 with hm2; rw [← hm2]; exact hm)
                    h
                · have hr0 : r = 0 := by omega
                  subst hr0
                  have hstep : callAIGo o tag 1 aIdx le s =
                      (.error msg, s3) := by
                    simp [callAIGo, hab, RunSt.push, hai0, hlen1, hlen2,
                      hcl, hm, hab3]
                  rw [hstep] at h
                  injection h with h
                  rw [← h]
                  exact hm
          · have hstep : callAIGo o tag (r + 1) aIdx le s =
                (.ok text,
                  { (s.push (.check false)).push (.aiCall tag) with
                      aiN := s.aiN + 1 }) := by
              simp only [callAIGo, hab, Bool.false_eq_true, if_false,
                RunSt.push, hai0]
              rw [if_neg hlr]
            rw [hstep] at h
            cases h

theorem callAI_not_cancelled (o : Orcl) (tag : String) (s : RunSt)
    (m : String) (hct : o.cancelTime = none)
    (hai : ∀ n m2, o.ai n = .error m2 → m2 ≠ "Build cancelled")
    (h : (callAI o tag s).1 = .error m) : m ≠ "Build cancelled" :=
  callAIGo_not_cancelled o tag hct hai (MAX_RETRIES + 1) 0 none s m
    (fun _ h2 => by cases h2) h

-- ─── Trace-extension lemmas ─────────────────────────────────────────────

theorem trExt_refl (s : RunSt) : TrExt s s := ⟨[], by simp⟩

theorem trExt_trans {s1 s2 s3 : RunSt} (h1 : TrExt s1 s2)
    (h2 : TrExt s2 s3) : TrExt s1 s3 := by
  obtain ⟨a, ha⟩ := h1
  obtain ⟨b, hb⟩ := h2
  exact ⟨a ++ b, by rw [hb, ha, List.append_assoc]⟩

theorem trExt_of_eq {s1 s2 : RunSt} (h : s2.trace = s1.trace) :
    TrExt s1 s2 := ⟨[], by simp [h]⟩

theorem callAI_trExt (o : Orcl) (tag : String) (s : RunSt) :
    TrExt s (callAI o tag s).2 := by
  obtain ⟨ext, h1, _⟩ := callAI_ext o tag s
  exact ⟨ext, h1⟩

theorem writeFile_trExt (o : Orcl) (p n c : String) (s : RunSt) :
    TrExt s (writeFile o p n c s).2 := by
  cases hw : o.writeRes s.writeN with
  | some msg => exact ⟨[], by simp [writeFile, hw]⟩
  | none =>
      refine ⟨[.storeWrite p c], ?_⟩
      simp only [writeFile, hw, RunSt.push]
      split <;> rfl

theorem handleFileError_trExt (o : Orcl) (pI fI : Nat) (path m : String)
    (s : RunSt) : TrExt s (handleFileError o pI fI path m s).2 := by
  rw [(handleFileError_spec o pI fI path m s).1]
  exact ⟨_, rfl⟩

theorem fileStep_trExt (o : Orcl) (plan : BuildPlan) (pI fI : Nat)
    (s : RunSt) : TrExt s (fileStep o plan pI fI s).2 := by
  cases hab : sigAborted o s with
  | true =>
      have hstep : fileStep o plan pI fI s =
          (.thrown "Build cancelled", s.push (.check true)) := by
        simp [fileStep, hab]
      rw [hstep]
      exact ⟨[.check true], rfl⟩
  | false =>
      by_cases hsk : fileStatusAt s.phases pI fI = some .created ∨
          fileStatusAt s.phases pI fI = some .updated
      · have hstep : fileStep o plan pI fI s =
            (.advance, (s.push (.check false)).push
              (.emit (.fileCreated pI fI (planFileAt plan pI fI).path))) := by
          simp only [fileStep, hab, Bool.false_eq_true, if_false, RunSt.push]
          rw [if_pos hsk]
        rw [hstep]
        exact ⟨[.check false,
          .emit (.fileCreated pI fI (planFileAt plan pI fI).path)],
          by simp [RunSt.push]⟩
      · rw [fileStep_run o plan pI fI s hab (fun h => hsk (Or.inl h))
          (fun h => hsk (Or.inr h))]
        have hmk : TrExt s (genMarkSt pI fI s) :=
          ⟨[.check false, .emit (.fileGenerating pI fI),
            .persist (some (setFStatus s.phases pI fI .generating))
              none none], by simp [genMarkSt, RunSt.push]⟩
        rcases hai : callAI o "generate" (genMarkSt pI fI s) with ⟨res, sA⟩
        have hA : TrExt s sA := by
          have h := callAI_trExt o "generate" (genMarkSt pI fI s)
          rw [hai] at h
          exact trExt_trans hmk h
        cases res with
        | error m =>
            simp only []
            by_cases hm : m = "Build cancelled"
            · rw [if_pos hm]
              exact hA
            · rw [if_neg hm]
              exact trExt_trans hA (handleFileError_trExt o pI fI _ m sA)
        | ok content =>
            simp only []
            rcases hwf : writeFile o (planFileAt plan pI fI).path
                (planFileAt plan pI fI).name content sA with ⟨wres, s4⟩
            have h4 : TrExt s s4 := by
              have h := writeFile_trExt o (planFileAt plan pI fI).path
                (planFileAt plan pI fI).name content sA
              rw [hwf] at h
              exact trExt_trans hA h
            cases wres with
            | ok u =>
                refine trExt_trans h4 ?_
                exact ⟨[.emit (.fileCreated pI fI (planFileAt plan pI fI).path),
                  .persist (some (setFStatus s4.phases pI fI .created))
                    none none], by simp [RunSt.push]⟩
            | error m =>
                simp only []
                by_cases hm : m = "Build cancelled"
                · rw [if_pos hm]
                  exact h4
                · rw [if_neg hm]
                  exact trExt_trans h4 (handleFileError_trExt o pI fI _ m s4)

theorem fileLoop_trExt (o : Orcl) (plan : BuildPlan) (pI : Nat) :
    ∀ (fuel fI : Nat) (s : RunSt), TrExt s (fileLoop o plan pI fuel fI s).2 := by
  intro fuel
  induction fuel with
  | zero => intro fI s; exact trExt_refl s
  | succ n ih =>
      intro fI s
      by_cases hlt : fI < (planPhaseAt plan pI).files.length
      · rcases hfs : fileStep o plan pI fI s with ⟨st, s1⟩
        have h1 : TrExt s s1 := by
          have h := fileStep_trExt o plan pI fI s
          rw [hfs] at h
          exact h
        cases st with
        | advance =>
            have hstep : fileLoop o plan pI (n + 1) fI s =
                fileLoop o plan pI n (fI + 1) s1 := by
              simp [fileLoop, hlt, hfs]
            rw [hstep]
            exact trExt_trans h1 (ih (fI + 1) s1)
        | stay =>
            have hstep : fileLoop o plan pI (n + 1) fI s =
                fileLoop o plan pI n fI s1 := by
              simp [fileLoop, hlt, hfs]
            rw [hstep]
            exact trExt_trans h1 (ih fI s1)
        | thrown m =>
            have hstep : fileLoop o plan pI (n + 1) fI s = (.error m, s1) := by
              simp [fileLoop, hlt, hfs]
            rw [hstep]
            exact h1
      · have hstep : fileLoop o plan pI (n + 1) fI s = (.ok (), s) := by
          simp [fileLoop, hlt]
        rw [hstep]
        exact trExt_refl s

theorem readMarkSt_trExt (pI dynIdx : Nat) (readPath : String) (s : RunSt) :
    TrExt s (readMarkSt pI dynIdx readPath s) :=
  ⟨[.check false,
    .emit (.dynamicFile pI
      ⟨readPath, lastSegment readPath, "Reading for context",
        .reading, none⟩),
    .emit (.fileReading pI dynIdx),
    .persist (some (pushFile s.phases pI
      ⟨readPath, lastSegment readPath, "Reading for context",
        .reading, none⟩)) none none],
   by simp [readMarkSt, RunSt.push]⟩

theorem readEach_cons_read (o : Orcl) (pI : Nat) (readPath : String)
    (rest : List String) (dynIdx : Nat) (c : String) (s : RunSt)
    (hab : sigAborted o s = false)
    (hmem : truthy (alookup s.memory readPath) = some c) :
    readEach o pI (readPath :: rest) dynIdx s =
      match callAI o "file-read" (readMarkSt pI dynIdx readPath s) with
      | (.error m, s3) => (.error m, s3)
      | (.ok _, s3) =>
          readEach o pI rest (dynIdx + 1)
            ((({ s3 with
                phases := setFStatus s3.phases pI dynIdx .read }).push
              (.emit (.fileRead pI dynIdx readPath))).push
              (.persist (some (setFStatus s3.phases pI dynIdx .read))
                none none)) := by
  simp only [readEach, hab, Bool.false_eq_true, if_false, RunSt.push,
    readMarkSt, hmem]

theorem readEach_trExt (o : Orcl) (pI : Nat) :
    ∀ (l : List String) (dynIdx : Nat) (s : RunSt),
      TrExt s (readEach o pI l dynIdx s).2 := by
  intro l
  induction l with
  | nil => intro dynIdx s; exact ⟨[], by simp [readEach]⟩
  | cons readPath rest ih =>
      intro dynIdx s
      cases hab : sigAborted o s with
      | true =>
          have hstep : readEach o pI (readPath :: rest) dynIdx s =
              (.error "Build cancelled", s.push (.check true)) := by
            simp [readEach, hab]
          rw [hstep]
          exact ⟨[.check true], rfl⟩
      | false =>
          cases hmem : truthy (alookup s.memory readPath) with
          | none =>
              have hstep : readEach o pI (readPath :: rest) dynIdx s =
                  readEach o pI rest dynIdx (s.push (.check false)) := by
                simp [readEach, hab, RunSt.push, hmem]
              rw [hstep]
              exact trExt_trans ⟨[.check false], rfl⟩
                (ih dynIdx (s.push (.check false)))
          | some c =>
              rw [readEach_cons_read o pI readPath rest dynIdx c s hab hmem]
              rcases hai : callAI o "file-read"
                  (readMarkSt pI dynIdx readPath s) with ⟨res, s3⟩
              have h3 : TrExt s s3 := by
                have h := callAI_trExt o "file-read"
                  (readMarkSt pI dynIdx readPath s)
                rw [hai] at h
                exact trExt_trans (readMarkSt_trExt pI dynIdx readPath s) h
              cases res with
              | error m =>
                  simp only []
                  exact h3
              | ok t =>
                  simp only []
                  refine trExt_trans h3 (trExt_trans ?_
                    (ih (dynIdx + 1) _))
                  exact ⟨[.emit (.fileRead pI dynIdx readPath),
                    .persist (some (setFStatus s3.phases pI dynIdx .read))
                      none none], by simp [RunSt.push]⟩

theorem readPass_run (o : Orcl) (plan : BuildPlan) (pI : Nat) (s : RunSt)
    (hm : s.memory.length > 0) :
    readPass o plan pI s =
      match callAI o "read-check"
          ((s.push (.emit (.thinking "Analyzing dependencies..."))).push
            (.persist none none none)) with
      | (.error m, s1) =>
          if m = "Build cancelled" then (.error m, s1) else (.ok (), s1)
      | (.ok text, s1) =>
          match readEach o pI (o.parseList text)
              (planPhaseAt plan pI).files.length s1 with
          | (.error m, s2) =>
              if m = "Build cancelled" then (.error m, s2) else (.ok (), s2)
          | (.ok _, s2) => (.ok (), s2) := by
  unfold readPass
  rw [if_pos hm]

theorem readPass_trExt (o : Orcl) (plan : BuildPlan) (pI : Nat) (s : RunSt) :
    TrExt s (readPass o plan pI s).2 := by
  by_cases hm : s.memory.length > 0
  · rw [readPass_run o plan pI s hm]
    rcases hai : callAI o "read-check"
        ((s.push (.emit (.thinking "Analyzing dependencies..."))).push
          (.persist none none none)) with ⟨res, s1⟩
    have h1 : TrExt s s1 := by
      have h := callAI_trExt o "read-check"
        ((s.push (.emit (.thinking "Analyzing dependencies..."))).push
          (.persist none none none))
      rw [hai] at h
      exact trExt_trans ⟨[.emit (.thinking "Analyzing dependencies..."),
        .persist none none none], by simp [RunSt.push]⟩ h
    cases res with
    | error m =>
        simp only []
        split <;> exact h1
    | ok text =>
        simp only []
        rcases hre : readEach o pI (o.parseList text)
            (planPhaseAt plan pI).files.length s1 with ⟨res2, s2⟩
        have h2 : TrExt s s2 := by
          have h := readEach_trExt o pI (o.parseList text)
            (planPhaseAt plan pI).files.length s1
          rw [hre] at h
          exact trExt_trans h1 h
        cases res2 with
        | error m =>
            simp only []
            split <;> exact h2
        | ok u =>
            simp only []
            exact h2
  · unfold readPass
    rw [if_neg hm]
    exact trExt_refl s

theorem applyFix_trExt (o : Orcl) (plan : BuildPlan) (pI : Nat) (fix : Fix)
    (s : RunSt) : TrExt s (applyFix o plan pI fix s).2 := by
  cases hab : sigAborted o s with
  | true =>
      have hstep : applyFix o plan pI fix s =
          (.error "Build cancelled", s.push (.check true)) := by
        simp [applyFix, hab]
      rw [hstep]
      exact ⟨[.check true], rfl⟩
  | false =>
      cases hloc : locateFix plan pI fix.path with
      | none =>
          have hstep : applyFix o plan pI fix s =
              (.ok (), s.push (.check false)) := by
            simp [applyFix, hab, hloc]
          rw [hstep]
          exact ⟨[.check false], rfl⟩
      | some kj =>
          obtain ⟨k, j⟩ := kj
          rw [applyFix_run o plan pI fix s hab k j hloc]
          have hmk : TrExt s (fixMarkSt k j s) :=
            ⟨[.check false, .emit (.fileUpdating k j),
              .persist (some (setFStatus s.phases k j .updating)) none none],
              by simp [fixMarkSt, RunSt.push]⟩
          rcases hai : callAI o
              (match truthy (alookup s.memory (planFileAt plan k j).path) with
               | some _ => "patch"
               | none => "fix-generate") (fixMarkSt k j s) with ⟨res, s3⟩
          have h3 : TrExt s s3 := by
            have h := callAI_trExt o
              (match truthy (alookup s.memory (planFileAt plan k j).path) with
               | some _ => "patch"
               | none => "fix-generate") (fixMarkSt k j s)
            rw [hai] at h
            exact trExt_trans hmk h
          cases res with
          | error m =>
              simp only []
              by_cases hbc : m = "Build cancelled"
              · rw [if_pos hbc]
                exact h3
              · rw [if_neg hbc]
                refine trExt_trans h3 ?_
                exact ⟨[.emit (.fileError k j (jsOr m "Fix failed")),
                  .persist (some (setFileStatus s3.phases k j .error
                    (some m))) none none], by simp [RunSt.push]⟩
          | ok c =>
              simp only []
              rcases hwf : writeFile o (planFileAt plan k j).path
                  (planFileAt plan k j).name c s3 with ⟨wres, s4⟩
              have h4 : TrExt s s4 := by
                have h := writeFile_trExt o (planFileAt plan k j).path
                  (planFileAt plan k j).name c s3
                rw [hwf] at h
                exact trExt_trans h3 h
              cases wres with
              | ok u =>
                  refine trExt_trans h4 ?_
                  exact ⟨[.emit (.fileUpdated k j (planFileAt plan k j).path),
                    .persist (some (setFStatus s4.phases k j .updated))
                      none none], by simp [RunSt.push]⟩
              | error m =>
                  simp only []
                  by_cases hbc : m = "Build cancelled"
                  · rw [if_pos hbc]
                    exact h4
                  · rw [if_neg hbc]
                    refine trExt_trans h4 ?_
                    exact ⟨[.emit (.fileError k j (jsOr m "Fix failed")),
                      .persist (some (setFileStatus s4.phases k j .error
                        (some m))) none none], by simp [RunSt.push]⟩

theorem fixLoop_trExt (o : Orcl) (plan : BuildPlan) (pI : Nat) :
    ∀ (fixes : List Fix) (s : RunSt), TrExt s (fixLoop o plan pI fixes s).2 := by
  intro fixes
  induction fixes with
  | nil => intro s; exact trExt_refl s
  | cons fix rest ih =>
      intro s
      rcases haf : applyFix o plan pI fix s with ⟨res, s1⟩
      have h1 : TrExt s s1 := by
        have h := applyFix_trExt o plan pI fix s
        rw [haf] at h
        exact h
      cases res with
      | error m =>
          have hstep : fixLoop o plan pI (fix :: rest) s = (.error m, s1) := by
            simp [fixLoop, haf]
          rw [hstep]
          exact h1
      | ok u =>
          have hstep : fixLoop o plan pI (fix :: rest) s =
              fixLoop o plan pI rest s1 := by
            simp [fixLoop, haf]
          rw [hstep]
          exact trExt_trans h1 (ih s1)

theorem reviewBlock_run (o : Orcl) (plan : BuildPlan) (pI : Nat) (s : RunSt)
    (hab : sigAborted o s = false) :
    reviewBlock o plan pI s =
      if ((planPhaseAt plan pI).files.filter
          (fun f => (alookup s.memory f.path).isSome)).length > 0 then
        match callAI o "review" (revMarkSt pI s) with
        | (.error m, s3) =>
            if m = "Build cancelled" then (.error m, s3) else (.ok (), s3)
        | (.ok raw, s3) =>
            match o.parseReview raw with
            | .passed => (.ok (), s3)
            | .failed fixes =>
                match fixLoop o plan pI fixes s3 with
                | (.error m, s4) =>
                    if m = "Build cancelled" then (.error m, s4)
                    else (.ok (), s4)
                | (.ok _, s4) => (.ok (), s4)
      else (.ok (), revMarkSt pI s) := by
  simp only [reviewBlock, hab, Bool.false_eq_true, if_false, revMarkSt,
    RunSt.push]

theorem revMarkSt_trExt (pI : Nat) (s : RunSt) :
    TrExt s (revMarkSt pI s) :=
  ⟨[.check false, .emit (.phaseReviewing pI),
    .persist (some (setPhaseStatus s.phases pI .reviewing))
      (some "reviewing") none], by simp [revMarkSt, RunSt.push]⟩

theorem reviewBlock_trExt (o : Orcl) (plan : BuildPlan) (pI : Nat)
    (s : RunSt) : TrExt s (reviewBlock o plan pI s).2 := by
  cases hab : sigAborted o s with
  | true =>
      have hstep : reviewBlock o plan pI s =
          (.error "Build cancelled", s.push (.check true)) := by
        simp [reviewBlock, hab]
      rw [hstep]
      exact ⟨[.check true], rfl⟩
  | false =>
      rw [reviewBlock_run o plan pI s hab]
      by_cases hpf : ((planPhaseAt plan pI).files.filter
          (fun f => (alookup s.memory f.path).isSome)).length > 0
      · rw [if_pos hpf]
        rcases hai : callAI o "review" (revMarkSt pI s) with ⟨res, s3⟩
        have h3 : TrExt s s3 := by
          have h := callAI_trExt o "review" (revMarkSt pI s)
          rw [hai] at h
          exact trExt_trans (revMarkSt_trExt pI s) h
        cases res with
        | error m =>
            simp only []
            split <;> exact h3
        | ok raw =>
            simp only []
            cases hpr : o.parseReview raw with
            | passed =>
                simp only []
                exact h3
            | failed fixes =>
                simp only []
                rcases hfl : fixLoop o plan pI fixes s3 with ⟨res2, s4⟩
                have h4 : TrExt s s4 := by
                  have h := fixLoop_trExt o plan pI fixes s3
                  rw [hfl] at h
                  exact trExt_trans h3 h
                cases res2 with
                | error m =>
                    simp only []
                    split <;> exact h4
                | ok u =>
                    simp only []
                    exact h4
      · rw [if_neg hpf]
        exact revMarkSt_trExt pI s

theorem phaseIter_run (o : Orcl) (plan : BuildPlan) (fuel pI : Nat)
    (s : RunSt) (hab : sigAborted o s = false)
    (hnc : (s.phases.get? pI).map (·.status) ≠ some .complete) :
    phaseIter o plan fuel pI s =
      match readPass o plan pI (phaseMarkSt pI s) with
      | (.error m, s3) => (.error m, s3)
      | (.ok _, s3) =>
          match fileLoop o plan pI fuel 0 s3 with
          | (.error m, s4) => (.error m, s4)
          | (.ok _, s4) =>
              match reviewBlock o plan pI s4 with
              | (.error m, s5) => (.error m, s5)
              | (.ok _, s5) =>
                  (.ok (),
                    ((({ s5 with
                        phases := setPhaseStatus s5.phases pI
                          .complete }).push
                      (.emit (.phaseComplete pI))).push
                      (.persist (some (setPhaseStatus s5.phases pI .complete))
                        (some "building") none))) := by
  simp only [phaseIter, hab, Bool.false_eq_true, if_false, RunSt.push,
    phaseMarkSt, hnc]

theorem phaseMarkSt_trace (pI : Nat) (s : RunSt) :
    (phaseMarkSt pI s).trace =
      s.trace ++ [.check false, .emit (.phaseStart pI),
        .persist (some (setPhaseStatus s.phases pI .active)) none none] := by
  simp [phaseMarkSt, RunSt.push]

theorem phaseIter_ext_active (o : Orcl) (plan : BuildPlan) (fuel pI : Nat)
    (s : RunSt) (hab : sigAborted o s = false)
    (hnc : (s.phases.get? pI).map (·.status) ≠ some .complete) :
    ∃ rest, (phaseIter o plan fuel pI s).2.trace =
      s.trace ++ .check false :: .emit (.phaseStart pI) ::
        .persist (some (setPhaseStatus s.phases pI .active)) none none ::
        rest := by
  rw [phaseIter_run o plan fuel pI s hab hnc]
  rcases hrp : readPass o plan pI (phaseMarkSt pI s) with ⟨r1, s3⟩
  have h3 : TrExt (phaseMarkSt pI s) s3 := by
    have h := readPass_trExt o plan pI (phaseMarkSt pI s)
    rw [hrp] at h
    exact h
  obtain ⟨e1, he1⟩ := h3
  cases r1 with
  | error m =>
      exact ⟨e1, by simp only []; rw [he1, phaseMarkSt_trace]; simp⟩
  | ok u1 =>
      simp only []
      rcases hfl : fileLoop o plan pI fuel 0 s3 with ⟨r2, s4⟩
      have h4 : TrExt s3 s4 := by
        have h := fileLoop_trExt o plan pI fuel 0 s3
        rw [hfl] at h
        exact h
      obtain ⟨e2, he2⟩ := h4
      cases r2 with
      | error m =>
          exact ⟨e1 ++ e2,
            by simp only []; rw [he2, he1, phaseMarkSt_trace]; simp⟩
      | ok u2 =>
          simp only []
          rcases hrv : reviewBlock o plan pI s4 with ⟨r3, s5⟩
          have h5 : TrExt s4 s5 := by
            have h := reviewBlock_trExt o plan pI s4
            rw [hrv] at h
            exact h
          obtain ⟨e3, he3⟩ := h5
          cases r3 with
          | error m =>
              exact ⟨e1 ++ e2 ++ e3,
                by simp only []; rw [he3, he2, he1, phaseMarkSt_trace]; simp⟩
          | ok u3 =>
              refine ⟨e1 ++ e2 ++ e3 ++
                [.emit (.phaseComplete pI),
                 .persist (some (setPhaseStatus s5.phases pI .complete))
                   (some "building") none], ?_⟩
              simp only [RunSt.push]
              rw [he3, he2, he1, phaseMarkSt_trace]
              simp

theorem phaseIter_trExt (o : Orcl) (plan : BuildPlan) (fuel pI : Nat)
    (s : RunSt) : TrExt s (phaseIter o plan fuel pI s).2 := by
  cases hab : sigAborted o s with
  | true =>
      have hstep : phaseIter o plan fuel pI s =
          (.error "Build cancelled", s.push (.check true)) := by
        simp [phaseIter, hab]
      rw [hstep]
      exact ⟨[.check true], rfl⟩
  | false =>
      by_cases hnc : (s.phases.get? pI).map (·.status) = some .complete
      · have hstep : phaseIter o plan fuel pI s =
            (.ok (), s.push (.check false)) := by
          simp only [phaseIter, hab, Bool.false_eq_true, if_false,
            RunSt.push]
          rw [if_pos hnc]
        rw [hstep]
        exact ⟨[.check false], rfl⟩
      · obtain ⟨rest, hrest⟩ :=
          phaseIter_ext_active o plan fuel pI s hab hnc
        exact ⟨_, hrest⟩

theorem summaryPhase_ok_shape (o : Orcl) (s : RunSt) (summary : String)
    (s2 : RunSt) (hab : sigAborted o s = false)
    (hcall : callAI o "summary"
        (((s.push (.check false)).push
          (.emit (.thinking "Generating build summary..."))).push
          (.persist none none none)) = (.ok summary, s2)) :
    (summaryPhase o s).2.trace =
      s2.trace ++ [.message summary, .emit (.buildComplete summary),
        .persist none (some "complete") (some summary)] := by
  simp only [RunSt.push] at hcall
  simp only [summaryPhase, hab, Bool.false_eq_true, if_false, RunSt.push,
    hcall]
  simp [RunSt.push]

theorem genMarkSt_trace (pI fI : Nat) (s : RunSt) :
    (genMarkSt pI fI s).trace =
      s.trace ++ [.check false, .emit (.fileGenerating pI fI),
        .persist (some (setFStatus s.phases pI fI .generating)) none none] := by
  simp [genMarkSt, RunSt.push]

theorem fileStep_gen_shape (o : Orcl) (plan : BuildPlan) (pI fI : Nat)
    (s : RunSt) (hab : sigAborted o s = false)
    (h1 : fileStatusAt s.phases pI fI ≠ some .created)
    (h2 : fileStatusAt s.phases pI fI ≠ some .updated) :
    ∃ rest, (fileStep o plan pI fI s).2.trace =
      s.trace ++ .check false :: .emit (.fileGenerating pI fI) ::
        .persist (some (setFStatus s.phases pI fI .generating)) none none ::
        rest := by
  rw [fileStep_run o plan pI fI s hab h1 h2]
  rcases hai : callAI o "generate" (genMarkSt pI fI s) with ⟨res, sA⟩
  have hA : TrExt (genMarkSt pI fI s) sA := by
    have h := callAI_trExt o "generate" (genMarkSt pI fI s)
    rw [hai] at h
    exact h
  obtain ⟨e1, he1⟩ := hA
  cases res with
  | error m =>
      simp only []
      by_cases hbc : m = "Build cancelled"
      · rw [if_pos hbc]
        exact ⟨e1, by simp only []; rw [he1, genMarkSt_trace]; simp⟩
      · rw [if_neg hbc]
        obtain ⟨e2, he2⟩ := handleFileError_trExt o pI fI
          (jsOr (planFileAt plan pI fI).path "unknown file") m sA
        exact ⟨e1 ++ e2, by rw [he2, he1, genMarkSt_trace]; simp⟩
  | ok content =>
      simp only []
      rcases hwf : writeFile o (planFileAt plan pI fI).path
          (planFileAt plan pI fI).name content sA with ⟨wres, s4⟩
      have h4 : TrExt sA s4 := by
        have h := writeFile_trExt o (planFileAt plan pI fI).path
          (planFileAt plan pI fI).name content sA
        rw [hwf] at h
        exact h
      obtain ⟨e2, he2⟩ := h4
      cases wres with
      | ok u =>
          refine ⟨e1 ++ e2 ++
            [.emit (.fileCreated pI fI (planFileAt plan pI fI).path),
             .persist (some (setFStatus s4.phases pI fI .created))
               none none], ?_⟩
          simp only [RunSt.push]
          rw [he2, he1, genMarkSt_trace]
          simp
      | error m =>
          simp only []
          by_cases hbc : m = "Build cancelled"
          · rw [if_pos hbc]
            exact ⟨e1 ++ e2,
              by simp only []; rw [he2, he1, genMarkSt_trace]; simp⟩
          · rw [if_neg hbc]
            obtain ⟨e3, he3⟩ := handleFileError_trExt o pI fI
              (jsOr (planFileAt plan pI fI).path "unknown file") m s4
            exact ⟨e1 ++ e2 ++ e3,
              by rw [he3, he2, he1, genMarkSt_trace]; simp⟩

-- ─── C2 (amended) ───────────────────────────────────────────────────────

/-- C2 (amended): events are emitted in the order transitions occur, but
each event precedes the persist recording it: the error handler appends
`file-error` and then immediately the persist whose snapshot records the
file as `error`; a non-complete phase's iteration appends `phase-start`
and then immediately the persist recording it `active`; a non-skipped
file iteration appends `file-generating` and then immediately the
persist recording it `generating`; a successful summary appends
`build-complete` and then immediately the persist setting status
`complete`; and in the concrete complete runs every transition event is
followed (later, never earlier) by a persist recording it. -/
theorem c2_emit_then_persist :
    (∀ (o : Orcl) (pI fI : Nat) (path m : String) (s : RunSt)
        (st0 : FileStatus),
        fileStatusAt s.phases pI fI = some st0 →
        (handleFileError o pI fI path m s).2.trace =
          s.trace ++ .emit (.fileError pI fI (sanitizeError m)) ::
            .persist (some (setFileStatus s.phases pI fI .error
              (some (sanitizeError m)))) none none ::
            [.suspendFE path (sanitizeError m) FILE_ERROR_TIMEOUT_MS,
             .decision (o.userDecision s.decN)] ∧
        recordsPersist (some (setFileStatus s.phases pI fI .error
            (some (sanitizeError m)))) none none
          (.fileError pI fI (sanitizeError m)) = true) ∧
    (∀ (o : Orcl) (plan : BuildPlan) (fuel pI : Nat) (s : RunSt)
        (st0 : PhaseStatus),
        sigAborted o s = false →
        phaseStatusIn s.phases pI = some st0 → st0 ≠ .complete →
        ∃ rest, (phaseIter o plan fuel pI s).2.trace =
          s.trace ++ .check false :: .emit (.phaseStart pI) ::
            .persist (some (setPhaseStatus s.phases pI .active)) none none ::
            rest ∧
        recordsPersist (some (setPhaseStatus s.phases pI .active)) none none
          (.phaseStart pI) = true) ∧
    (∀ (o : Orcl) (plan : BuildPlan) (pI fI : Nat) (s : RunSt)
        (st0 : FileStatus),
        sigAborted o s = false →
        fileStatusAt s.phases pI fI = some st0 →
        st0 ≠ .created → st0 ≠ .updated →
        ∃ rest, (fileStep o plan pI fI s).2.trace =
          s.trace ++ .check false :: .emit (.fileGenerating pI fI) ::
            .persist (some (setFStatus s.phases pI fI .generating))
              none none :: rest ∧
        recordsPersist (some (setFStatus s.phases pI fI .generating))
          none none (.fileGenerating pI fI) = true) ∧
    (∀ (o : Orcl) (s : RunSt) (summary : String) (s2 : RunSt),
        sigAborted o s = false →
        callAI o "summary" (((s.push (.check false)).push
          (.emit (.thinking "Generating build summary..."))).push
          (.persist none none none)) = (.ok summary, s2) →
        (summaryPhase o s).2.trace =
          s2.trace ++ [.message summary, .emit (.buildComplete summary),
            .persist none (some "complete") (some summary)] ∧
        recordsPersist none (some "complete") (some summary)
          (.buildComplete summary) = true) ∧
    SegSelf runC2.trace ∧ SegSelf runC9.trace := by
  refine ⟨?_, ?_, ?_, ?_, ?_, ?_⟩
  · intro o pI fI path m s st0 hst
    refine ⟨by rw [(handleFileError_spec o pI fI path m s).1], ?_⟩
    simp [recordsPersist, setFileStatus_self, hst]
  · intro o plan fuel pI s st0 hab hst hne
    have hnc : (s.phases.get? pI).map (·.status) ≠ some .complete := by
      show phaseStatusIn s.phases pI ≠ some .complete
      rw [hst]
      simp [hne]
    obtain ⟨rest, hrest⟩ := phaseIter_ext_active o plan fuel pI s hab hnc
    refine ⟨rest, hrest, ?_⟩
    simp [recordsPersist, setPhaseStatus_self, hst, phaseReached]
  · intro o plan pI fI s st0 hab hst hne1 hne2
    have h1 : fileStatusAt s.phases pI fI ≠ some .created := by
      rw [hst]; simp [hne1]
    have h2 : fileStatusAt s.phases pI fI ≠ some .updated := by
      rw [hst]; simp [hne2]
    obtain ⟨rest, hrest⟩ := fileStep_gen_shape o plan pI fI s hab h1 h2
    refine ⟨rest, hrest, ?_⟩
    simp [recordsPersist, setFStatus_self, hst, fileStarted]
  · intro o s summary s2 hab hcall
    exact ⟨summaryPhase_ok_shape o s summary s2 hab hcall,
      by simp [recordsPersist]⟩
  · exact segSelfB_sound runC2.trace (by rfl)
  · exact segSelfB_sound runC9.trace (by rfl)

/-- C2 (amended, witness): the error-handler conjunct at a concrete
fresh one-file build state. -/
theorem c2_emit_then_persist_witness :
    fileStatusAt (initResumeSt buildFresh []).phases 0 0 = some .pending ∧
    ((handleFileError pureO 0 0 "p" "m" (initResumeSt buildFresh [])).2.trace =
        (initResumeSt buildFresh []).trace ++
          .emit (.fileError 0 0 (sanitizeError "m")) ::
          .persist (some (setFileStatus (initResumeSt buildFresh []).phases
            0 0 .error (some (sanitizeError "m")))) none none ::
          [.suspendFE "p" (sanitizeError "m") FILE_ERROR_TIMEOUT_MS,
           .decision (pureO.userDecision (initResumeSt buildFresh []).decN)] ∧
      recordsPersist (some (setFileStatus (initResumeSt buildFresh []).phases
          0 0 .error (some (sanitizeError "m")))) none none
        (.fileError 0 0 (sanitizeError "m")) = true) :=
  ⟨by rfl, c2_emit_then_persist.1 pureO 0 0 "p" "m"
    (initResumeSt buildFresh []) .pending (by rfl)⟩

-- ─── Phase-segment (PhaseSeg) infrastructure ────────────────────────────

theorem notPlanOp_check (b : Bool) : NotPlanOp (.check b) :=
  ⟨by simp, by simp, fun p => by simp⟩

theorem notPlanOp_persist (ps : Option (List PhaseState))
    (st sm : Option String) : NotPlanOp (.persist ps st sm) :=
  ⟨by simp, by simp, fun p => by simp⟩

theorem notPlanOp_storeWrite (p c : String) : NotPlanOp (.storeWrite p c) :=
  ⟨by simp, by simp, fun p2 => by simp⟩

theorem notPlanOp_suspend (p e : String) (t : Nat) :
    NotPlanOp (.suspendFE p e t) :=
  ⟨by simp, by simp, fun p2 => by simp⟩

theorem notPlanOp_decision (d : String) : NotPlanOp (.decision d) :=
  ⟨by simp, by simp, fun p => by simp⟩

theorem notPlanOp_message (m : String) : NotPlanOp (.message m) :=
  ⟨by simp, by simp, fun p => by simp⟩

theorem notPlanOp_emit (e : BuildEvent) (h1 : e ≠ .planning)
    (h2 : ∀ p, e ≠ .planReady p) : NotPlanOp (.emit e) :=
  ⟨by simp, by simpa using h1, fun p => by simpa using h2 p⟩

theorem phaseSeg_comp {pI : Nat} {s s1 s2 : RunSt} {e1 e2 : List Op}
    (h1 : PhaseSeg pI s s1 e1) (h2 : PhaseSeg pI s1 s2 e2) :
    PhaseSeg pI s s2 (e1 ++ e2) := by
  obtain ⟨htr1, hop1, hps1, hg1, hq1, hd1⟩ := h1
  obtain ⟨htr2, hop2, hps2, hg2, hq2, hd2⟩ := h2
  refine ⟨?_, ?_, ?_, ?_, ?_, ?_⟩
  · rw [htr2, htr1, List.append_assoc]
  · intro op hop
    rcases List.mem_append.mp hop with h | h
    exacts [hop1 op h, hop2 op h]
  · intro i hi
    rcases List.mem_append.mp hi with h | h
    exacts [hps1 i h, hps2 i h]
  · intro kj hkj
    rw [gens_append] at hkj
    rcases List.mem_append.mp hkj with h | h
    · exact hg1 kj h
    · obtain ⟨hk, hc, hu⟩ := hg2 kj h
      refine ⟨hk, ?_, ?_⟩
      · intro hcon
        exact hc (hd1 kj.2 .created hcon (Or.inl rfl))
      · intro hcon
        exact hu (hd1 kj.2 .updated hcon (Or.inr rfl))
  · intro q hq
    rw [hq2 q hq, hq1 q hq]
  · intro r st hst hdu
    exact hd2 r st (hd1 r st hst hdu) hdu

theorem phaseSeg_ofOps {pI : Nat} {s s' : RunSt} {ext : List Op}
    (htr : s'.trace = s.trace ++ ext) (hph : s'.phases = s.phases)
    (hop : ∀ op ∈ ext, NotPlanOp op)
    (hps : ∀ i, Op.emit (.phaseStart i) ∈ ext → i = pI)
    (hg : gens ext = []) : PhaseSeg pI s s' ext := by
  refine ⟨htr, hop, hps, ?_, ?_, ?_⟩
  · intro kj hkj
    rw [hg] at hkj
    cases hkj
  · intro q _
    rw [hph]
  · intro r st hst _
    rw [hph]
    exact hst

theorem phaseSeg_refl (pI : Nat) (s : RunSt) : PhaseSeg pI s s [] :=
  phaseSeg_ofOps (by simp) rfl (by simp) (by simp) rfl

theorem fileStatusAt_congr {phs phs' : List PhaseState} {pI : Nat}
    (h : phs'.get? pI = phs.get? pI) (r : Nat) :
    fileStatusAt phs' pI r = fileStatusAt phs pI r := by
  simp only [fileStatusAt]
  rw [h]

theorem pushFile_status_pres (phs : List PhaseState) (pI : Nat)
    (f : FileState) (r : Nat) (st : FileStatus)
    (h : fileStatusAt phs pI r = some st) :
    fileStatusAt (pushFile phs pI f) pI r = some st := by
  simp only [fileStatusAt, List.get?_eq_getElem?] at h ⊢
  simp only [pushFile, setIn_getElem_self]
  cases hg : phs[pI]? with
  | none => rw [hg] at h; cases h
  | some ph =>
      rw [hg] at h
      simp only [Option.map_some', Option.some_bind] at h ⊢
      cases hf : ph.files[r]? with
      | none => rw [hf] at h; cases h
      | some fl =>
          rw [hf] at h
          have hlt : r < ph.files.length := by
            by_contra hge
            rw [List.getElem?_eq_none (by omega)] at hf
            cases hf
          rw [List.getElem?_append_left hlt, hf]
          exact h

theorem setIn_length {α : Type} (u : α → α) (l : List α) (n : Nat) :
    (setIn u l n).length = l.length := by
  induction l generalizing n with
  | nil => simp [setIn]
  | cons x rest ih =>
      cases n with
      | zero => simp [setIn]
      | succ m => simpa [setIn] using ih m

theorem writeFile_seg (o : Orcl) (p n c : String) (s : RunSt) (pI : Nat) :
    ∃ ext, PhaseSeg pI s (writeFile o p n c s).2 ext := by
  cases hw : o.writeRes s.writeN with
  | some msg =>
      exact ⟨[], phaseSeg_ofOps (by simp [writeFile, hw])
        (by simp [writeFile, hw]) (by simp) (by simp) rfl⟩
  | none =>
      refine ⟨[.storeWrite p c],
        phaseSeg_ofOps
          (by simp only [writeFile, hw, RunSt.push]; split <;> rfl)
          (by simp only [writeFile, hw, RunSt.push]; split <;> rfl)
          ?_ ?_ rfl⟩
      · intro op hop
        simp only [List.mem_singleton] at hop
        subst hop
        exact notPlanOp_storeWrite p c
      · intro i hi
        simp at hi

theorem handleFileError_seg (o : Orcl) (pI fI : Nat) (path m : String)
    (s : RunSt) (h1 : fileStatusAt s.phases pI fI ≠ some .created)
    (h2 : fileStatusAt s.phases pI fI ≠ some .updated) :
    ∃ ext, PhaseSeg pI s (handleFileError o pI fI path m s).2 ext := by
  have hsp := (handleFileError_spec o pI fI path m s).1
  have htr : (handleFileError o pI fI path m s).2.trace =
      s.trace ++
        [.emit (.fileError pI fI (sanitizeError m)),
         .persist (some (setFileStatus s.phases pI fI .error
           (some (sanitizeError m)))) none none,
         .suspendFE path (sanitizeError m) FILE_ERROR_TIMEOUT_MS,
         .decision (o.userDecision s.decN)] := by rw [hsp]
  have hph : (handleFileError o pI fI path m s).2.phases =
      setFileStatus s.phases pI fI .error (some (sanitizeError m)) := by
    rw [hsp]
  refine ⟨_, htr, ?_, ?_, ?_, ?_, ?_⟩
  · intro op hop
    simp only [List.mem_cons, List.not_mem_nil, or_false] at hop
    rcases hop with rfl | rfl | rfl | rfl
    · exact notPlanOp_emit _ (by simp) (fun p => by simp)
    · exact notPlanOp_persist _ _ _
    · exact notPlanOp_suspend _ _ _
    · exact notPlanOp_decision _
  · intro i hi
    simp at hi
  · intro kj hkj
    have hg : gens
        [Op.emit (.fileError pI fI (sanitizeError m)),
         Op.persist (some (setFileStatus s.phases pI fI .error
           (some (sanitizeError m)))) none none,
         Op.suspendFE path (sanitizeError m) FILE_ERROR_TIMEOUT_MS,
         Op.decision (o.userDecision s.decN)] = [] := rfl
    rw [hg] at hkj
    cases hkj
  · intro q hq
    rw [hph]
    exact setIn_get_other _ _ _ _ hq
  · intro r st hst hdu
    rw [hph]
    by_cases hr : r = fI
    · subst hr
      rcases hdu with rfl | rfl
      · exact absurd hst h1
      · exact absurd hst h2
    · rw [setFileStatus_other s.phases pI fI pI r _ _ (fun hc => hr hc.2)]
      exact hst

theorem fileStep_seg (o : Orcl) (plan : BuildPlan) (pI fI : Nat) (s : RunSt)
    (hct : o.cancelTime = none) :
    ∃ ext, PhaseSeg pI s (fileStep o plan pI fI s).2 ext := by
  have hab := sigAborted_none o s hct
  by_cases hsk : fileStatusAt s.phases pI fI = some .created ∨
      fileStatusAt s.phases pI fI = some .updated
  · have hstep : fileStep o plan pI fI s =
        (.advance, (s.push (.check false)).push
          (.emit (.fileCreated pI fI (planFileAt plan pI fI).path))) := by
      simp only [fileStep, hab, Bool.false_eq_true, if_false, RunSt.push]
      rw [if_pos hsk]
    rw [hstep]
    refine ⟨[.check false,
        .emit (.fileCreated pI fI (planFileAt plan pI fI).path)],
      phaseSeg_ofOps (by simp [RunSt.push]) (by simp [RunSt.push]) ?_ ?_ rfl⟩
    · intro op hop
      simp only [List.mem_cons, List.not_mem_nil, or_false] at hop
      rcases hop with rfl | rfl
      · exact notPlanOp_check false
      · exact notPlanOp_emit _ (by simp) (fun p => by simp)
    · intro i hi
      simp at hi
  · have h1 : fileStatusAt s.phases pI fI ≠ some .created :=
      fun h => hsk (Or.inl h)
    have h2 : fileStatusAt s.phases pI fI ≠ some .updated :=
      fun h => hsk (Or.inr h)
    rw [fileStep_run o plan pI fI s hab h1 h2]
    have hphm : (genMarkSt pI fI s).phases =
        setFStatus s.phases pI fI .generating := by
      simp [genMarkSt, RunSt.push]
    have hseg0 : PhaseSeg pI s (genMarkSt pI fI s)
        [.check false, .emit (.fileGenerating pI fI),
         .persist (some (setFStatus s.phases pI fI .generating))
           none none] := by
      refine ⟨genMarkSt_trace pI fI s, ?_, ?_, ?_, ?_, ?_⟩
      · intro op hop
        simp only [List.mem_cons, List.not_mem_nil, or_false] at hop
        rcases hop with rfl | rfl | rfl
        · exact notPlanOp_check false
        · exact notPlanOp_emit _ (by simp) (fun p => by simp)
        · exact notPlanOp_persist _ _ _
      · intro i hi
        simp at hi
      · intro kj hkj
        have hg : gens [Op.check false, Op.emit (.fileGenerating pI fI),
            Op.persist (some (setFStatus s.phases pI fI .generating))
              none none] = [(pI, fI)] := rfl
        rw [hg] at hkj
        simp only [List.mem_singleton] at hkj
        subst hkj
        exact ⟨rfl, h1, h2⟩
      · intro q hq
        rw [hphm]
        exact setIn_get_other _ _ _ _ hq
      · intro r st hst hdu
        rw [hphm]
        by_cases hr : r = fI
        · subst hr
          rcases hdu with rfl | rfl
          · exact absurd hst h1
          · exact absurd hst h2
        · rw [setFStatus_other s.phases pI fI pI r _ (fun hc => hr hc.2)]
          exact hst
    rcases hai : callAI o "generate" (genMarkSt pI fI s) with ⟨res, sA⟩
    obtain ⟨eA, hsegA⟩ := callAI_seg o "generate" (by decide) pI
      (genMarkSt pI fI s)
    rw [hai] at hsegA
    have hsegSA := phaseSeg_comp hseg0 hsegA
    have hstA : fileStatusAt sA.phases pI fI ≠ some .created ∧
        fileStatusAt sA.phases pI fI ≠ some .updated := by
      obtain ⟨eA2, htrA, hscA, hopsA⟩ := callAI_ext o "generate"
        (genMarkSt pI fI s)
      rw [hai] at hscA
      rw [hscA.1, hphm, setFStatus_self]
      cases fileStatusAt s.phases pI fI <;> simp
    cases res with
    | error m =>
        simp only []
        by_cases hbc : m = "Build cancelled"
        · rw [if_pos hbc]
          exact ⟨_, hsegSA⟩
        · rw [if_neg hbc]
          obtain ⟨eH, hsegH⟩ := handleFileError_seg o pI fI
            (jsOr (planFileAt plan pI fI).path "unknown file") m sA
            hstA.1 hstA.2
          exact ⟨_, phaseSeg_comp hsegSA hsegH⟩
    | ok content =>
        simp only []
        rcases hwf : writeFile o (planFileAt plan pI fI).path
            (planFileAt plan pI fI).name content sA with ⟨wres, s4⟩
        obtain ⟨eW, hsegW⟩ := writeFile_seg o (planFileAt plan pI fI).path
          (planFileAt plan pI fI).name content sA pI
        rw [hwf] at hsegW
        have hsegS4 := phaseSeg_comp hsegSA hsegW
        have hph4 : s4.phases = sA.phases := by
          cases hw : o.writeRes sA.writeN with
          | some msg =>
              have hthis := writeFile_err o (planFileAt plan pI fI).path
                (planFileAt plan pI fI).name content msg sA hw
              rw [hwf] at hthis
              have h2 : s4 = { sA with writeN := sA.writeN + 1 } :=
                congrArg Prod.snd hthis
              rw [h2]
          | none =>
              obtain ⟨_, hphW, _, _, _, _, _⟩ :=
                writeFile_ok o (planFileAt plan pI fI).path
                  (planFileAt plan pI fI).name content sA hw
              rw [hwf] at hphW
              exact hphW
        have hst4 : fileStatusAt s4.phases pI fI ≠ some .created ∧
            fileStatusAt s4.phases pI fI ≠ some .updated := by
          rw [hph4]
          exact hstA
        cases wres with
        | ok u =>
            have hsegT : PhaseSeg pI s4
                ((({ s4 with
                    phases := setFStatus s4.phases pI fI .created }).push
                  (.emit (.fileCreated pI fI (planFileAt plan pI fI).path))).push
                  (.persist (some (setFStatus s4.phases pI fI .created))
                    none none))
                [.emit (.fileCreated pI fI (planFileAt plan pI fI).path),
                 .persist (some (setFStatus s4.phases pI fI .created))
                   none none] := by
              refine ⟨by simp [RunSt.push], ?_, ?_, ?_, ?_, ?_⟩
              · intro op hop
                simp only [List.mem_cons, List.not_mem_nil, or_false] at hop
                rcases hop with rfl | rfl
                · exact notPlanOp_emit _ (by simp) (fun p => by simp)
                · exact notPlanOp_persist _ _ _
              · intro i hi
                simp at hi
              · intro kj hkj
                have hg : gens
                    [Op.emit (.fileCreated pI fI (planFileAt plan pI fI).path),
                     Op.persist (some (setFStatus s4.phases pI fI .created))
                       none none] = [] := rfl
                rw [hg] at hkj
                cases hkj
              · intro q hq
                show (setFStatus s4.phases pI fI .created).get? q =
                  s4.phases.get? q
                exact setIn_get_other _ _ _ _ hq
              · intro r st hst hdu
                show fileStatusAt (setFStatus s4.phases pI fI .created)
                  pI r = some st
                by_cases hr : r = fI
                · subst hr
                  rcases hdu with rfl | rfl
                  · exact absurd hst hst4.1
                  · exact absurd hst hst4.2
                · rw [setFStatus_other s4.phases pI fI pI r _
                    (fun hc => hr hc.2)]
                  exact hst
            exact ⟨_, phaseSeg_comp hsegS4 hsegT⟩
        | error m =>
            simp only []
            by_cases hbc : m = "Build cancelled"
            · rw [if_pos hbc]
              exact ⟨_, hsegS4⟩
            · rw [if_neg hbc]
              obtain ⟨eH, hsegH⟩ := handleFileError_seg o pI fI
                (jsOr (planFileAt plan pI fI).path "unknown file") m s4
                hst4.1 hst4.2
              exact ⟨_, phaseSeg_comp hsegS4 hsegH⟩

theorem fileLoop_seg (o : Orcl) (plan : BuildPlan) (pI : Nat)
    (hct : o.cancelTime = none) :
    ∀ (fuel fI : Nat) (s : RunSt),
      ∃ ext, PhaseSeg pI s (fileLoop o plan pI fuel fI s).2 ext := by
  intro fuel
  induction fuel with
  | zero => intro fI s; exact ⟨[], phaseSeg_refl pI s⟩
  | succ n ih =>
      intro fI s
      by_cases hlt : fI < (planPhaseAt plan pI).files.length
      · rcases hfs : fileStep o plan pI fI s with ⟨st, s1⟩
        obtain ⟨e1, hseg1⟩ := fileStep_seg o plan pI fI s hct
        rw [hfs] at hseg1
        cases st with
        | advance =>
            have hstep : fileLoop o plan pI (n + 1) fI s =
                fileLoop o plan pI n (fI + 1) s1 := by
              simp [fileLoop, hlt, hfs]
            rw [hstep]
            obtain ⟨e2, hseg2⟩ := ih (fI + 1) s1
            exact ⟨_, phaseSeg_comp hseg1 hseg2⟩
        | stay =>
            have hstep : fileLoop o plan pI (n + 1) fI s =
                fileLoop o plan pI n fI s1 := by
              simp [fileLoop, hlt, hfs]
            rw [hstep]
            obtain ⟨e2, hseg2⟩ := ih fI s1
            exact ⟨_, phaseSeg_comp hseg1 hseg2⟩
        | thrown m =>
            have hstep : fileLoop o plan pI (n + 1) fI s = (.error m, s1) := by
              simp [fileLoop, hlt, hfs]
            rw [hstep]
            exact ⟨_, hseg1⟩
      · have hstep : fileLoop o plan pI (n + 1) fI s = (.ok (), s) := by
          simp [fileLoop, hlt]
        rw [hstep]
        exact ⟨[], phaseSeg_refl pI s⟩

theorem setIn_get_self {α : Type} (u : α → α) (l : List α) (n : Nat) :
    (setIn u l n).get? n = (l.get? n).map u := by
  simp [List.get?_eq_getElem?, setIn_getElem_self]

theorem callAI_seg_nil (o : Orcl) (tag : String) (ht : tag ≠ "plan")
    (pI : Nat) (s : RunSt) :
    ∃ ext, PhaseSeg pI s (callAI o tag s).2 ext ∧ gens ext = [] ∧
      (callAI o tag s).2.phases = s.phases := by
  obtain ⟨ext, htr, hsc, hops⟩ := callAI_ext o tag s
  have hg := gens_nil_of_call ext tag hops
  refine ⟨ext, phaseSeg_ofOps htr hsc.1 ?_ ?_ hg, hg, hsc.1⟩
  · intro op hop
    rcases hops op hop with ⟨b, rfl⟩ | rfl | ⟨t, rfl⟩ | ⟨n, rfl⟩
    · exact notPlanOp_check b
    · exact ⟨by simp [ht], by simp, fun p => by simp⟩
    · exact ⟨by simp, by simp, fun p => by simp⟩
    · exact ⟨by simp, by simp, fun p => by simp⟩
  · intro i hi
    rcases hops _ hi with ⟨b, hb⟩ | hb | ⟨t, hb⟩ | ⟨n, hb⟩ <;> simp at hb

theorem pushFile_status_at_end (phs : List PhaseState) (pI : Nat)
    (f : FileState) (dynIdx : Nat)
    (hD : ∀ ph, phs.get? pI = some ph → ph.files.length ≤ dynIdx) :
    fileStatusAt (pushFile phs pI f) pI dynIdx = none ∨
    fileStatusAt (pushFile phs pI f) pI dynIdx = some f.status := by
  simp only [fileStatusAt, pushFile, List.get?_eq_getElem?,
    setIn_getElem_self]
  cases hg : phs[pI]? with
  | none => left; rfl
  | some ph =>
      have hlen := hD ph (by rw [List.get?_eq_getElem?]; exact hg)
      simp only [Option.map_some', Option.some_bind]
      by_cases he : dynIdx = ph.files.length
      · right
        rw [List.getElem?_append_right (by omega)]
        simp [he]
      · left
        rw [List.getElem?_append_right (by omega)]
        rw [List.getElem?_eq_none (by simp; omega)]
        rfl

theorem readEach_seg (o : Orcl) (pI : Nat) (hct : o.cancelTime = none) :
    ∀ (l : List String) (dynIdx : Nat) (s : RunSt),
      (∀ ph, s.phases.get? pI = some ph → ph.files.length ≤ dynIdx) →
      ∃ ext, PhaseSeg pI s (readEach o pI l dynIdx s).2 ext ∧
        gens ext = [] ∧
        (∀ r st, fileStatusAt s.phases pI r = some st →
          fileStatusAt (readEach o pI l dynIdx s).2.phases pI r = some st) := by
  intro l
  induction l with
  | nil =>
      intro dynIdx s hD
      have hstep : readEach o pI ([] : List String) dynIdx s =
          (.ok (), s) := by
        simp [readEach]
      rw [hstep]
      exact ⟨[], phaseSeg_refl pI s, rfl, fun r st h => h⟩
  | cons readPath rest ih =>
      intro dynIdx s hD
      have hab := sigAborted_none o s hct
      cases hmem : truthy (alookup s.memory readPath) with
      | none =>
          have hstep : readEach o pI (readPath :: rest) dynIdx s =
              readEach o pI rest dynIdx (s.push (.check false)) := by
            simp [readEach, hab, RunSt.push, hmem]
          rw [hstep]
          obtain ⟨e2, hseg2, hg2, hpres2⟩ :=
            ih dynIdx (s.push (.check false)) hD
          have hseg0 : PhaseSeg pI s (s.push (.check false)) [.check false] :=
            phaseSeg_ofOps rfl rfl
              (by intro op hop
                  simp only [List.mem_singleton] at hop
                  subst hop
                  exact notPlanOp_check false)
              (by intro i hi; simp at hi) rfl
          exact ⟨[.check false] ++ e2, phaseSeg_comp hseg0 hseg2,
            by rw [gens_append, hg2]; rfl, hpres2⟩
      | some c =>
          rw [readEach_cons_read o pI readPath rest dynIdx c s hab hmem]
          have hphm : (readMarkSt pI dynIdx readPath s).phases =
              pushFile s.phases pI
                ⟨readPath, lastSegment readPath, "Reading for context",
                  .reading, none⟩ := by
            simp [readMarkSt, RunSt.push]
          have htrm : (readMarkSt pI dynIdx readPath s).trace =
              s.trace ++ [.check false,
                .emit (.dynamicFile pI
                  ⟨readPath, lastSegment readPath, "Reading for context",
                    .reading, none⟩),
                .emit (.fileReading pI dynIdx),
                .persist (some (pushFile s.phases pI
                  ⟨readPath, lastSegment readPath, "Reading for context",
                    .reading, none⟩)) none none] := by
            simp [readMarkSt, RunSt.push]
          have hsegM : PhaseSeg pI s (readMarkSt pI dynIdx readPath s)
              [.check false,
               .emit (.dynamicFile pI
                 ⟨readPath, lastSegment readPath, "Reading for context",
                   .reading, none⟩),
               .emit (.fileReading pI dynIdx),
               .persist (some (pushFile s.phases pI
                 ⟨readPath, lastSegment readPath, "Reading for context",
                   .reading, none⟩)) none none] := by
            refine ⟨htrm, ?_, ?_, ?_, ?_, ?_⟩
            · intro op hop
              simp only [List.mem_cons, List.not_mem_nil, or_false] at hop
              rcases hop with rfl | rfl | rfl | rfl
              · exact notPlanOp_check false
              · exact notPlanOp_emit _ (by simp) (fun p => by simp)
              · exact notPlanOp_emit _ (by simp) (fun p => by simp)
              · exact notPlanOp_persist _ _ _
            · intro i hi
              simp at hi
            · intro kj hkj
              have hg : gens [Op.check false,
                  Op.emit (.dynamicFile pI
                    ⟨readPath, lastSegment readPath, "Reading for context",
                      .reading, none⟩),
                  Op.emit (.fileReading pI dynIdx),
                  Op.persist (some (pushFile s.phases pI
                    ⟨readPath, lastSegment readPath, "Reading for context",
                      .reading, none⟩)) none none] = [] := rfl
              rw [hg] at hkj
              cases hkj
            · intro q hq
              rw [hphm]
              exact setIn_get_other _ _ _ _ hq
            · intro r st hst _
              rw [hphm]
              exact pushFile_status_pres s.phases pI _ r st hst
          have hpresM : ∀ r st, fileStatusAt s.phases pI r = some st →
              fileStatusAt (readMarkSt pI dynIdx readPath s).phases pI r =
                some st := by
            intro r st hst
            rw [hphm]
            exact pushFile_status_pres s.phases pI _ r st hst
          rcases hai : callAI o "file-read" (readMarkSt pI dynIdx readPath s)
            with ⟨res, s3⟩
          obtain ⟨eA, hsegA, hgA, hphA⟩ :=
            callAI_seg_nil o "file-read" (by decide) pI
              (readMarkSt pI dynIdx readPath s)
          rw [hai] at hsegA hphA
          have hsegS3 := phaseSeg_comp hsegM hsegA
          have hpres3 : ∀ r st, fileStatusAt s.phases pI r = some st →
              fileStatusAt s3.phases pI r = some st := by
            intro r st hst
            rw [hphA]
            exact hpresM r st hst
          have hD3 : ∀ ph, s3.phases.get? pI = some ph →
              ph.files.length ≤ dynIdx + 1 := by
            intro ph hph
            rw [hphA, hphm] at hph
            simp only [pushFile] at hph
            rw [setIn_get_self] at hph
            cases hg : s.phases.get? pI with
            | none => rw [hg] at hph; cases hph
            | some ph0 =>
                rw [hg] at hph
                simp only [Option.map_some', Option.some.injEq] at hph
                have hlen := hD ph0 hg
                rw [← hph]
                simp only [List.length_append, List.length_cons,
                  List.length_nil]
                omega
          have hstD : fileStatusAt s3.phases pI dynIdx ≠ some .created ∧
              fileStatusAt s3.phases pI dynIdx ≠ some .updated := by
            rw [hphA, hphm]
            rcases pushFile_status_at_end s.phases pI
                ⟨readPath, lastSegment readPath, "Reading for context",
                  .reading, none⟩ dynIdx hD with h | h
            · rw [h]; exact ⟨by simp, by simp⟩
            · rw [h]; exact ⟨by simp, by simp⟩
          cases res with
          | error m =>
              simp only []
              refine ⟨_, hsegS3, ?_, hpres3⟩
              rw [gens_append, hgA]
              rfl
          | ok t =>
              simp only []
              have hsegT : PhaseSeg pI s3
                  ((({ s3 with
                      phases := setFStatus s3.phases pI dynIdx .read }).push
                    (.emit (.fileRead pI dynIdx readPath))).push
                    (.persist (some (setFStatus s3.phases pI dynIdx .read))
                      none none))
                  [.emit (.fileRead pI dynIdx readPath),
                   .persist (some (setFStatus s3.phases pI dynIdx .read))
                     none none] := by
                refine ⟨by simp [RunSt.push], ?_, ?_, ?_, ?_, ?_⟩
                · intro op hop
                  simp only [List.mem_cons, List.not_mem_nil, or_false] at hop
                  rcases hop with rfl | rfl
                  · exact notPlanOp_emit _ (by simp) (fun p => by simp)
                  · exact notPlanOp_persist _ _ _
                · intro i hi
                  simp at hi
                · intro kj hkj
                  have hg : gens [Op.emit (.fileRead pI dynIdx readPath),
                      Op.persist (some (setFStatus s3.phases pI dynIdx .read))
                        none none] = [] := rfl
                  rw [hg] at hkj
                  cases hkj
                · intro q hq
                  show (setFStatus s3.phases pI dynIdx .read).get? q =
                    s3.phases.get? q
                  exact setIn_get_other _ _ _ _ hq
                · intro r st hst hdu
                  show fileStatusAt (setFStatus s3.phases pI dynIdx .read)
                    pI r = some st
                  by_cases hr : r = dynIdx
                  · subst hr
                    rcases hdu with rfl | rfl
                    · exact absurd hst hstD.1
                    · exact absurd hst hstD.2
                  · rw [setFStatus_other s3.phases pI dynIdx pI r _
                      (fun hc => hr hc.2)]
                    exact hst
              have hD5 : ∀ ph,
                  ((({ s3 with
                      phases := setFStatus s3.phases pI dynIdx .read }).push
                    (.emit (.fileRead pI dynIdx readPath))).push
                    (.persist (some (setFStatus s3.phases pI dynIdx .read))
                      none none)).phases.get? pI = some ph →
                    ph.files.length ≤ dynIdx + 1 := by
                intro ph hph
                have hph2 : (setFStatus s3.phases pI dynIdx .read).get? pI =
                    some ph := hph
                simp only [setFStatus] at hph2
                rw [setIn_get_self] at hph2
                cases hg : s3.phases.get? pI with
                | none => rw [hg] at hph2; cases hph2
                | some ph0 =>
                    rw [hg] at hph2
                    simp only [Option.map_some', Option.some.injEq] at hph2
                    have hlen := hD3 ph0 hg
                    rw [← hph2]
                    simpa [setIn_length] using hlen
              obtain ⟨e2, hseg2, hg2, hpres2⟩ := ih (dynIdx + 1) _ hD5
              refine ⟨_, phaseSeg_comp (phaseSeg_comp hsegS3 hsegT) hseg2,
                ?_, ?_⟩
              · rw [gens_append, gens_append, gens_append, hgA, hg2]
                rfl
              · intro r st hst
                have hr3 := hpres3 r st hst
                have hrlt : r ≠ dynIdx := by
                  intro hre
                  subst hre
                  have := hstD
                  rcases pushFile_status_at_end s.phases pI
                      ⟨readPath, lastSegment readPath, "Reading for context",
                        .reading, none⟩ r hD with h | h
                  · rw [hphA, hphm] at hr3
                    rw [h] at hr3
                    cases hr3
                  · rw [hphA, hphm] at hr3
                    rw [h] at hr3
                    -- hr3 : some .reading = some st, but entry had some st:
                    -- the entry file index r is within the original files,
                    -- so pushFile keeps it; contradiction with the at-end
                    -- characterization requires r < original length.
                    have hD2 := hD
                    -- entry some st means r < original length ≤ dynIdx = r
                    simp only [fileStatusAt, List.get?_eq_getElem?] at hst
                    cases hgp : s.phases[pI]? with
                    | none => rw [hgp] at hst; cases hst
                    | some ph0 =>
                        rw [hgp] at hst
                        simp only [Option.map_some', Option.some_bind] at hst
                        cases hgf : ph0.files[r]? with
                        | none => rw [hgf] at hst; cases hst
                        | some fl =>
                            have hlt : r < ph0.files.length := by
                              by_contra hge
                              rw [List.getElem?_eq_none (by omega)] at hgf
                              cases hgf
                            have hle := hD ph0
                              (by rw [List.get?_eq_getElem?]; exact hgp)
                            omega
                have hr5 : fileStatusAt
                    ((({ s3 with
                        phases := setFStatus s3.phases pI dynIdx .read }).push
                      (.emit (.fileRead pI dynIdx readPath))).push
                      (.persist (some (setFStatus s3.phases pI dynIdx .read))
                        none none)).phases pI r = some st := by
                  show fileStatusAt (setFStatus s3.phases pI dynIdx .read)
                    pI r = some st
                  rw [setFStatus_other s3.phases pI dynIdx pI r _
                    (fun hc => hrlt hc.2)]
                  exact hr3
                exact hpres2 r st hr5

theorem readPass_seg (o : Orcl) (plan : BuildPlan) (pI : Nat) (s : RunSt)
    (hct : o.cancelTime = none)
    (hD : ∀ ph, s.phases.get? pI = some ph →
      ph.files.length ≤ (planPhaseAt plan pI).files.length) :
    ∃ ext, PhaseSeg pI s (readPass o plan pI s).2 ext ∧ gens ext = [] ∧
      (∀ r st, fileStatusAt s.phases pI r = some st →
        fileStatusAt (readPass o plan pI s).2.phases pI r = some st) := by
  by_cases hm : s.memory.length > 0
  · rw [readPass_run o plan pI s hm]
    have hseg0 : PhaseSeg pI s
        ((s.push (.emit (.thinking "Analyzing dependencies..."))).push
          (.persist none none none))
        [.emit (.thinking "Analyzing dependencies..."),
         .persist none none none] := by
      refine phaseSeg_ofOps (by simp [RunSt.push]) (by simp [RunSt.push])
        ?_ ?_ rfl
      · intro op hop
        simp only [List.mem_cons, List.not_mem_nil, or_false] at hop
        rcases hop with rfl | rfl
        · exact notPlanOp_emit _ (by simp) (fun p => by simp)
        · exact notPlanOp_persist _ _ _
      · intro i hi
        simp at hi
    rcases hai : callAI o "read-check"
        ((s.push (.emit (.thinking "Analyzing dependencies..."))).push
          (.persist none none none)) with ⟨res, s1⟩
    obtain ⟨eA, hsegA, hgA, hphA⟩ :=
      callAI_seg_nil o "read-check" (by decide) pI
        ((s.push (.emit (.thinking "Analyzing dependencies..."))).push
          (.persist none none none))
    rw [hai] at hsegA hphA
    have hseg1 := phaseSeg_comp hseg0 hsegA
    have hph1 : s1.phases = s.phases := hphA
    cases res with
    | error m =>
        simp only []
        split
        · exact ⟨_, hseg1, by rw [gens_append, hgA]; rfl,
            fun r st h => by simp only []; rw [hph1]; exact h⟩
        · exact ⟨_, hseg1, by rw [gens_append, hgA]; rfl,
            fun r st h => by simp only []; rw [hph1]; exact h⟩
    | ok text =>
        simp only []
        rcases hre : readEach o pI (o.parseList text)
            (planPhaseAt plan pI).files.length s1 with ⟨res2, s2⟩
        obtain ⟨e2, hseg2, hg2, hpres2⟩ :=
          readEach_seg o pI hct (o.parseList text)
            (planPhaseAt plan pI).files.length s1
            (by intro ph hph; rw [hph1] at hph; exact hD ph hph)
        rw [hre] at hseg2 hpres2
        have hsegAll := phaseSeg_comp hseg1 hseg2
        have hpresAll : ∀ r st, fileStatusAt s.phases pI r = some st →
            fileStatusAt s2.phases pI r = some st := by
          intro r st h
          exact hpres2 r st (by rw [hph1]; exact h)
        cases res2 with
        | error m =>
            simp only []
            split
            · exact ⟨_, hsegAll,
                by rw [gens_append, gens_append, hgA, hg2]; rfl, hpresAll⟩
            · exact ⟨_, hsegAll,
                by rw [gens_append, gens_append, hgA, hg2]; rfl, hpresAll⟩
        | ok u =>
            exact ⟨_, hsegAll,
              by rw [gens_append, gens_append, hgA, hg2]; rfl, hpresAll⟩
  · have hstep : readPass o plan pI s = (.ok (), s) := by
      unfold readPass
      rw [if_neg hm]
    rw [hstep]
    exact ⟨[], phaseSeg_refl pI s, rfl, fun r st h => h⟩

theorem reviewBlock_seg (o : Orcl) (plan : BuildPlan) (pI : Nat) (s : RunSt)
    (hct : o.cancelTime = none)
    (hrev : ∀ raw, o.parseReview raw = .passed) :
    ∃ ext, PhaseSeg pI s (reviewBlock o plan pI s).2 ext ∧ gens ext = [] ∧
      (∀ r st, fileStatusAt s.phases pI r = some st →
        fileStatusAt (reviewBlock o plan pI s).2.phases pI r = some st) := by
  have hab := sigAborted_none o s hct
  rw [reviewBlock_run o plan pI s hab]
  have hphr : (revMarkSt pI s).phases =
      setPhaseStatus s.phases pI .reviewing := by
    simp [revMarkSt, RunSt.push]
  have htrr : (revMarkSt pI s).trace =
      s.trace ++ [.check false, .emit (.phaseReviewing pI),
        .persist (some (setPhaseStatus s.phases pI .reviewing))
          (some "reviewing") none] := by
    simp [revMarkSt, RunSt.push]
  have hsegR : PhaseSeg pI s (revMarkSt pI s)
      [.check false, .emit (.phaseReviewing pI),
       .persist (some (setPhaseStatus s.phases pI .reviewing))
         (some "reviewing") none] := by
    refine ⟨htrr, ?_, ?_, ?_, ?_, ?_⟩
    · intro op hop
      simp only [List.mem_cons, List.not_mem_nil, or_false] at hop
      rcases hop with rfl | rfl | rfl
      · exact notPlanOp_check false
      · exact notPlanOp_emit _ (by simp) (fun p => by simp)
      · exact notPlanOp_persist _ _ _
    · intro i hi
      simp at hi
    · intro kj hkj
      have hg : gens [Op.check false, Op.emit (.phaseReviewing pI),
          Op.persist (some (setPhaseStatus s.phases pI .reviewing))
            (some "reviewing") none] = [] := rfl
      rw [hg] at hkj
      cases hkj
    · intro q hq
      rw [hphr]
      exact setIn_get_other _ _ _ _ hq
    · intro r st hst _
      rw [hphr, setPhaseStatus_files]
      exact hst
  have hpresR : ∀ r st, fileStatusAt s.phases pI r = some st →
      fileStatusAt (revMarkSt pI s).phases pI r = some st := by
    intro r st hst
    rw [hphr, setPhaseStatus_files]
    exact hst
  by_cases hpf : ((planPhaseAt plan pI).files.filter
      (fun f => (alookup s.memory f.path).isSome)).length > 0
  · rw [if_pos hpf]
    rcases hai : callAI o "review" (revMarkSt pI s) with ⟨res, s3⟩
    obtain ⟨eA, hsegA, hgA, hphA⟩ :=
      callAI_seg_nil o "review" (by decide) pI (revMarkSt pI s)
    rw [hai] at hsegA hphA
    have hseg3 := phaseSeg_comp hsegR hsegA
    have hpres3 : ∀ r st, fileStatusAt s.phases pI r = some st →
        fileStatusAt s3.phases pI r = some st := by
      intro r st hst
      rw [hphA]
      exact hpresR r st hst
    cases res with
    | error m =>
        simp only []
        split
        · exact ⟨_, hseg3, by rw [gens_append, hgA]; rfl, hpres3⟩
        · exact ⟨_, hseg3, by rw [gens_append, hgA]; rfl, hpres3⟩
    | ok raw =>
        simp only []
        rw [hrev raw]
        exact ⟨_, hseg3, by rw [gens_append, hgA]; rfl, hpres3⟩
  · rw [if_neg hpf]
    exact ⟨_, hsegR, rfl, hpresR⟩

theorem phaseIter_seg (o : Orcl) (plan : BuildPlan) (fuel pI : Nat)
    (s : RunSt) (hct : o.cancelTime = none)
    (hrev : ∀ raw, o.parseReview raw = .passed)
    (hD : ∀ ph, s.phases.get? pI = some ph →
      ph.files.length ≤ (planPhaseAt plan pI).files.length) :
    ∃ ext, PhaseSeg pI s (phaseIter o plan fuel pI s).2 ext := by
  have hab := sigAborted_none o s hct
  by_cases hnc : (s.phases.get? pI).map (·.status) = some .complete
  · have hstep : phaseIter o plan fuel pI s = (.ok (), s.push (.check false)) := by
      simp only [phaseIter, hab, Bool.false_eq_true, if_false, RunSt.push]
      rw [if_pos hnc]
    rw [hstep]
    refine ⟨[.check false], phaseSeg_ofOps rfl rfl ?_ ?_ rfl⟩
    · intro op hop
      simp only [List.mem_singleton] at hop
      subst hop
      exact notPlanOp_check false
    · intro i hi
      simp at hi
  · rw [phaseIter_run o plan fuel pI s hab hnc]
    have hphm : (phaseMarkSt pI s).phases =
        setPhaseStatus s.phases pI .active := by
      simp [phaseMarkSt, RunSt.push]
    have hsegM : PhaseSeg pI s (phaseMarkSt pI s)
        [.check false, .emit (.phaseStart pI),
         .persist (some (setPhaseStatus s.phases pI .active)) none none] := by
      refine ⟨phaseMarkSt_trace pI s, ?_, ?_, ?_, ?_, ?_⟩
      · intro op hop
        simp only [List.mem_cons, List.not_mem_nil, or_false] at hop
        rcases hop with rfl | rfl | rfl
        · exact notPlanOp_check false
        · exact notPlanOp_emit _ (by simp) (fun p => by simp)
        · exact notPlanOp_persist _ _ _
      · intro i hi
        simp only [List.mem_cons, List.not_mem_nil, or_false] at hi
        rcases hi with h | h | h
        · simp at h
        · simp at h
          exact h
        · simp at h
      · intro kj hkj
        have hg : gens [Op.check false, Op.emit (.phaseStart pI),
            Op.persist (some (setPhaseStatus s.phases pI .active))
              none none] = [] := rfl
        rw [hg] at hkj
        cases hkj
      · intro q hq
        rw [hphm]
        exact setIn_get_other _ _ _ _ hq
      · intro r st hst _
        rw [hphm, setPhaseStatus_files]
        exact hst
    have hDm : ∀ ph, (phaseMarkSt pI s).phases.get? pI = some ph →
        ph.files.length ≤ (planPhaseAt plan pI).files.length := by
      intro ph hph
      rw [hphm] at hph
      have hph2 : (setIn (fun p2 => { p2 with status := PhaseStatus.active })
          s.phases pI).get? pI = some ph := hph
      rw [setIn_get_self] at hph2
      cases hg : s.phases.get? pI with
      | none => rw [hg] at hph2; cases hph2
      | some ph0 =>
          rw [hg] at hph2
          simp only [Option.map_some', Option.some.injEq] at hph2
          have := hD ph0 hg
          rw [← hph2]
          exact this
    rcases hrp : readPass o plan pI (phaseMarkSt pI s) with ⟨r1, s3⟩
    obtain ⟨e1, hseg1, hg1, hpres1⟩ :=
      readPass_seg o plan pI (phaseMarkSt pI s) hct hDm
    rw [hrp] at hseg1 hpres1
    have hsegS3 := phaseSeg_comp hsegM hseg1
    cases r1 with
    | error m => exact ⟨_, hsegS3⟩
    | ok u1 =>
        simp only []
        rcases hfl : fileLoop o plan pI fuel 0 s3 with ⟨r2, s4⟩
        obtain ⟨e2, hseg2⟩ := fileLoop_seg o plan pI hct fuel 0 s3
        rw [hfl] at hseg2
        have hsegS4 := phaseSeg_comp hsegS3 hseg2
        cases r2 with
        | error m => exact ⟨_, hsegS4⟩
        | ok u2 =>
            simp only []
            rcases hrv : reviewBlock o plan pI s4 with ⟨r3, s5⟩
            obtain ⟨e3, hseg3, hg3, hpres3⟩ :=
              reviewBlock_seg o plan pI s4 hct hrev
            rw [hrv] at hseg3 hpres3
            have hsegS5 := phaseSeg_comp hsegS4 hseg3
            cases r3 with
            | error m => exact ⟨_, hsegS5⟩
            | ok u3 =>
                have hsegT : PhaseSeg pI s5
                    ((({ s5 with
                        phases := setPhaseStatus s5.phases pI
                          .complete }).push
                      (.emit (.phaseComplete pI))).push
                      (.persist (some (setPhaseStatus s5.phases pI .complete))
                        (some "building") none))
                    [.emit (.phaseComplete pI),
                     .persist (some (setPhaseStatus s5.phases pI .complete))
                       (some "building") none] := by
                  refine ⟨by simp [RunSt.push], ?_, ?_, ?_, ?_, ?_⟩
                  · intro op hop
                    simp only [List.mem_cons, List.not_mem_nil,
                      or_false] at hop
                    rcases hop with rfl | rfl
                    · exact notPlanOp_emit _ (by simp) (fun p => by simp)
                    · exact notPlanOp_persist _ _ _
                  · intro i hi
                    simp at hi
                  · intro kj hkj
                    have hg : gens [Op.emit (.phaseComplete pI),
                        Op.persist (some (setPhaseStatus s5.phases pI
                          .complete)) (some "building") none] = [] := rfl
                    rw [hg] at hkj
                    cases hkj
                  · intro q hq
                    show (setPhaseStatus s5.phases pI .complete).get? q =
                      s5.phases.get? q
                    exact setIn_get_other _ _ _ _ hq
                  · intro r st hst _
                    show fileStatusAt (setPhaseStatus s5.phases pI .complete)
                      pI r = some st
                    rw [setPhaseStatus_files]
                    exact hst
                exact ⟨_, phaseSeg_comp hsegS5 hsegT⟩

theorem phaseLoopAux_trExt (o : Orcl) (plan : BuildPlan) (fuel : Nat) :
    ∀ (r pI : Nat) (s : RunSt),
      TrExt s (phaseLoopAux o plan fuel r pI s).2 := by
  intro r
  induction r with
  | zero => intro pI s; exact trExt_refl s
  | succ n ih =>
      intro pI s
      rcases hpi : phaseIter o plan fuel pI s with ⟨res, s1⟩
      have h1 : TrExt s s1 := by
        have h := phaseIter_trExt o plan fuel pI s
        rw [hpi] at h
        exact h
      cases res with
      | error m =>
          have hstep : phaseLoopAux o plan fuel (n + 1) pI s =
              (.error m, s1) := by
            simp [phaseLoopAux, hpi]
          rw [hstep]
          exact h1
      | ok u =>
          have hstep : phaseLoopAux o plan fuel (n + 1) pI s =
              phaseLoopAux o plan fuel n (pI + 1) s1 := by
            simp [phaseLoopAux, hpi]
          rw [hstep]
          exact trExt_trans h1 (ih (pI + 1) s1)

theorem phaseLoop_c3 (o : Orcl) (plan : BuildPlan) (fuel k : Nat)
    (ps0 : List PhaseState) (hct : o.cancelTime = none)
    (hrev : ∀ raw, o.parseReview raw = .passed)
    (halign : ∀ i ph, ps0.get? i = some ph →
      ph.files.length ≤ (planPhaseAt plan i).files.length)
    (hcomp : ∀ i, i < k → phaseStatusIn ps0 i = some .complete) :
    ∀ (r pI : Nat) (s : RunSt),
      (∀ q, pI ≤ q → s.phases.get? q = ps0.get? q) →
      ∃ ext, (phaseLoopAux o plan fuel r pI s).2.trace = s.trace ++ ext ∧
        (∀ op ∈ ext, NotPlanOp op) ∧
        (∀ i, Op.emit (.phaseStart i) ∈ ext → k ≤ i) ∧
        (∀ kj ∈ gens ext, k ≤ kj.1 ∧
          fileStatusAt ps0 kj.1 kj.2 ≠ some .created ∧
          fileStatusAt ps0 kj.1 kj.2 ≠ some .updated) := by
  intro r
  induction r with
  | zero =>
      intro pI s hinv
      refine ⟨[], by simp [phaseLoopAux], by simp, by simp, ?_⟩
      intro kj hkj
      cases hkj
  | succ r ih =>
      intro pI s hinv
      by_cases hpk : pI < k
      · have hcompl : (s.phases.get? pI).map (·.status) = some .complete := by
          rw [hinv pI (le_refl pI)]
          exact hcomp pI hpk
        have hab := sigAborted_none o s hct
        have hstep : phaseIter o plan fuel pI s =
            (.ok (), s.push (.check false)) := by
          simp only [phaseIter, hab, Bool.false_eq_true, if_false,
            RunSt.push]
          rw [if_pos hcompl]
        have hstep2 : phaseLoopAux o plan fuel (r + 1) pI s =
            phaseLoopAux o plan fuel r (pI + 1) (s.push (.check false)) := by
          simp [phaseLoopAux, hstep]
        rw [hstep2]
        obtain ⟨e2, htr2, hop2, hps2, hg2⟩ :=
          ih (pI + 1) (s.push (.check false))
            (by intro q hq; exact hinv q (by omega))
        refine ⟨[.check false] ++ e2, ?_, ?_, ?_, ?_⟩
        · rw [htr2]
          simp [RunSt.push]
        · intro op hop
          rcases List.mem_append.mp hop with h | h
          · simp only [List.mem_singleton] at h
            subst h
            exact notPlanOp_check false
          · exact hop2 op h
        · intro i hi
          rcases List.mem_append.mp hi with h | h
          · simp at h
          · exact hps2 i h
        · intro kj hkj
          rw [gens_append] at hkj
          rcases List.mem_append.mp hkj with h | h
          · rw [show gens [Op.check false] = [] from rfl] at h
            cases h
          · exact hg2 kj h
      · rcases hpi : phaseIter o plan fuel pI s with ⟨res, s1⟩
        obtain ⟨e1, hseg1⟩ := phaseIter_seg o plan fuel pI s hct hrev
          (by intro ph hph
              rw [hinv pI (le_refl pI)] at hph
              exact halign pI ph hph)
        rw [hpi] at hseg1
        obtain ⟨htr1, hop1, hps1, hg1, hq1, hd1⟩ := hseg1
        have hgens1 : ∀ kj ∈ gens e1, k ≤ kj.1 ∧
            fileStatusAt ps0 kj.1 kj.2 ≠ some .created ∧
            fileStatusAt ps0 kj.1 kj.2 ≠ some .updated := by
          intro kj hkj
          obtain ⟨hk1, hc1, hu1⟩ := hg1 kj hkj
          have hfeq : fileStatusAt s.phases pI kj.2 =
              fileStatusAt ps0 pI kj.2 :=
            fileStatusAt_congr (hinv pI (le_refl pI)) kj.2
          refine ⟨by rw [hk1]; omega, ?_, ?_⟩
          · rw [hk1, ← hfeq]
            exact hc1
          · rw [hk1, ← hfeq]
            exact hu1
        cases res with
        | error m =>
            have hstep2 : phaseLoopAux o plan fuel (r + 1) pI s =
                (.error m, s1) := by
              simp [phaseLoopAux, hpi]
            rw [hstep2]
            refine ⟨e1, htr1, hop1, ?_, hgens1⟩
            intro i hi
            rw [hps1 i hi]
            omega
        | ok u =>
            have hstep2 : phaseLoopAux o plan fuel (r + 1) pI s =
                phaseLoopAux o plan fuel r (pI + 1) s1 := by
              simp [phaseLoopAux, hpi]
            rw [hstep2]
            obtain ⟨e2, htr2, hop2, hps2, hg2⟩ := ih (pI + 1) s1
              (by intro q hq
                  rw [hq1 q (by omega)]
                  exact hinv q (by omega))
            refine ⟨e1 ++ e2, ?_, ?_, ?_, ?_⟩
            · rw [htr2, htr1, List.append_assoc]
            · intro op hop
              rcases List.mem_append.mp hop with h | h
              exacts [hop1 op h, hop2 op h]
            · intro i hi
              rcases List.mem_append.mp hi with h | h
              · rw [hps1 i h]
                omega
              · exact hps2 i h
            · intro kj hkj
              rw [gens_append] at hkj
              rcases List.mem_append.mp hkj with h | h
              · exact hgens1 kj h
              · exact hg2 kj h

theorem readEach_not_cancelled (o : Orcl) (pI : Nat)
    (hct : o.cancelTime = none)
    (hai : ∀ n m, o.ai n = .error m → m ≠ "Build cancelled") :
    ∀ (l : List String) (dynIdx : Nat) (s : RunSt) (m : String),
      (readEach o pI l dynIdx s).1 = .error m → m ≠ "Build cancelled" := by
  intro l
  induction l with
  | nil =>
      intro dynIdx s m h
      simp [readEach] at h
  | cons readPath rest ih =>
      intro dynIdx s m h
      have hab := sigAborted_none o s hct
      cases hmem : truthy (alookup s.memory readPath) with
      | none =>
          have hstep : readEach o pI (readPath :: rest) dynIdx s =
              readEach o pI rest dynIdx (s.push (.check false)) := by
            simp [readEach, hab, RunSt.push, hmem]
          rw [hstep] at h
          exact ih dynIdx _ m h
      | some c =>
          rw [readEach_cons_read o pI readPath rest dynIdx c s hab hmem] at h
          rcases hai2 : callAI o "file-read" (readMarkSt pI dynIdx readPath s)
            with ⟨res, s3⟩
          rw [hai2] at h
          cases res with
          | error m2 =>
              have hm2 : m2 ≠ "Build cancelled" :=
                callAI_not_cancelled o "file-read"
                  (readMarkSt pI dynIdx readPath s) m2 hct hai (by rw [hai2])
              have hmm : m2 = m := by injection h
              rw [← hmm]
              exact hm2
          | ok t =>
              exact ih (dynIdx + 1) _ m h

theorem readPass_ok (o : Orcl) (plan : BuildPlan) (pI : Nat) (s : RunSt)
    (hct : o.cancelTime = none)
    (hai : ∀ n m, o.ai n = .error m → m ≠ "Build cancelled") :
    (readPass o plan pI s).1 = .ok () := by
  by_cases hm : s.memory.length > 0
  · rw [readPass_run o plan pI s hm]
    rcases hai2 : callAI o "read-check"
        ((s.push (.emit (.thinking "Analyzing dependencies..."))).push
          (.persist none none none)) with ⟨res, s1⟩
    cases res with
    | error m =>
        have hne : m ≠ "Build cancelled" :=
          callAI_not_cancelled o "read-check" _ m hct hai (by rw [hai2])
        simp [hne]
    | ok text =>
        simp only []
        rcases hre : readEach o pI (o.parseList text)
            (planPhaseAt plan pI).files.length s1 with ⟨res2, s2⟩
        cases res2 with
        | error m =>
            have hne : m ≠ "Build cancelled" :=
              readEach_not_cancelled o pI hct hai (o.parseList text) _ s1 m
                (by rw [hre])
            simp [hne]
        | ok u => rfl
  · unfold readPass
    rw [if_neg hm]

theorem fileLoop_first_gen (o : Orcl) (plan : BuildPlan) (pI : Nat)
    (hct : o.cancelTime = none) :
    ∀ (n fI j0 : Nat) (s : RunSt),
      (∀ r, fI ≤ r → r < j0 →
        fileStatusAt s.phases pI r = some .created ∨
        fileStatusAt s.phases pI r = some .updated) →
      fileStatusAt s.phases pI j0 ≠ some .created →
      fileStatusAt s.phases pI j0 ≠ some .updated →
      fI ≤ j0 → j0 < (planPhaseAt plan pI).files.length → j0 - fI < n →
      ∃ ext, (fileLoop o plan pI n fI s).2.trace = s.trace ++ ext ∧
        (gens ext).head? = some (pI, j0) := by
  intro n
  induction n with
  | zero =>
      intro fI j0 s _ _ _ _ _ hfu
      omega
  | succ n ih =>
      intro fI j0 s hdone h1 h2 hle hlt hfu
      have hab := sigAborted_none o s hct
      have hflt : fI < (planPhaseAt plan pI).files.length := by omega
      by_cases heq : fI = j0
      · subst heq
        rcases hfs : fileStep o plan pI fI s with ⟨res, s1⟩
        obtain ⟨rest, hrest⟩ := fileStep_gen_shape o plan pI fI s hab h1 h2
        rw [hfs] at hrest
        have hgshape : gens (Op.check false ::
            Op.emit (.fileGenerating pI fI) ::
            Op.persist (some (setFStatus s.phases pI fI .generating))
              none none :: rest) = (pI, fI) :: gens rest := rfl
        cases res with
        | advance =>
            have hstep : fileLoop o plan pI (n + 1) fI s =
                fileLoop o plan pI n (fI + 1) s1 := by
              simp [fileLoop, hflt, hfs]
            rw [hstep]
            obtain ⟨e2, he2⟩ := fileLoop_trExt o plan pI n (fI + 1) s1
            refine ⟨(Op.check false :: Op.emit (.fileGenerating pI fI) ::
                Op.persist (some (setFStatus s.phases pI fI .generating))
                  none none :: rest) ++ e2, ?_, ?_⟩
            · rw [he2, hrest]
              simp
            · rw [gens_append, hgshape]
              rfl
        | stay =>
            have hstep : fileLoop o plan pI (n + 1) fI s =
                fileLoop o plan pI n fI s1 := by
              simp [fileLoop, hflt, hfs]
            rw [hstep]
            obtain ⟨e2, he2⟩ := fileLoop_trExt o plan pI n fI s1
            refine ⟨(Op.check false :: Op.emit (.fileGenerating pI fI) ::
                Op.persist (some (setFStatus s.phases pI fI .generating))
                  none none :: rest) ++ e2, ?_, ?_⟩
            · rw [he2, hrest]
              simp
            · rw [gens_append, hgshape]
              rfl
        | thrown m =>
            have hstep : fileLoop o plan pI (n + 1) fI s = (.error m, s1) := by
              simp [fileLoop, hflt, hfs]
            rw [hstep]
            refine ⟨Op.check false :: Op.emit (.fileGenerating pI fI) ::
                Op.persist (some (setFStatus s.phases pI fI .generating))
                  none none :: rest, hrest, ?_⟩
            rw [hgshape]
            rfl
      · have hsk : fileStatusAt s.phases pI fI = some .created ∨
            fileStatusAt s.phases pI fI = some .updated :=
          hdone fI (le_refl fI) (by omega)
        have hstep1 : fileStep o plan pI fI s =
            (.advance, (s.push (.check false)).push
              (.emit (.fileCreated pI fI (planFileAt plan pI fI).path))) := by
          simp only [fileStep, hab, Bool.false_eq_true, if_false, RunSt.push]
          rw [if_pos hsk]
        have hstep : fileLoop o plan pI (n + 1) fI s =
            fileLoop o plan pI n (fI + 1)
              ((s.push (.check false)).push
                (.emit (.fileCreated pI fI (planFileAt plan pI fI).path))) := by
          simp [fileLoop, hflt, hstep1]
        rw [hstep]
        obtain ⟨ext, hext, hhead⟩ := ih (fI + 1) j0
          ((s.push (.check false)).push
            (.emit (.fileCreated pI fI (planFileAt plan pI fI).path)))
          (by intro r hr1 hr2; exact hdone r (by omega) hr2)
          h1 h2 (by omega) hlt (by omega)
        refine ⟨[.check false,
            .emit (.fileCreated pI fI (planFileAt plan pI fI).path)] ++ ext,
          ?_, ?_⟩
        · rw [hext]
          simp [RunSt.push]
        · rw [gens_append,
            show gens [Op.check false,
              Op.emit (.fileCreated pI fI (planFileAt plan pI fI).path)] =
              [] from rfl]
          simpa using hhead

theorem phaseIter_first_gen (o : Orcl) (plan : BuildPlan) (fuel pI j0 : Nat)
    (s : RunSt) (st0 : FileStatus) (hct : o.cancelTime = none)
    (hai : ∀ n m, o.ai n = .error m → m ≠ "Build cancelled")
    (hnc : (s.phases.get? pI).map (·.status) ≠ some .complete)
    (hdone : ∀ r, r < j0 →
      fileStatusAt s.phases pI r = some .created ∨
      fileStatusAt s.phases pI r = some .updated)
    (hj0 : fileStatusAt s.phases pI j0 = some st0)
    (h1 : st0 ≠ .created) (h2 : st0 ≠ .updated)
    (hlt : j0 < (planPhaseAt plan pI).files.length)
    (hfu : j0 < fuel)
    (hD : ∀ ph, s.phases.get? pI = some ph →
      ph.files.length ≤ (planPhaseAt plan pI).files.length) :
    ∃ ext, (phaseIter o plan fuel pI s).2.trace = s.trace ++ ext ∧
      (gens ext).head? = some (pI, j0) := by
  have hab := sigAborted_none o s hct
  rw [phaseIter_run o plan fuel pI s hab hnc]
  have hphm : (phaseMarkSt pI s).phases =
      setPhaseStatus s.phases pI .active := by
    simp [phaseMarkSt, RunSt.push]
  have hpresM : ∀ r st, fileStatusAt s.phases pI r = some st →
      fileStatusAt (phaseMarkSt pI s).phases pI r = some st := by
    intro r st hst
    rw [hphm, setPhaseStatus_files]
    exact hst
  have hDm : ∀ ph, (phaseMarkSt pI s).phases.get? pI = some ph →
      ph.files.length ≤ (planPhaseAt plan pI).files.length := by
    intro ph hph
    rw [hphm] at hph
    have hph2 : (setIn (fun p2 => { p2 with status := PhaseStatus.active })
        s.phases pI).get? pI = some ph := hph
    rw [setIn_get_self] at hph2
    cases hg : s.phases.get? pI with
    | none => rw [hg] at hph2; cases hph2
    | some ph0 =>
        rw [hg] at hph2
        simp only [Option.map_some', Option.some.injEq] at hph2
        have := hD ph0 hg
        rw [← hph2]
        exact this
  rcases hrp : readPass o plan pI (phaseMarkSt pI s) with ⟨r1, s3⟩
  have hok : r1 = .ok () := by
    have h := readPass_ok o plan pI (phaseMarkSt pI s) hct hai
    rw [hrp] at h
    exact h
  subst hok
  obtain ⟨e1, hseg1, hg1, hpres1⟩ :=
    readPass_seg o plan pI (phaseMarkSt pI s) hct hDm
  rw [hrp] at hseg1 hpres1
  obtain ⟨htr1, _, _, _, _, _⟩ := hseg1
  have hpres3 : ∀ r st, fileStatusAt s.phases pI r = some st →
      fileStatusAt s3.phases pI r = some st := by
    intro r st hst
    exact hpres1 r st (hpresM r st hst)
  have hdone3 : ∀ r, 0 ≤ r → r < j0 →
      fileStatusAt s3.phases pI r = some .created ∨
      fileStatusAt s3.phases pI r = some .updated := by
    intro r _ hr
    rcases hdone r hr with h | h
    · exact Or.inl (hpres3 r _ h)
    · exact Or.inr (hpres3 r _ h)
  have hj03 : fileStatusAt s3.phases pI j0 = some st0 := hpres3 j0 st0 hj0
  have h13 : fileStatusAt s3.phases pI j0 ≠ some .created := by
    rw [hj03]
    simp [h1]
  have h23 : fileStatusAt s3.phases pI j0 ≠ some .updated := by
    rw [hj03]
    simp [h2]
  obtain ⟨e2, htr2, hh2⟩ := fileLoop_first_gen o plan pI hct fuel 0 j0 s3
    hdone3 h13 h23 (by omega) hlt (by omega)
  simp only []
  rcases hfl : fileLoop o plan pI fuel 0 s3 with ⟨r2, s4⟩
  rw [hfl] at htr2
  simp only [] at htr2
  obtain ⟨x, t, hxt, hx⟩ : ∃ x t, gens e2 = x :: t ∧ x = (pI, j0) := by
    cases hgx : gens e2 with
    | nil => rw [hgx] at hh2; cases hh2
    | cons x t =>
        rw [hgx] at hh2
        refine ⟨x, t, rfl, ?_⟩
        injection hh2
  cases r2 with
  | error m =>
      simp only []
      refine ⟨[.check false, .emit (.phaseStart pI),
          .persist (some (setPhaseStatus s.phases pI .active)) none none] ++
          e1 ++ e2, ?_, ?_⟩
      · rw [htr2, htr1, phaseMarkSt_trace]
        simp
      · rw [gens_append, gens_append,
          show gens [Op.check false, Op.emit (.phaseStart pI),
            Op.persist (some (setPhaseStatus s.phases pI .active))
              none none] = [] from rfl, hg1, hxt]
        rw [hx]
        rfl
  | ok u2 =>
      simp only []
      rcases hrv : reviewBlock o plan pI s4 with ⟨r3, s5⟩
      obtain ⟨e3, he3⟩ : TrExt s4 s5 := by
        have h := reviewBlock_trExt o plan pI s4
        rw [hrv] at h
        exact h
      cases r3 with
      | error m =>
          simp only []
          refine ⟨[.check false, .emit (.phaseStart pI),
              .persist (some (setPhaseStatus s.phases pI .active))
                none none] ++ e1 ++ e2 ++ e3, ?_, ?_⟩
          · rw [he3, htr2, htr1, phaseMarkSt_trace]
            simp
          · rw [gens_append, gens_append, gens_append,
              show gens [Op.check false, Op.emit (.phaseStart pI),
                Op.persist (some (setPhaseStatus s.phases pI .active))
                  none none] = [] from rfl, hg1, hxt, hx]
            rfl
      | ok u3 =>
          refine ⟨[.check false, .emit (.phaseStart pI),
              .persist (some (setPhaseStatus s.phases pI .active))
                none none] ++ e1 ++ e2 ++ e3 ++
              [.emit (.phaseComplete pI),
               .persist (some (setPhaseStatus s5.phases pI .complete))
                 (some "building") none], ?_, ?_⟩
          · simp only [RunSt.push]
            rw [he3, htr2, htr1, phaseMarkSt_trace]
            simp
          · rw [gens_append, gens_append, gens_append, gens_append,
              show gens [Op.check false, Op.emit (.phaseStart pI),
                Op.persist (some (setPhaseStatus s.phases pI .active))
                  none none] = [] from rfl, hg1, hxt, hx]
            rfl

theorem summaryPhase_ops (o : Orcl) (s : RunSt) (hct : o.cancelTime = none) :
    ∃ ext, (summaryPhase o s).2.trace = s.trace ++ ext ∧
      (∀ op ∈ ext, NotPlanOp op) ∧ gens ext = [] ∧
      (∀ i, ¬ Op.emit (.phaseStart i) ∈ ext) := by
  have hab := sigAborted_none o s hct
  have hstep : summaryPhase o s =
      match callAI o "summary" (((s.push (.check false)).push
          (.emit (.thinking "Generating build summary..."))).push
          (.persist none none none)) with
      | (.error m, s2) => (.error m, s2)
      | (.ok summary, s2) =>
          (.ok (), (((s2.push (.message summary)).push
            (.emit (.buildComplete summary))).push
            (.persist none (some "complete") (some summary)))) := by
    simp only [summaryPhase, hab, Bool.false_eq_true, if_false, RunSt.push]
  rw [hstep]
  rcases hai2 : callAI o "summary" (((s.push (.check false)).push
      (.emit (.thinking "Generating build summary..."))).push
      (.persist none none none)) with ⟨res, s2⟩
  obtain ⟨eA, htrA, hscA, hopsA⟩ := callAI_ext o "summary"
    (((s.push (.check false)).push
      (.emit (.thinking "Generating build summary..."))).push
      (.persist none none none))
  rw [hai2] at htrA
  have hgA := gens_nil_of_call eA "summary" hopsA
  have hopre : ∀ op ∈ [Op.check false,
      Op.emit (.thinking "Generating build summary..."),
      Op.persist none none none], NotPlanOp op := by
    intro op hop
    simp only [List.mem_cons, List.not_mem_nil, or_false] at hop
    rcases hop with rfl | rfl | rfl
    · exact notPlanOp_check false
    · exact notPlanOp_emit _ (by simp) (fun p => by simp)
    · exact notPlanOp_persist _ _ _
  simp only [] at htrA
  cases res with
  | error m =>
      simp only []
      refine ⟨[.check false,
          .emit (.thinking "Generating build summary..."),
          .persist none none none] ++ eA, ?_, ?_, ?_, ?_⟩
      · rw [htrA]
        simp [RunSt.push]
      · intro op hop
        rcases List.mem_append.mp hop with h | h
        · exact hopre op h
        · rcases hopsA op h with ⟨b, rfl⟩ | rfl | ⟨t, rfl⟩ | ⟨n, rfl⟩
          · exact notPlanOp_check b
          · exact ⟨by simp, by simp, fun p => by simp⟩
          · exact ⟨by simp, by simp, fun p => by simp⟩
          · exact ⟨by simp, by simp, fun p => by simp⟩
      · rw [gens_append, hgA]
        rfl
      · intro i hi
        rcases List.mem_append.mp hi with h | h
        · simp at h
        · rcases hopsA _ h with ⟨b, hb⟩ | hb | ⟨t, hb⟩ | ⟨n, hb⟩ <;> simp at hb
  | ok summary =>
      refine ⟨([.check false,
          .emit (.thinking "Generating build summary..."),
          .persist none none none] ++ eA) ++
          [.message summary, .emit (.buildComplete summary),
           .persist none (some "complete") (some summary)], ?_, ?_, ?_, ?_⟩
      · simp only [RunSt.push]
        rw [htrA]
        simp [RunSt.push]
      · intro op hop
        rcases List.mem_append.mp hop with h | h
        · rcases List.mem_append.mp h with h2 | h2
          · exact hopre op h2
          · rcases hopsA op h2 with ⟨b, rfl⟩ | rfl | ⟨t, rfl⟩ | ⟨n, rfl⟩
            · exact notPlanOp_check b
            · exact ⟨by simp, by simp, fun p => by simp⟩
            · exact ⟨by simp, by simp, fun p => by simp⟩
            · exact ⟨by simp, by simp, fun p => by simp⟩
        · simp only [List.mem_cons, List.not_mem_nil, or_false] at h
          rcases h with rfl | rfl | rfl
          · exact notPlanOp_message summary
          · exact notPlanOp_emit _ (by simp) (fun p => by simp)
          · exact notPlanOp_persist _ _ _
      · rw [gens_append, gens_append, hgA]
        rfl
      · intro i hi
        rcases List.mem_append.mp hi with h | h
        · rcases List.mem_append.mp h with h2 | h2
          · simp at h2
          · rcases hopsA _ h2 with ⟨b, hb⟩ | hb | ⟨t, hb⟩ | ⟨n, hb⟩ <;>
              simp at hb
        · simp at h

theorem catchRun_ops (o : Orcl) (m : String) (s : RunSt) :
    ∃ ext, (catchRun o m s).trace = s.trace ++ ext ∧
      (∀ op ∈ ext, NotPlanOp op) ∧ gens ext = [] ∧
      (∀ i, ¬ Op.emit (.phaseStart i) ∈ ext) := by
  unfold catchRun
  split
  · refine ⟨[.emit (.buildError "Build was cancelled"),
      .persist none (some "cancelled") none], by simp [RunSt.push], ?_, rfl,
      ?_⟩
    · intro op hop
      simp only [List.mem_cons, List.not_mem_nil, or_false] at hop
      rcases hop with rfl | rfl
      · exact notPlanOp_emit _ (by simp) (fun p => by simp)
      · exact notPlanOp_persist _ _ _
    · intro i hi
      simp at hi
  · refine ⟨[.emit (.buildError (sanitizeError (jsOr m "Build failed"))),
      .persist none (some "error") none], by simp [RunSt.push], ?_, rfl, ?_⟩
    · intro op hop
      simp only [List.mem_cons, List.not_mem_nil, or_false] at hop
      rcases hop with rfl | rfl
      · exact notPlanOp_emit _ (by simp) (fun p => by simp)
      · exact notPlanOp_persist _ _ _
    · intro i hi
      simp at hi

theorem phaseLoop_first_gen (o : Orcl) (plan : BuildPlan) (fuel k j0 : Nat)
    (ps0 : List PhaseState) (st0 : FileStatus)
    (hct : o.cancelTime = none)
    (hai : ∀ n m, o.ai n = .error m → m ≠ "Build cancelled")
    (hcomp : ∀ i, i < k → phaseStatusIn ps0 i = some .complete)
    (hk : k < plan.phases.length)
    (hknc : phaseStatusIn ps0 k ≠ some .complete)
    (hdone : ∀ r, r < j0 →
      fileStatusAt ps0 k r = some .created ∨
      fileStatusAt ps0 k r = some .updated)
    (hj0 : fileStatusAt ps0 k j0 = some st0)
    (h1 : st0 ≠ .created) (h2 : st0 ≠ .updated)
    (hlt : j0 < (planPhaseAt plan k).files.length)
    (hfu : j0 < fuel)
    (halign : ∀ i ph, ps0.get? i = some ph →
      ph.files.length ≤ (planPhaseAt plan i).files.length) :
    ∀ (r pI : Nat) (s : RunSt),
      pI + r = plan.phases.length → pI ≤ k →
      (∀ q, pI ≤ q → s.phases.get? q = ps0.get? q) →
      ∃ ext, (phaseLoopAux o plan fuel r pI s).2.trace = s.trace ++ ext ∧
        (gens ext).head? = some (k, j0) := by
  intro r
  induction r with
  | zero =>
      intro pI s hlen hpk hinv
      omega
  | succ r ih =>
      intro pI s hlen hpk hinv
      by_cases hpkx : pI < k
      · have hcompl : (s.phases.get? pI).map (·.status) = some .complete := by
          rw [hinv pI (le_refl pI)]
          exact hcomp pI hpkx
        have hab := sigAborted_none o s hct
        have hstep : phaseIter o plan fuel pI s =
            (.ok (), s.push (.check false)) := by
          simp only [phaseIter, hab, Bool.false_eq_true, if_false,
            RunSt.push]
          rw [if_pos hcompl]
        have hstep2 : phaseLoopAux o plan fuel (r + 1) pI s =
            phaseLoopAux o plan fuel r (pI + 1) (s.push (.check false)) := by
          simp [phaseLoopAux, hstep]
        rw [hstep2]
        obtain ⟨ext, hext, hhead⟩ := ih (pI + 1) (s.push (.check false))
          (by omega) (by omega) (by intro q hq; exact hinv q (by omega))
        refine ⟨[.check false] ++ ext, ?_, ?_⟩
        · rw [hext]
          simp [RunSt.push]
        · rw [gens_append, show gens [Op.check false] = [] from rfl]
          simpa using hhead
      · have hpke : pI = k := by omega
        subst hpke
        have hnc : (s.phases.get? pI).map (·.status) ≠ some .complete := by
          rw [hinv pI (le_refl pI)]
          exact hknc
        have hfeq : ∀ r2, fileStatusAt s.phases pI r2 =
            fileStatusAt ps0 pI r2 :=
          fun r2 => fileStatusAt_congr (hinv pI (le_refl pI)) r2
        obtain ⟨e1, htr1, hh1⟩ := phaseIter_first_gen o plan fuel pI j0 s st0
          hct hai hnc
          (by intro r2 hr2; rw [hfeq r2]; exact hdone r2 hr2)
          (by rw [hfeq j0]; exact hj0) h1 h2 hlt hfu
          (by intro ph hph
              rw [hinv pI (le_refl pI)] at hph
              exact halign pI ph hph)
        rcases hpi : phaseIter o plan fuel pI s with ⟨res, s1⟩
        rw [hpi] at htr1
        obtain ⟨x, t, hxt, hx⟩ : ∃ x t, gens e1 = x :: t ∧ x = (pI, j0) := by
          cases hgx : gens e1 with
          | nil => rw [hgx] at hh1; cases hh1
          | cons x t =>
              rw [hgx] at hh1
              refine ⟨x, t, rfl, ?_⟩
              injection hh1
        cases res with
        | error m =>
            have hstep2 : phaseLoopAux o plan fuel (r + 1) pI s =
                (.error m, s1) := by
              simp [phaseLoopAux, hpi]
            rw [hstep2]
            exact ⟨e1, htr1, hh1⟩
        | ok u =>
            have hstep2 : phaseLoopAux o plan fuel (r + 1) pI s =
                phaseLoopAux o plan fuel r (pI + 1) s1 := by
              simp [phaseLoopAux, hpi]
            rw [hstep2]
            obtain ⟨e2, he2⟩ := phaseLoopAux_trExt o plan fuel r (pI + 1) s1
            refine ⟨e1 ++ e2, ?_, ?_⟩
            · rw [he2, htr1, List.append_assoc]
            · rw [gens_append, hxt, hx]
              rfl

theorem executePhases_c3 (o : Orcl) (plan : BuildPlan) (fuel k j0 : Nat)
    (ps0 : List PhaseState) (st0 : FileStatus)
    (hct : o.cancelTime = none)
    (hai : ∀ n m, o.ai n = .error m → m ≠ "Build cancelled")
    (hrev : ∀ raw, o.parseReview raw = .passed)
    (halign : ∀ i ph, ps0.get? i = some ph →
      ph.files.length ≤ (planPhaseAt plan i).files.length)
    (hcomp : ∀ i, i < k → phaseStatusIn ps0 i = some .complete)
    (hk : k < plan.phases.length)
    (hknc : phaseStatusIn ps0 k ≠ some .complete)
    (hdone : ∀ r, r < j0 →
      fileStatusAt ps0 k r = some .created ∨
      fileStatusAt ps0 k r = some .updated)
    (hj0 : fileStatusAt ps0 k j0 = some st0)
    (h1 : st0 ≠ .created) (h2 : st0 ≠ .updated)
    (hlt : j0 < (planPhaseAt plan k).files.length)
    (hfu : j0 < fuel) (s : RunSt)
    (hinv : ∀ q, s.phases.get? q = ps0.get? q) :
    ∃ ext, (executePhases o plan fuel s).2.trace = s.trace ++ ext ∧
      (∀ op ∈ ext, NotPlanOp op) ∧
      (∀ i, Op.emit (.phaseStart i) ∈ ext → k ≤ i) ∧
      (∀ kj ∈ gens ext, k ≤ kj.1 ∧
        fileStatusAt ps0 kj.1 kj.2 ≠ some .created ∧
        fileStatusAt ps0 kj.1 kj.2 ≠ some .updated) ∧
      (gens ext).head? = some (k, j0) := by
  obtain ⟨eL, htrL, hopL, hpsL, hgL⟩ :=
    phaseLoop_c3 o plan fuel k ps0 hct hrev halign hcomp
      plan.phases.length 0 s (by intro q _; exact hinv q)
  obtain ⟨eL2, htrL2, hheadL2⟩ :=
    phaseLoop_first_gen o plan fuel k j0 ps0 st0 hct hai hcomp hk hknc
      hdone hj0 h1 h2 hlt hfu halign plan.phases.length 0 s
      (by omega) (by omega) (by intro q _; exact hinv q)
  have heq : eL = eL2 := by
    rw [htrL] at htrL2
    exact List.append_cancel_left htrL2
  rw [← heq] at hheadL2
  obtain ⟨xg, tg, hxg, hxgv⟩ : ∃ x t, gens eL = x :: t ∧ x = (k, j0) := by
    cases hgx : gens eL with
    | nil => rw [hgx] at hheadL2; cases hheadL2
    | cons x t =>
        rw [hgx] at hheadL2
        refine ⟨x, t, rfl, ?_⟩
        injection hheadL2
  rcases hpl : phaseLoopAux o plan fuel plan.phases.length 0 s with ⟨resL, sL⟩
  rw [hpl] at htrL
  cases resL with
  | error m =>
      have hex : executePhases o plan fuel s = (.error m, sL) := by
        unfold executePhases
        rw [hpl]
      rw [hex]
      refine ⟨eL, htrL, hopL, hpsL, hgL, ?_⟩
      rw [hxg, hxgv]
      rfl
  | ok u =>
      have hex : executePhases o plan fuel s = summaryPhase o sL := by
        unfold executePhases
        rw [hpl]
      rw [hex]
      obtain ⟨eS, htrS, hopS, hgS, hpsS⟩ := summaryPhase_ops o sL hct
      refine ⟨eL ++ eS, ?_, ?_, ?_, ?_, ?_⟩
      · rw [htrS, htrL, List.append_assoc]
      · intro op hop
        rcases List.mem_append.mp hop with h | h
        exacts [hopL op h, hopS op h]
      · intro i hi
        rcases List.mem_append.mp hi with h | h
        · exact hpsL i h
        · exact absurd h (hpsS i)
      · intro kj hkj
        rw [gens_append, hgS] at hkj
        rcases List.mem_append.mp hkj with h | h
        · exact hgL kj h
        · cases h
      · rw [gens_append, hgS, hxg, hxgv]
        rfl

/-- C3: `resume()` on a persisted build with a stored plan, stored phase
states and a functioning upstream re-enters the phase loop directly: the
trace begins with `plan-approved` followed by the `building` persist (no
planning emission, no planning call, anywhere); no phase before the
first non-complete phase `k` emits `phase-start`; every file generation
targets a phase at or past `k` and never a file already
`created`/`updated` in the stored states; the first file generated is
exactly the first non-complete file `j0` of phase `k`; the initial
runner state takes its phase states and its Project Memory from the
build record and the File Store; and File Store content overrides the
serialized memory for any path it holds. -/
theorem c3_resume_skips :
    ∀ (o : Orcl) (build : BuildRec) (storeFiles : List (String × String))
      (fuel : Nat) (plan : BuildPlan) (ps0 : List PhaseState) (k j0 : Nat),
      o.cancelTime = none →
      (∀ n m, o.ai n = .error m → m ≠ "Build cancelled") →
      (∀ raw, o.parseReview raw = .passed) →
      build.plan = some plan →
      build.phases = some ps0 →
      (∀ i ph, ps0.get? i = some ph →
        ph.files.length ≤ (planPhaseAt plan i).files.length) →
      (∀ i, i < k → phaseStatusIn ps0 i = some .complete) →
      k < plan.phases.length →
      phaseStatusIn ps0 k ≠ some .complete →
      (ps0.get? k).bind (fun ph => firstPendingAux ph.files 0) = some j0 →
      j0 < fuel →
      (∃ rest, (resume o build storeFiles fuel).trace =
        .emit .planApproved :: .persist none (some "building") none ::
          rest) ∧
      (∀ op ∈ (resume o build storeFiles fuel).trace, NotPlanOp op) ∧
      (∀ i, Op.emit (.phaseStart i) ∈ (resume o build storeFiles fuel).trace →
        k ≤ i) ∧
      (∀ kj ∈ gens (resume o build storeFiles fuel).trace, k ≤ kj.1 ∧
        fileStatusAt ps0 kj.1 kj.2 ≠ some .created ∧
        fileStatusAt ps0 kj.1 kj.2 ≠ some .updated) ∧
      (gens (resume o build storeFiles fuel).trace).head? = some (k, j0) ∧
      ((initResumeSt build storeFiles).phases = ps0 ∧
        (initResumeSt build storeFiles).memory =
          hydrateMemory build.fileMemory storeFiles) ∧
      (∀ (fm sf1 sf2 : List (String × String)) (p c : String), c ≠ "" →
        (∀ f ∈ sf2, f.2 ≠ "" → f.1 ≠ p) →
        alookup (hydrateMemory fm (sf1 ++ (p, c) :: sf2)) p = some c) := by
  intro o build storeFiles fuel plan ps0 k j0 hct hai hrev hplan hphs halign
    hcomp hk hknc hj0 hfu
  obtain ⟨ph, hph⟩ : ∃ ph, ps0.get? k = some ph := by
    cases hg : ps0.get? k with
    | none => rw [hg] at hj0; cases hj0
    | some ph2 => exact ⟨ph2, rfl⟩
  have hfp : firstPendingAux ph.files 0 = some j0 := by
    rw [hph] at hj0
    exact hj0
  obtain ⟨r0, hr0, hrlen, hdoneq, f0, hf0, hf0c, hf0u⟩ :=
    firstPendingAux_spec ph.files 0 j0 hfp
  have hr0j : j0 = r0 := by omega
  subst hr0j
  have hdone0 : ∀ q, q < j0 →
      fileStatusAt ps0 k q = some .created ∨
      fileStatusAt ps0 k q = some .updated := by
    intro q hq
    obtain ⟨f, hfq, hfd⟩ := hdoneq q hq
    have hfs : fileStatusAt ps0 k q = some f.status := by
      simp only [fileStatusAt]
      rw [hph, Option.some_bind, hfq]
      rfl
    rcases hfd with h | h
    · left; rw [hfs, h]
    · right; rw [hfs, h]
  have hj0st : fileStatusAt ps0 k j0 = some f0.status := by
    simp only [fileStatusAt]
    rw [hph, Option.some_bind, hf0]
    rfl
  have hlt : j0 < (planPhaseAt plan k).files.length := by
    have := halign k ph hph
    omega
  have hS1tr : (((initResumeSt build storeFiles).push
      (.emit .planApproved)).push
      (.persist none (some "building") none)).trace =
      [Op.emit .planApproved, Op.persist none (some "building") none] := by
    simp [initResumeSt, RunSt.push]
  have hS1ph : ∀ q, (((initResumeSt build storeFiles).push
      (.emit .planApproved)).push
      (.persist none (some "building") none)).phases.get? q =
      ps0.get? q := by
    intro q
    show (initResumeSt build storeFiles).phases.get? q = ps0.get? q
    simp [initResumeSt, hphs]
  have hstep : resume o build storeFiles fuel =
      (match executePhases o plan fuel
          (((initResumeSt build storeFiles).push (.emit .planApproved)).push
            (.persist none (some "building") none)) with
       | (.ok _, s2) => s2
       | (.error m, s2) => catchRun o m s2) := by
    simp only [resume, hplan]
  obtain ⟨eE, htrE, hopE, hpsE, hgE, hheadE⟩ :=
    executePhases_c3 o plan fuel k j0 ps0 f0.status hct hai hrev halign
      hcomp hk hknc hdone0 hj0st hf0c hf0u hlt hfu
      (((initResumeSt build storeFiles).push (.emit .planApproved)).push
        (.persist none (some "building") none)) hS1ph
  obtain ⟨xg, tg, hxg, hxgv⟩ : ∃ x t, gens eE = x :: t ∧ x = (k, j0) := by
    cases hgx : gens eE with
    | nil => rw [hgx] at hheadE; cases hheadE
    | cons x t =>
        rw [hgx] at hheadE
        refine ⟨x, t, rfl, ?_⟩
        injection hheadE
  rcases hex : executePhases o plan fuel
      (((initResumeSt build storeFiles).push (.emit .planApproved)).push
        (.persist none (some "building") none)) with ⟨resE, sE⟩
  rw [hex] at htrE
  have hsuff : ∃ eR, (resume o build storeFiles fuel).trace =
      [Op.emit .planApproved, Op.persist none (some "building") none] ++
        (eE ++ eR) ∧
      (∀ op ∈ eR, NotPlanOp op) ∧ gens eR = [] ∧
      (∀ i, ¬ Op.emit (.phaseStart i) ∈ eR) := by
    cases resE with
    | ok u =>
        have hfin : resume o build storeFiles fuel = sE := by
          rw [hstep, hex]
        refine ⟨[], ?_, by simp, rfl, by simp⟩
        rw [hfin, htrE, hS1tr]
        simp
    | error m =>
        have hfin : resume o build storeFiles fuel = catchRun o m sE := by
          rw [hstep, hex]
        obtain ⟨eC, htrC, hopC, hgC, hpsC⟩ := catchRun_ops o m sE
        refine ⟨eC, ?_, hopC, hgC, hpsC⟩
        rw [hfin, htrC, htrE, hS1tr]
        simp
  obtain ⟨eR, htot, hopR, hgR, hpsR⟩ := hsuff
  refine ⟨?_, ?_, ?_, ?_, ?_, ?_, ?_⟩
  · exact ⟨eE ++ eR, by rw [htot]; simp⟩
  · intro op hop
    rw [htot] at hop
    rcases List.mem_append.mp hop with h | h
    · simp only [List.mem_cons, List.not_mem_nil, or_false] at h
      rcases h with rfl | rfl
      · exact notPlanOp_emit _ (by simp) (fun p => by simp)
      · exact notPlanOp_persist _ _ _
    · rcases List.mem_append.mp h with h2 | h2
      · exact hopE op h2
      · exact hopR op h2
  · intro i hi
    rw [htot] at hi
    rcases List.mem_append.mp hi with h | h
    · simp at h
    · rcases List.mem_append.mp h with h2 | h2
      · exact hpsE i h2
      · exact absurd h2 (hpsR i)
  · intro kj hkj
    rw [htot, gens_append, gens_append, hgR] at hkj
    rcases List.mem_append.mp hkj with h | h
    · rw [show gens [Op.emit BuildEvent.planApproved,
        Op.persist none (some "building") none] = [] from rfl] at h
      cases h
    · rcases List.mem_append.mp h with h2 | h2
      · exact hgE kj h2
      · cases h2
  · rw [htot, gens_append, gens_append, hgR,
      show gens [Op.emit BuildEvent.planApproved,
        Op.persist none (some "building") none] = [] from rfl, hxg, hxgv]
    rfl
  · exact ⟨by simp [initResumeSt, hphs], rfl⟩
  · intro fm sf1 sf2 p c hc hsf
    exact hydrateMemory_store_wins fm sf1 sf2 p c hc hsf

/-- C3 (witness): resuming the half-done two-phase build regenerates
nothing of phase 0 and continues exactly at phase 1's second file. -/
theorem c3_resume_skips_witness :
    (gens (resume pureO buildP4 sfP4 10).trace).head? = some (1, 1) ∧
    (∀ i, Op.emit (.phaseStart i) ∈ (resume pureO buildP4 sfP4 10).trace →
      1 ≤ i) := by
  have h := c3_resume_skips pureO buildP4 sfP4 10 planP4 ps0P4 1 1
    rfl
    (by intro n m hm; simp [pureO] at hm)
    (fun raw => rfl) rfl rfl
    (by intro i ph hph
        cases i with
        | zero =>
            injection hph with h2
            rw [← h2]
            decide
        | succ i1 =>
            cases i1 with
            | zero =>
                injection hph with h2
                rw [← h2]
                decide
            | succ i2 => exact absurd hph (by simp [ps0P4, List.get?]))
    (by intro i hi
        have hi0 : i = 0 := by omega
        subst hi0
        rfl)
    (by decide) (by decide) (by rfl) (by decide)
  exact ⟨h.2.2.2.2.1, h.2.2.1⟩

end AuroraCraft
